import Mathlib

/-!
Shallow embedding of the peer address manager of PKT-FullNode
(`addrmgr/addrmanager.go`) together with proofs about its behaviour.

Modelling conventions:

* `wire.NetAddress` is modelled by its observable components: the canonical
  fingerprint (the `addrutil.NetAddressKey` host:port string, injective over
  (IP, port), represented by a `Nat`), the service bitmap (a `Nat` bitmap) and
  the announcement timestamp (Unix seconds as `Int`; the Go zero `time.Time`
  is represented by `0`, matching the `After(time.Unix(0,0))` tests).
* The injected helpers that live outside the translated file
  (`addrutil.GroupKey`, `addrutil.NetAddressKey` byte encoding,
  `addrutil.IsRoutable`, `chainhash.DoubleHashB`, `KnownAddress.isBad`,
  `localaddrs` oracle) are modelled as components of an `Env` record;
  theorems quantify over them.
* `math/rand` draws are modelled by an oracle `draw : Nat → Nat` mapping the
  requested exclusive bound to the drawn value; theorems either quantify over
  the oracle or instantiate it with a concrete outcome sequence, both of which
  correspond to possible generator outputs.
* Go maps keyed by the address fingerprint are modelled as association lists
  (`List (Nat × KnownAddress)`); Go map iteration order is modelled by list
  order.  The bucket arrays are modelled as functions `Nat → List Nat` from
  the bucket number to the fingerprints stored in the bucket.
* `time.Now()` is modelled by an explicit `now : Int` parameter.
-/

set_option maxHeartbeats 1000000
set_option maxRecDepth 40000

namespace Addrmgr

/-! ### Constants from addrmanager.go -/

def triedBucketSize : Nat := 256
def triedBucketCount : Nat := 64
def newBucketSize : Nat := 64
def newBucketCount : Nat := 1024
def triedBucketsPerGroup : Nat := 8
def newBucketsPerGroup : Nat := 64
def newBucketsPerAddress : Nat := 8
def getAddrMax : Nat := 5000
def getAddrMin : Nat := 20
def getAddrPercent : Nat := 23
def serialisationVersion : Int := 2

/-- Modelled from the spec: `protocol.SFNodeNetwork`, the default service bit
assigned to version-1 snapshot entries (the `wire/protocol` package is not
part of the translated source).  Its concrete value is irrelevant to the
claims; it is some fixed bit of the bitmap. -/
def SFNodeNetwork : Nat := 1

/-- Modelled from the spec: `protocol.SFTrusted`, the "trusted source" service
flag tested by the selector (glossary: "a peer carrying a protocol flag that
lets the selector accept its gossip without prior success").  Its concrete
value is irrelevant to the claims; it is some fixed bit of the bitmap. -/
def SFTrusted : Nat := 1024

/-! ### Data model -/

/-- `wire.NetAddress`, reduced to the components the address manager reads:
fingerprint (canonical host:port key), service bitmap, timestamp. -/
structure NetAddress where
  fp : Nat
  services : Nat
  timestamp : Int
deriving DecidableEq, Repr

/-- `KnownAddress` (knownaddress.go): the tracked record for one address. -/
structure KnownAddress where
  na : NetAddress
  srcAddr : NetAddress
  attempts : Nat
  lastattempt : Int
  lastsuccess : Int
  refs : Int
  tried : Bool
deriving DecidableEq, Repr

/-- The injected collaborators of the address manager.

* `hashU64 data` models `binary.LittleEndian.Uint64(chainhash.DoubleHashB data)`,
  the only use the manager makes of the hash.
* `groupOf fp` models the bytes of `addrutil.GroupKey` of the address with
  fingerprint `fp` (the group is a function of the IP, hence of the
  fingerprint).
* `fpBytes fp` models the byte encoding of the fingerprint string
  `addrutil.NetAddressKey`.
* `routable fp` models `addrutil.IsRoutable`.
* `isBad` models `KnownAddress.isBad` (knownaddress.go, outside the
  translated file); the spec classifies a record bad from `lastSuccess`,
  `attempts` and `na.timestamp`, all fields of the record.
* `reachable`/`localWorking` model the `localaddrs` oracle used by
  `isGoodAddress`. -/
structure Env where
  hashU64 : List Nat → Nat
  groupOf : Nat → List Nat
  fpBytes : Nat → List Nat
  routable : Nat → Bool
  isBad : KnownAddress → Bool
  reachable : Nat → Bool
  localWorking : Bool

/-- Little-endian 8-byte encoding, modelling
`binary.LittleEndian.PutUint64`. -/
def u64le (n : Nat) : List Nat :=
  [n % 256, n / 256 % 256, n / 65536 % 256, n / 16777216 % 256,
   n / 4294967296 % 256, n / 1099511627776 % 256,
   n / 281474976710656 % 256, n / 72057594037927936 % 256]

/-- `AddrManager.getNewBucket`:
`doublesha256(key + sourcegroup + int64(doublesha256(key + group + sourcegroup)) % bucket_per_source_group) % num_new_buckets`. -/
def getNewBucket (env : Env) (key : List Nat) (netAddr srcAddr : NetAddress) : Nat :=
  let data1 := key ++ env.groupOf netAddr.fp ++ env.groupOf srcAddr.fp
  let hash64 := env.hashU64 data1 % newBucketsPerGroup
  let data2 := key ++ env.groupOf srcAddr.fp ++ u64le hash64
  env.hashU64 data2 % newBucketCount

/-- `AddrManager.getTriedBucket`:
`doublesha256(key + group + truncate_to_64bits(doublesha256(key + netaddresskey)) % buckets_per_group) % num_buckets`. -/
def getTriedBucket (env : Env) (key : List Nat) (netAddr : NetAddress) : Nat :=
  let data1 := key ++ env.fpBytes netAddr.fp
  let hash64 := env.hashU64 data1 % triedBucketsPerGroup
  let data2 := key ++ env.groupOf netAddr.fp ++ u64le hash64
  env.hashU64 data2 % triedBucketCount

/-- The full manager state (the mutex, file handles and background tasks are
not part of the state the claims are about). -/
structure AddrManager where
  key : List Nat
  addrIndex : List (Nat × KnownAddress)
  addrNew : Nat → List Nat
  addrTried : Nat → List Nat
  nTried : Int
  nNew : Int
  version : Int

/-- Association-list lookup, modelling a Go map read. -/
def lookupKa : List (Nat × KnownAddress) → Nat → Option KnownAddress
  | [], _ => none
  | p :: rest, fp => if p.1 = fp then some p.2 else lookupKa rest fp

/-- Overwrite the record stored at `fp` (no-op when absent), modelling a Go
map write to an existing key / an in-place mutation of the record. -/
def setKa (idx : List (Nat × KnownAddress)) (fp : Nat) (ka : KnownAddress) :
    List (Nat × KnownAddress) :=
  idx.map (fun p => if p.1 = fp then (fp, ka) else p)

/-- Go map assignment `m[fp] = ka`: overwrite when present, append when new. -/
def insertKa (idx : List (Nat × KnownAddress)) (fp : Nat) (ka : KnownAddress) :
    List (Nat × KnownAddress) :=
  if (lookupKa idx fp).isSome then setKa idx fp ka else idx ++ [(fp, ka)]

/-- Go map deletion `delete(m, fp)`. -/
def eraseKa (idx : List (Nat × KnownAddress)) (fp : Nat) : List (Nat × KnownAddress) :=
  idx.filter (fun p => p.1 != fp)

/-- Update one bucket of a bucket array. -/
def setBucket (f : Nat → List Nat) (i : Nat) (l : List Nat) : Nat → List Nat :=
  fun j => if j = i then l else f j

/-- Go map-of-set assignment `m[v] = ka` on a bucket keyed by fingerprint:
adds the key when absent. -/
def insertKey (l : List Nat) (v : Nat) : List Nat :=
  if v ∈ l then l else l ++ [v]

/-- `AddrManager.find`. -/
def find (a : AddrManager) (addr : NetAddress) : Option KnownAddress :=
  lookupKa a.addrIndex addr.fp

/-- `AddrManager.numAddresses`. -/
def numAddresses (a : AddrManager) : Int :=
  a.nTried + a.nNew

/-! ### updateAddress and expireNew -/

/-- One removal of `fp` from a new bucket with the accompanying bookkeeping of
`expireNew`: `delete(a.addrNew[bucket], k)`, `v.refs--`, and when the
reference count reaches zero `a.nNew--` and removal from the index. -/
def decRefDrop (a : AddrManager) (bucket : Nat) (fp : Nat) : AddrManager :=
  match lookupKa a.addrIndex fp with
  | none =>
    { a with addrNew := setBucket a.addrNew bucket ((a.addrNew bucket).filter (fun k => k != fp)) }
  | some ka =>
    if ka.refs - 1 = 0 then
      { a with addrNew := setBucket a.addrNew bucket ((a.addrNew bucket).filter (fun k => k != fp)),
               addrIndex := eraseKa a.addrIndex fp, nNew := a.nNew - 1 }
    else
      { a with addrNew := setBucket a.addrNew bucket ((a.addrNew bucket).filter (fun k => k != fp)),
               addrIndex := setKa a.addrIndex fp { ka with refs := ka.refs - 1 } }

/-- One iteration of `expireNew`'s range loop over the bucket: a bad entry is
removed (with bookkeeping); a non-bad entry updates the running oldest
(`!v.na.Timestamp.After(oldest.na.Timestamp)`, so a later entry with an equal
timestamp replaces the held one).  The accumulator stores the fingerprint and
the timestamp of the running oldest entry.  Entries of the bucket always
resolve in the index under the representation invariant (the Go bucket map
stores the records directly); an unresolvable entry is skipped. -/
def expireStep (env : Env) (bucket : Nat)
    (st : AddrManager × Option (Nat × Int)) (fp : Nat) :
    AddrManager × Option (Nat × Int) :=
  match lookupKa st.1.addrIndex fp with
  | none => st
  | some ka =>
    if env.isBad ka then (decRefDrop st.1 bucket fp, st.2)
    else
      match st.2 with
      | none => (st.1, some (fp, ka.na.timestamp))
      | some (ofp, ots) =>
        if ka.na.timestamp ≤ ots then (st.1, some (fp, ka.na.timestamp))
        else (st.1, some (ofp, ots))

/-- The final step of `expireNew`: when an oldest non-bad entry was remembered
by the scan, remove it with the same decrement logic. -/
def expireFinish (bucket : Nat) (st : AddrManager × Option (Nat × Int)) : AddrManager :=
  match st.2 with
  | none => st.1
  | some (ofp, _) => decRefDrop st.1 bucket ofp

/-- `AddrManager.expireNew`: remove every bad entry of the bucket, then remove
the remembered oldest non-bad entry when one exists. -/
def expireNew (env : Env) (a : AddrManager) (bucket : Nat) : AddrManager :=
  expireFinish bucket ((a.addrNew bucket).foldl (expireStep env bucket) (a, none))

/-- `ka.refs++` on the record stored at `addr` (`ka` is a pointer in the Go
code, so when the index no longer holds the record the increment does not
change the index). -/
def bumpRefs (idx : List (Nat × KnownAddress)) (addr : Nat) : List (Nat × KnownAddress) :=
  match lookupKa idx addr with
  | none => idx
  | some ka => setKa idx addr { ka with refs := ka.refs + 1 }

/-- The insertion at the end of `updateAddress`: `ka.refs++` and
`a.addrNew[bucket][addr] = ka`. -/
def insertNew (a1 : AddrManager) (bucket addr : Nat) : AddrManager :=
  { a1 with addrIndex := bumpRefs a1.addrIndex addr,
            addrNew := setBucket a1.addrNew bucket (insertKey (a1.addrNew bucket) addr) }

/-- Tail of `updateAddress` after the record is installed in the index: compute
the new bucket, stop when the pair already exists, expire when the bucket is
over `newBucketSize`, then `ka.refs++` and insert. -/
def addToNewBucket (env : Env) (a : AddrManager) (addr : Nat)
    (netAddr srcAddr : NetAddress) : AddrManager :=
  if addr ∈ a.addrNew (getNewBucket env a.key netAddr srcAddr) then a
  else
    insertNew
      (if (a.addrNew (getNewBucket env a.key netAddr srcAddr)).length > newBucketSize
       then expireNew env a (getNewBucket env a.key netAddr srcAddr) else a)
      (getNewBucket env a.key netAddr srcAddr) addr

/-- The `naCopy` replacement of `updateAddress`: the incoming timestamp and
the union of the service bitmaps. -/
def naReplaced (netAddr : NetAddress) (ka0 : KnownAddress) : NetAddress :=
  { ka0.na with timestamp := netAddr.timestamp,
                services := Nat.lor ka0.na.services netAddr.services }

/-- The known record after the resighting update of `updateAddress`: the
pointer is replaced exactly when the incoming timestamp is newer or the
incoming services carry bits the record lacks. -/
def updatedKa (netAddr : NetAddress) (ka0 : KnownAddress) : KnownAddress :=
  if netAddr.timestamp > ka0.na.timestamp ∨
      Nat.land ka0.na.services netAddr.services ≠ netAddr.services then
    { ka0 with na := naReplaced netAddr ka0 }
  else ka0

/-- The state holding the updated record. -/
def updatedState (a : AddrManager) (netAddr : NetAddress) (ka0 : KnownAddress) :
    AddrManager :=
  { a with addrIndex := setKa a.addrIndex netAddr.fp (updatedKa netAddr ka0) }

/-- `AddrManager.updateAddress`.  `draw n` models `a.rand.Int31n(n)`. -/
def updateAddress (env : Env) (draw : Nat → Nat) (a : AddrManager)
    (netAddr srcAddr : NetAddress) : AddrManager :=
  if !(env.routable netAddr.fp) then a
  else
    match lookupKa a.addrIndex netAddr.fp with
    | some ka0 =>
      if (updatedKa netAddr ka0).tried then updatedState a netAddr ka0
      else if (updatedKa netAddr ka0).refs = (newBucketsPerAddress : Int) then
        updatedState a netAddr ka0
      else if draw (2 * (updatedKa netAddr ka0).refs).toNat ≠ 0 then
        updatedState a netAddr ka0
      else addToNewBucket env (updatedState a netAddr ka0) netAddr.fp netAddr srcAddr
    | none =>
      addToNewBucket env
        { a with
          addrIndex := insertKa a.addrIndex netAddr.fp
            { na := netAddr, srcAddr := srcAddr, attempts := 0,
              lastattempt := 0, lastsuccess := 0, refs := 0, tried := false },
          nNew := a.nNew + 1 }
        netAddr.fp netAddr srcAddr

/-- `AddrManager.AddAddress` (the mutex is not modelled). -/
def AddAddress (env : Env) (draw : Nat → Nat) (a : AddrManager)
    (addr srcAddr : NetAddress) : AddrManager :=
  updateAddress env draw a addr srcAddr

/-- `AddrManager.AddAddresses`. -/
def AddAddresses (env : Env) (draw : Nat → Nat) (a : AddrManager)
    (addrs : List NetAddress) (srcAddr : NetAddress) : AddrManager :=
  addrs.foldl (fun s na => updateAddress env draw s na srcAddr) a

/-- The empty manager produced by `New`/`reset`: fresh index, buckets and key;
`New` starts with zero counters and version `serialisationVersion`. -/
def newManager (key : List Nat) : AddrManager :=
  { key := key, addrIndex := [], addrNew := fun _ => [], addrTried := fun _ => [],
    nTried := 0, nNew := 0, version := serialisationVersion }

/-! ### Good, Connected, SetServices -/

/-- The ascending list of new buckets containing `fp` (the `for i := range
a.addrNew` removal loop of `Good` visits the array in ascending order; the
first hit is remembered as `oldBucket`). -/
def newBucketsContaining (a : AddrManager) (fp : Nat) : List Nat :=
  (List.range newBucketCount).filter (fun i => decide (fp ∈ a.addrNew i))

/-- `AddrManager.pickTried`: linear scan of the tried bucket returning the
element whose record has the smallest `na.timestamp`
(`oldest == nil || oldest.na.Timestamp.After(ka.na.Timestamp)`, so the first
minimum is kept on ties).  Returns the position in the list and the
fingerprint; the held timestamp is threaded through the accumulator.  Entries
always resolve in the index under the representation invariant; an
unresolvable entry is skipped. -/
def pickTriedAux (a : AddrManager) (bucket : Nat) : Option (Nat × Nat × Int) :=
  ((a.addrTried bucket).enum).foldl
    (fun best p =>
      match lookupKa a.addrIndex p.2 with
      | none => best
      | some ka =>
        match best with
        | none => some (p.1, p.2, ka.na.timestamp)
        | some (bi, bfp, bts) =>
          if bts > ka.na.timestamp then some (p.1, p.2, ka.na.timestamp)
          else some (bi, bfp, bts)) none

def pickTried (a : AddrManager) (bucket : Nat) : Option (Nat × Nat) :=
  (pickTriedAux a bucket).map (fun t => (t.1, t.2.1))

/-- The promotion tail of `Good`: insert into the tried bucket, evicting the
oldest entry of a full bucket back into the new tier. -/
def goodPromote (env : Env) (a1 : AddrManager) (addrKey : Nat) (ka2 : KnownAddress)
    (oldBucket : Nat) : AddrManager :=
  let bucket := getTriedBucket env a1.key ka2.na
  if (a1.addrTried bucket).length < triedBucketSize then
    { a1 with
      addrIndex := setKa a1.addrIndex addrKey { ka2 with tried := true },
      addrTried := setBucket a1.addrTried bucket (a1.addrTried bucket ++ [addrKey]),
      nTried := a1.nTried + 1 }
  else
    match pickTried a1 bucket with
    | none => a1
    | some (pos, rmfp) =>
      match lookupKa a1.addrIndex rmfp with
      | none => a1
      | some rmka =>
        let newBucket0 := getNewBucket env a1.key rmka.na rmka.srcAddr
        let newBucket :=
          if (a1.addrNew newBucket0).length ≥ newBucketSize then oldBucket else newBucket0
        { a1 with
          addrIndex := setKa (setKa a1.addrIndex addrKey { ka2 with tried := true }) rmfp
            { rmka with tried := false, refs := rmka.refs + 1 },
          addrTried := setBucket a1.addrTried bucket ((a1.addrTried bucket).set pos addrKey),
          addrNew := setBucket a1.addrNew newBucket (insertKey (a1.addrNew newBucket) rmfp),
          nNew := a1.nNew + 1 }

/-- The record after `Good`'s bookkeeping: `lastsuccess = lastattempt = now`,
`attempts = 0`. -/
def goodUpdateKa (now : Int) (ka0 : KnownAddress) : KnownAddress :=
  { ka0 with lastsuccess := now, lastattempt := now, attempts := 0 }

/-- The state after the bookkeeping write (before the new-bucket removal). -/
def goodA0 (now : Int) (a : AddrManager) (addrKey : Nat) (ka0 : KnownAddress) : AddrManager :=
  { a with addrIndex := setKa a.addrIndex addrKey (goodUpdateKa now ka0) }

/-- The record after the removal loop decremented `refs` once per containing
new bucket. -/
def goodKa2 (now : Int) (a : AddrManager) (addrKey : Nat) (ka0 : KnownAddress) :
    KnownAddress :=
  { goodUpdateKa now ka0 with refs := (goodUpdateKa now ka0).refs
      - ((newBucketsContaining (goodA0 now a addrKey ka0) addrKey).length : Int) }

/-- The state after `Good` removed the address from every new bucket and did
`a.nNew--`. -/
def goodRemoveNew (now : Int) (a : AddrManager) (addrKey : Nat) (ka0 : KnownAddress) :
    AddrManager :=
  { goodA0 now a addrKey ka0 with
    addrIndex := setKa (goodA0 now a addrKey ka0).addrIndex addrKey
      (goodKa2 now a addrKey ka0),
    addrNew := fun j =>
      if j < newBucketCount
      then ((goodA0 now a addrKey ka0).addrNew j).filter (fun k => k != addrKey)
      else (goodA0 now a addrKey ka0).addrNew j,
    nNew := (goodA0 now a addrKey ka0).nNew - 1 }

/-- The body of `Good` once the record has been found: bookkeeping write,
early return for tried records, removal from all new buckets (the first
containing bucket is `oldBucket`; when there is none the function stops after
the `nNew` decrement), then promotion. -/
def goodKnown (env : Env) (now : Int) (a : AddrManager) (addrKey : Nat)
    (ka0 : KnownAddress) : AddrManager :=
  if (goodUpdateKa now ka0).tried then goodA0 now a addrKey ka0
  else
    match (newBucketsContaining (goodA0 now a addrKey ka0) addrKey).head? with
    | none => goodRemoveNew now a addrKey ka0
    | some oldBucket =>
      goodPromote env (goodRemoveNew now a addrKey ka0) addrKey
        (goodKa2 now a addrKey ka0) oldBucket

/-- `AddrManager.Good`. -/
def Good (env : Env) (now : Int) (a : AddrManager) (addr : NetAddress) : AddrManager :=
  match lookupKa a.addrIndex addr.fp with
  | none => a
  | some ka0 =>
    goodKnown env now a addr.fp ka0

/-- `AddrManager.Connected`: refresh the timestamp of a known address when it
is more than 20 minutes old (1200 seconds). -/
def Connected (now : Int) (a : AddrManager) (addr : NetAddress) : AddrManager :=
  match lookupKa a.addrIndex addr.fp with
  | none => a
  | some ka =>
    if now > ka.na.timestamp + 20 * 60 then
      let naCopy : NetAddress := { ka.na with timestamp := now }
      { a with addrIndex := setKa a.addrIndex addr.fp { ka with na := naCopy } }
    else a

/-- `AddrManager.SetServices`. -/
def SetServices (a : AddrManager) (addr : NetAddress) (services : Nat) : AddrManager :=
  match lookupKa a.addrIndex addr.fp with
  | none => a
  | some ka =>
    if ka.na.services ≠ services then
      let naCopy : NetAddress := { ka.na with services := services }
      { a with addrIndex := setKa a.addrIndex addr.fp { ka with na := naCopy } }
    else a

/-! ### AddressesToShare -/

/-- `AddrManager.addressesThatOnceWorked`: addresses with
`lastsuccess.After(time.Unix(0,0))`. -/
def addressesThatOnceWorked (a : AddrManager) : List NetAddress :=
  (a.addrIndex.filter (fun p => decide (p.2.lastsuccess > 0))).map (fun p => p.2.na)

/-- Swap two positions of a list (the Go parallel assignment
`allAddr[i], allAddr[j] = allAddr[j], allAddr[i]`). -/
def swapL (l : List NetAddress) (i j : Nat) : List NetAddress :=
  match l.get? i, l.get? j with
  | some x, some y => (l.set i y).set j x
  | _, _ => l

/-- The partial Fisher-Yates shuffle of `AddressesToShare`: for each
`i < num`, pick `j := rand.Intn(len-i) + i` and swap.  The global
`math/rand` generator is modelled by the `draw` oracle. -/
def fisherYates (draw : Nat → Nat) (l : List NetAddress) (num : Nat) : List NetAddress :=
  (List.range num).foldl
    (fun acc i => swapL acc i (draw (l.length - i) % (l.length - i) + i)) l

/-- `AddrManager.AddressesToShare`. -/
def AddressesToShare (draw : Nat → Nat) (a : AddrManager) : List NetAddress :=
  let allAddr := addressesThatOnceWorked a
  let n0 := allAddr.length * getAddrPercent / 100
  let numAddresses := if n0 > getAddrMax then getAddrMax
    else if n0 < getAddrMin then allAddr.length
    else n0
  (fisherYates draw allAddr numAddresses).take numAddresses

/-! ### The selector -/

/-- `AddrManager.isGoodAddress`.  The candidate filter: reachability oracle,
a 60-second back-off on `lastattempt`, the strict-mode gate (trusted source
service flag or a past success), the external `isOk` callback, and the
re-validation of `lastattempt` after the lock is re-acquired (in this
sequential model the same `now` is used for both checks). -/
def isGoodAddress (env : Env) (now : Int) (relaxed : Bool)
    (isOk : KnownAddress → Bool) (ka : KnownAddress) : Bool :=
  if !env.reachable ka.na.fp && env.localWorking then false
  else if decide (ka.lastattempt + 60 > now) then false
  else if !(relaxed || decide (Nat.land ka.srcAddr.services SFTrusted = SFTrusted)
      || decide (ka.lastsuccess > 0)) then false
  else if !isOk ka then false
  else if decide (ka.lastattempt + 60 > now) then false
  else true

/-- Scan a bucket's fingerprints starting at offset `sp`, continuing past the
end and wrapping to the front, returning the first entry passing
`isGoodAddress` (both tiers use this forward-then-wrap order). -/
def scanBucketFps (env : Env) (now : Int) (relaxed : Bool) (isOk : KnownAddress → Bool)
    (a : AddrManager) (l : List Nat) (sp : Nat) : Option KnownAddress :=
  (l.drop sp ++ l.take sp).findSome? (fun fp =>
    match lookupKa a.addrIndex fp with
    | none => none
    | some ka => if isGoodAddress env now relaxed isOk ka then some ka else none)

/-- `AddrManager.getTriedAddress`: draw a start bucket, then sweep
`bucketMod` from `startBucket` while `bucketMod < startBucket*2` (an empty
sweep when the drawn start bucket is 0). -/
def getTriedAddress (env : Env) (draw : Nat → Nat) (now : Int) (a : AddrManager)
    (relaxed : Bool) (isOk : KnownAddress → Bool) : Option KnownAddress :=
  let startBucket := draw triedBucketCount % triedBucketCount
  (List.range' startBucket startBucket).findSome? (fun bucketMod =>
    let bucket := bucketMod % triedBucketCount
    let l := a.addrTried bucket
    if l.length = 0 then none
    else scanBucketFps env now relaxed isOk a l (draw l.length % l.length))

/-- `AddrManager.getUntriedAddress`: the same bounded sweep over the new
buckets. -/
def getUntriedAddress (env : Env) (draw : Nat → Nat) (now : Int) (a : AddrManager)
    (relaxed : Bool) (isOk : KnownAddress → Bool) : Option KnownAddress :=
  let startBucket := draw newBucketCount % newBucketCount
  (List.range' startBucket startBucket).findSome? (fun bucketMod =>
    let bucket := bucketMod % newBucketCount
    let l := a.addrNew bucket
    if l.length = 0 then none
    else scanBucketFps env now relaxed isOk a l (draw l.length % l.length))

/-- One mode of `AddrManager.getAddress`: coin-flip the tier order, falling
back to the other tier. -/
def getAddressMode (env : Env) (draw : Nat → Nat) (now : Int) (a : AddrManager)
    (relaxed : Bool) (isOk : KnownAddress → Bool) : Option KnownAddress :=
  if a.nTried > 0 ∧ (a.nNew = 0 ∨ draw 2 % 2 = 0) then
    match getTriedAddress env draw now a relaxed isOk with
    | some ka => some ka
    | none => getUntriedAddress env draw now a relaxed isOk
  else
    match getUntriedAddress env draw now a relaxed isOk with
    | some ka => some ka
    | none => getTriedAddress env draw now a relaxed isOk

/-- `AddrManager.getAddress`: strict mode first, then the single relaxed-mode
retry (the Go function recurses once with `relaxedMode = true`). -/
def getAddress (env : Env) (draw : Nat → Nat) (now : Int) (a : AddrManager)
    (isOk : KnownAddress → Bool) : Option KnownAddress :=
  match getAddressMode env draw now a false isOk with
  | some ka => some ka
  | none => getAddressMode env draw now a true isOk

/-- `AddrManager.GetAddress`: the public entry point; on success the chosen
record receives `attempts++` and `lastattempt = now`.  Returns the candidate
(as the caller observes it) and the updated manager. -/
def GetAddress (env : Env) (draw : Nat → Nat) (now : Int) (a : AddrManager)
    (isOk : KnownAddress → Bool) : Option KnownAddress × AddrManager :=
  if numAddresses a = 0 then (none, a)
  else
    match getAddress env draw now a isOk with
    | none => (none, a)
    | some ka =>
      let ka2 : KnownAddress := { ka with attempts := ka.attempts + 1, lastattempt := now }
      (some ka2, { a with addrIndex := setKa a.addrIndex ka.na.fp ka2 })

/-! ### Persistence -/

/-- `serializedKnownAddress`. -/
structure SerializedKnownAddress where
  addr : Nat
  src : Nat
  attempts : Nat
  timeStamp : Int
  lastAttempt : Int
  lastSuccess : Int
  services : Nat
  srcServices : Nat
deriving DecidableEq, Repr

/-- `serializedAddrManager`.  The bucket arrays are modelled like the
in-memory ones. -/
structure SerializedAddrManager where
  version : Int
  key : List Nat
  addresses : List SerializedKnownAddress
  newBuckets : Nat → List Nat
  triedBuckets : Nat → List Nat

/-- `AddrManager.savePeers`: build the serialisable structure (the JSON
encoding itself is not modelled; the claims are about the data).  Services
are only written for `version > 1`. -/
def savePeers (a : AddrManager) : SerializedAddrManager :=
  { version := a.version
    key := a.key
    addresses := a.addrIndex.map (fun p =>
      { addr := p.1
        src := p.2.srcAddr.fp
        attempts := p.2.attempts
        timeStamp := p.2.na.timestamp
        lastAttempt := p.2.lastattempt
        lastSuccess := p.2.lastsuccess
        services := if a.version > 1 then p.2.na.services else 0
        srcServices := if a.version > 1 then p.2.srcAddr.services else 0 })
    newBuckets := fun i => if i < newBucketCount then a.addrNew i else []
    triedBuckets := fun i => if i < triedBucketCount then a.addrTried i else [] }

/-- One entry of the `sam.Addresses` loop of `deserializePeers`.
`DeserializeNetAddress(v.Addr, v.Services)` parses the fingerprint and builds
a fresh `wire.NetAddress` from (ip, port, services) only — the serialized
`TimeStamp` field is never read, so the restored timestamp is the
constructor's load-time clock value `loadTime`.  Version-1 files get
`SFNodeNetwork` defaults.  The record starts with `refs = 0`,
`tried = false`. -/
def loadAddress (version : Int) (loadTime : Int) (a : AddrManager)
    (v : SerializedKnownAddress) : AddrManager :=
  let services := if version = 1 then SFNodeNetwork else v.services
  let srcServices := if version = 1 then SFNodeNetwork else v.srcServices
  let ka : KnownAddress :=
    { na := { fp := v.addr, services := services, timestamp := loadTime }
      srcAddr := { fp := v.src, services := srcServices, timestamp := loadTime }
      attempts := v.attempts
      lastattempt := v.lastAttempt
      lastsuccess := v.lastSuccess
      refs := 0
      tried := false }
  { a with addrIndex := insertKa a.addrIndex ka.na.fp ka }

/-- One entry of the `sam.NewBuckets` loop: a fingerprint with no record is
an error; otherwise `nNew++` on the first reference, `refs++`, and the map
insertion into the bucket.  The error flag models the early `return`. -/
def loadNewEntry (i : Nat) (st : AddrManager × Option String) (val : Nat) :
    AddrManager × Option String :=
  match st with
  | (a, some e) => (a, some e)
  | (a, none) =>
    match lookupKa a.addrIndex val with
    | none => (a, some "newbucket contains address but none in address list")
    | some ka =>
      let a2 : AddrManager := if ka.refs = 0 then { a with nNew := a.nNew + 1 } else a
      ({ a2 with addrIndex := setKa a2.addrIndex val { ka with refs := ka.refs + 1 },
                 addrNew := setBucket a2.addrNew i (insertKey (a2.addrNew i) val) }, none)

/-- One entry of the `sam.TriedBuckets` loop: set `tried`, `nTried++`,
`PushBack`. -/
def loadTriedEntry (i : Nat) (st : AddrManager × Option String) (val : Nat) :
    AddrManager × Option String :=
  match st with
  | (a, some e) => (a, some e)
  | (a, none) =>
    match lookupKa a.addrIndex val with
    | none => (a, some "newbucket contains address but none in address list")
    | some ka =>
      ({ a with addrIndex := setKa a.addrIndex val { ka with tried := true },
                nTried := a.nTried + 1,
                addrTried := setBucket a.addrTried i (a.addrTried i ++ [val]) }, none)

/-- The post-load sanity check of `deserializePeers`: an address with no
references that is not tried, or an address both new and tried, is an
error. -/
def sanityFails (a : AddrManager) : Bool :=
  a.addrIndex.any (fun p =>
    (decide (p.2.refs = 0) && !p.2.tried) || (decide (p.2.refs > 0) && p.2.tried))

/-- `AddrManager.deserializePeers`, acting on the given manager (the manager
is mutated in place by the Go code, so the partially-loaded state is returned
together with the error).  Parsing of the JSON and of the address strings is
not modelled (the fingerprints are abstract); a version beyond
`serialisationVersion` is an error before any mutation. -/
def deserializePeers (loadTime : Int) (a : AddrManager) (sam : SerializedAddrManager) :
    AddrManager × Option String :=
  if sam.version > serialisationVersion then (a, some "unknown version in serialized addrmanager")
  else
    let a1 : AddrManager := { a with key := sam.key }
    let a2 := sam.addresses.foldl (loadAddress sam.version loadTime) a1
    let st3 := (List.range newBucketCount).foldl
      (fun st i => (sam.newBuckets i).foldl (loadNewEntry i) st) (a2, none)
    let st4 := (List.range triedBucketCount).foldl
      (fun st i => (sam.triedBuckets i).foldl (loadTriedEntry i) st) st3
    match st4 with
    | (a5, some e) => (a5, some e)
    | (a5, none) =>
      if sanityFails a5 then (a5, some "address after serialisation with bad references")
      else (a5, none)

/-- `AddrManager.reset`: fresh index, fresh buckets and a fresh random key.
The counters `nNew` and `nTried` are NOT reset by the Go code. -/
def reset (freshKey : List Nat) (a : AddrManager) : AddrManager :=
  { a with addrIndex := [], key := freshKey,
           addrNew := fun _ => [], addrTried := fun _ => [] }

/-- `AddrManager.loadPeers`: attempt to deserialize; on error remove the file
(the boolean result) and `reset`.  A missing file (`none`) loads nothing. -/
def loadPeers (loadTime : Int) (freshKey : List Nat) (a : AddrManager)
    (file : Option SerializedAddrManager) : AddrManager × Bool :=
  match file with
  | none => (a, false)
  | some sam =>
    match deserializePeers loadTime a sam with
    | (a2, none) => (a2, false)
    | (a2, some _) => (reset freshKey a2, true)

/-! ### Characterization helpers (used to state properties, not part of the
translated code) -/

/-- The reference count of the record stored at `fp` (0 when absent). -/
def refsOf (a : AddrManager) (fp : Nat) : Int :=
  match lookupKa a.addrIndex fp with
  | none => 0
  | some ka => ka.refs

/-- The `na.timestamp` of the record stored at `fp` (0 when absent). -/
def tsOf (a : AddrManager) (fp : Nat) : Int :=
  match lookupKa a.addrIndex fp with
  | none => 0
  | some ka => ka.na.timestamp

/-- Whether the record stored at `fp` is classified bad (false when absent). -/
def badS (env : Env) (a : AddrManager) (fp : Nat) : Bool :=
  match lookupKa a.addrIndex fp with
  | none => false
  | some ka => env.isBad ka

/-- The running-oldest update of `expireNew`'s scan, on (fingerprint,
timestamp) pairs: a later entry with a less-or-equal timestamp replaces the
held one. -/
def oldUpd (acc : Option (Nat × Int)) (p : Nat × Int) : Option (Nat × Int) :=
  match acc with
  | none => some p
  | some q => if p.2 ≤ q.2 then some p else some q

/-- A concrete environment used by witnesses: every group is the same, so the
bucketer hypotheses of `c8_bucketer_pure` hold between any two addresses. -/
def envW : Env :=
  { hashU64 := fun l => l.length
    groupOf := fun _ => [0]
    fpBytes := fun _ => [1]
    routable := fun _ => true
    isBad := fun _ => false
    reachable := fun _ => true
    localWorking := true }

/-! ### Concrete fixtures used by counterexamples and witnesses -/

/-- The all-zero draw oracle (one possible outcome sequence of the
generator). -/
def drawZero : Nat → Nat := fun _ => 0

/-- A routable address with fingerprint `i`, no services, timestamp 0. -/
def mkNa (i : Nat) : NetAddress := ⟨i, 0, 0⟩

/-- 65 distinct addresses added from source 1000 into the empty manager; with
`envW` every one of them hashes to new bucket 9. -/
def stC1 : AddrManager :=
  (List.range 65).foldl
    (fun s i => AddAddress envW drawZero s (mkNa i) (mkNa 1000)) (newManager [])

/-- A badness oracle classifying records with nonzero `attempts` as bad. -/
def envC2 : Env := { envW with isBad := fun ka => ka.attempts != 0 }

def kaBadC2 : KnownAddress :=
  { na := ⟨1, 0, 10⟩, srcAddr := ⟨9, 0, 0⟩, attempts := 1, lastattempt := 0,
    lastsuccess := 0, refs := 1, tried := false }

def kaGoodC2 : KnownAddress :=
  { na := ⟨2, 0, 20⟩, srcAddr := ⟨9, 0, 0⟩, attempts := 0, lastattempt := 0,
    lastsuccess := 0, refs := 1, tried := false }

/-- New bucket 0 holds a bad entry (1) and a non-bad entry (2). -/
def stC2 : AddrManager :=
  { key := [], addrIndex := [(1, kaBadC2), (2, kaGoodC2)],
    addrNew := fun j => if j = 0 then [1, 2] else [], addrTried := fun _ => [],
    nTried := 0, nNew := 2, version := 2 }

/-- A tried record with timestamp 100 and no services. -/
def kaC3 : KnownAddress :=
  { na := ⟨7, 0, 100⟩, srcAddr := ⟨8, 0, 0⟩, attempts := 0, lastattempt := 0,
    lastsuccess := 0, refs := 0, tried := true }

def stC3 : AddrManager :=
  { key := [], addrIndex := [(7, kaC3)], addrNew := fun _ => [],
    addrTried := fun j => if j = 0 then [7] else [], nTried := 1, nNew := 0,
    version := 2 }

/-- 50 records that once worked (`lastsuccess = 1`). -/
def stC4 : AddrManager :=
  { key := [], addrIndex := (List.range 50).map (fun i =>
      (i, { na := ⟨i, 0, 0⟩, srcAddr := ⟨1000, 0, 0⟩, attempts := 0, lastattempt := 0,
            lastsuccess := 1, refs := 1, tried := false })),
    addrNew := fun j => if j = 0 then List.range 50 else [], addrTried := fun _ => [],
    nTried := 0, nNew := 50, version := 2 }

/-- 3 records that once worked. -/
def stC4b : AddrManager :=
  { key := [], addrIndex := (List.range 3).map (fun i =>
      (i, { na := ⟨i, 0, 0⟩, srcAddr := ⟨1000, 0, 0⟩, attempts := 0, lastattempt := 0,
            lastsuccess := 1, refs := 1, tried := false })),
    addrNew := fun j => if j = 0 then List.range 3 else [], addrTried := fun _ => [],
    nTried := 0, nNew := 3, version := 2 }

/-- A record eligible for selection: never attempted recently, succeeded
once. -/
def kaC10 : KnownAddress :=
  { na := ⟨3, 0, 0⟩, srcAddr := ⟨1000, 0, 0⟩, attempts := 0, lastattempt := 0,
    lastsuccess := 1, refs := 0, tried := true }

/-- A manager holding one tried address that passes the quality filter. -/
def stC10 : AddrManager :=
  { key := [], addrIndex := [(3, kaC10)], addrNew := fun _ => [],
    addrTried := fun j => if j = 0 then [3] else [], nTried := 1, nNew := 0,
    version := 2 }

/-- One record of the full tried bucket: fingerprint `i`, timestamp
`1000 - i` (so the entry 255 is the oldest). -/
def mkTr (i : Nat) : Nat × KnownAddress :=
  (i, { na := ⟨i, 0, 1000 - (i : Int)⟩, srcAddr := ⟨2000, 0, 0⟩, attempts := 0,
        lastattempt := 0, lastsuccess := 1, refs := 0, tried := true })

/-- An untried record about to be promoted into the full tried bucket. -/
def kaNew5 : KnownAddress :=
  { na := ⟨500, 0, 999⟩, srcAddr := ⟨2000, 0, 0⟩, attempts := 3, lastattempt := 0,
    lastsuccess := 0, refs := 1, tried := false }

/-- A manager whose tried bucket 9 (the bucket of `kaNew5.na` under `envW`)
is full with 256 staggered-timestamp entries. -/
def stC5 : AddrManager :=
  { key := [], addrIndex := (500, kaNew5) :: (List.range 256).map mkTr,
    addrNew := fun j => if j = 2 then [500] else [],
    addrTried := fun j => if j = 9 then List.range 256 else [],
    nTried := 256, nNew := 1, version := 2 }

/-- A version-2 snapshot that passes the bucket-linking phase but fails the
post-load sanity check: address 1 is listed both in a new bucket and in a
tried bucket, so after loading it has `refs = 1` and `tried = true`. -/
def samC7 : SerializedAddrManager :=
  { version := 2, key := [],
    addresses := [⟨1, 2, 0, 0, 0, 0, 0, 0⟩],
    newBuckets := fun j => if j = 0 then [1] else [],
    triedBuckets := fun j => if j = 0 then [1] else [] }

/-- A snapshot whose declared version exceeds `serialisationVersion`. -/
def samC7v3 : SerializedAddrManager :=
  { version := 3, key := [], addresses := [],
    newBuckets := fun _ => [], triedBuckets := fun _ => [] }

/-- The record rebuilt by `deserializePeers` for a version-2 snapshot entry:
fingerprints and services from the file, timestamps from the load-time clock,
`refs = 0`, `tried = false`. -/
def loadedKa (loadTime : Int) (v : SerializedKnownAddress) : KnownAddress :=
  { na := { fp := v.addr, services := v.services, timestamp := loadTime }
    srcAddr := { fp := v.src, services := v.srcServices, timestamp := loadTime }
    attempts := v.attempts
    lastattempt := v.lastAttempt
    lastsuccess := v.lastSuccess
    refs := 0
    tried := false }

/-- What a round trip through the snapshot actually reproduces of a record:
everything except the two `NetAddress` timestamps, which become the load-time
clock value. -/
def reloadKa (loadTime : Int) (ka : KnownAddress) : KnownAddress :=
  { ka with na := { ka.na with timestamp := loadTime },
            srcAddr := { ka.srcAddr with timestamp := loadTime } }

/-- The number of new buckets of `a` containing `fp`. -/
def newRefCount (a : AddrManager) (fp : Nat) : Nat :=
  (List.range newBucketCount).countP (fun i => decide (fp ∈ a.addrNew i))

/-- The total number of occurrences of `fp` in the tried buckets of `a`. -/
def triedOccCount (a : AddrManager) (fp : Nat) : Nat :=
  ((List.range triedBucketCount).map (fun i => (a.addrTried i).count fp)).sum

/-- The number of buckets among `0..n-1` of the bucket array `B` containing
`fp`. -/
def cntB (B : Nat → List Nat) (n : Nat) (fp : Nat) : Nat :=
  (List.range n).countP (fun i => decide (fp ∈ B i))

/-- Whether `fp` occurs in one of the buckets `0..n-1` of `B`. -/
def occB (B : Nat → List Nat) (n : Nat) (fp : Nat) : Bool :=
  (List.range n).any (fun i => decide (fp ∈ B i))

/-- A one-record manager used to refute exact round-tripping: the record's
`na.timestamp` is 100. -/
def kaRT : KnownAddress :=
  { na := ⟨7, 3, 100⟩, srcAddr := ⟨8, 1, 50⟩, attempts := 2, lastattempt := 10,
    lastsuccess := 20, refs := 1, tried := false }

def stRT : AddrManager :=
  { key := [1, 2], addrIndex := [(7, kaRT)],
    addrNew := fun j => if j = 3 then [7] else [], addrTried := fun _ => [],
    nTried := 0, nNew := 1, version := 2 }

/-- A record with its reference count incremented, as written by
`loadNewEntry`. -/
def bumpRefsKa (ka : KnownAddress) : KnownAddress :=
  { ka with refs := ka.refs + 1 }

/-- A record with its reference count increased by `c`. -/
def addRefsKa (c : Nat) (ka : KnownAddress) : KnownAddress :=
  { ka with refs := ka.refs + (c : Int) }

/-- A record with its tried flag set, as written by `loadTriedEntry`. -/
def setTriedKa (ka : KnownAddress) : KnownAddress :=
  { ka with tried := true }

/-- The state after one error-free `loadNewEntry` step resolving to `ka`. -/
def loadNewState (i : Nat) (s : AddrManager) (v : Nat) (ka : KnownAddress) : AddrManager :=
  { s with
    addrIndex := setKa s.addrIndex v (bumpRefsKa ka)
    addrNew := setBucket s.addrNew i (insertKey (s.addrNew i) v)
    nNew := s.nNew + (if ka.refs = 0 then (1 : Int) else 0) }

/-- The state after one error-free `loadTriedEntry` step resolving to `ka`. -/
def loadTriedState (i : Nat) (s : AddrManager) (v : Nat) (ka : KnownAddress) : AddrManager :=
  { s with
    addrIndex := setKa s.addrIndex v (setTriedKa ka)
    addrTried := setBucket s.addrTried i (s.addrTried i ++ [v])
    nTried := s.nTried + 1 }

/-- The new-bucket loading loop of `deserializePeers` restricted to the first
`n` buckets. -/
def loadNewFold (B : Nat → List Nat) (n : Nat) (st : AddrManager × Option String) :
    AddrManager × Option String :=
  (List.range n).foldl (fun st i => (B i).foldl (loadNewEntry i) st) st

/-- The tried-bucket loading loop of `deserializePeers` restricted to the
first `n` buckets. -/
def loadTriedFold (B : Nat → List Nat) (n : Nat) (st : AddrManager × Option String) :
    AddrManager × Option String :=
  (List.range n).foldl (fun st i => (B i).foldl (loadTriedEntry i) st) st

/-- The serialized form of one index entry written by `savePeers` for a
version-2 manager (the services fields are stored verbatim). -/
def serEntry (p : Nat × KnownAddress) : SerializedKnownAddress :=
  { addr := p.1
    src := p.2.srcAddr.fp
    attempts := p.2.attempts
    timeStamp := p.2.na.timestamp
    lastAttempt := p.2.lastattempt
    lastSuccess := p.2.lastsuccess
    services := p.2.na.services
    srcServices := p.2.srcAddr.services }

/-- The state of `deserializePeers loadTime a0 (savePeers a)` after the
addresses loop. -/
def rtStage1 (loadTime : Int) (a0 a : AddrManager) : AddrManager :=
  ((savePeers a).addresses).foldl (loadAddress (savePeers a).version loadTime)
    { a0 with key := (savePeers a).key }

/-- The state after the new-buckets loop. -/
def rtStage2 (loadTime : Int) (a0 a : AddrManager) : AddrManager × Option String :=
  loadNewFold (savePeers a).newBuckets newBucketCount (rtStage1 loadTime a0 a, none)

/-- The state after the tried-buckets loop. -/
def rtStage3 (loadTime : Int) (a0 a : AddrManager) : AddrManager × Option String :=
  loadTriedFold (savePeers a).triedBuckets triedBucketCount (rtStage2 loadTime a0 a)

/-! ### Basic lemmas about the association-list and bucket helpers -/

theorem lookupKa_append (idx₁ idx₂ : List (Nat × KnownAddress)) (fp : Nat) :
    lookupKa (idx₁ ++ idx₂) fp =
      match lookupKa idx₁ fp with
      | some ka => some ka
      | none => lookupKa idx₂ fp := by
  induction idx₁ with
  | nil => simp [lookupKa]
  | cons p t ih =>
    by_cases h : p.1 = fp <;> simp [lookupKa, h, ih]

theorem lookupKa_setKa_self (idx : List (Nat × KnownAddress)) (fp : Nat) (ka : KnownAddress) :
    lookupKa (setKa idx fp ka) fp = (lookupKa idx fp).map (fun _ => ka) := by
  induction idx with
  | nil => simp [lookupKa, setKa]
  | cons p t ih =>
    by_cases h : p.1 = fp <;> simp [lookupKa, setKa, h] <;> simpa [setKa] using ih

theorem lookupKa_setKa_ne (idx : List (Nat × KnownAddress)) (fp fp' : Nat) (ka : KnownAddress)
    (h : fp' ≠ fp) :
    lookupKa (setKa idx fp ka) fp' = lookupKa idx fp' := by
  induction idx with
  | nil => simp [lookupKa, setKa]
  | cons p t ih =>
    by_cases hp : p.1 = fp
    · simp [lookupKa, setKa, hp, Ne.symm h]
      simpa [setKa] using ih
    · by_cases hp' : p.1 = fp' <;> simp [lookupKa, setKa, hp, hp', h] <;> simpa [setKa] using ih

theorem lookupKa_eraseKa_self (idx : List (Nat × KnownAddress)) (fp : Nat) :
    lookupKa (eraseKa idx fp) fp = none := by
  induction idx with
  | nil => simp [lookupKa, eraseKa]
  | cons p t ih =>
    by_cases h : p.1 = fp <;> simp [lookupKa, eraseKa, h] <;> simpa [eraseKa] using ih

theorem lookupKa_eraseKa_ne (idx : List (Nat × KnownAddress)) (fp fp' : Nat)
    (h : fp' ≠ fp) :
    lookupKa (eraseKa idx fp) fp' = lookupKa idx fp' := by
  induction idx with
  | nil => simp [lookupKa, eraseKa]
  | cons p t ih =>
    by_cases hp : p.1 = fp
    · simp [lookupKa, eraseKa, hp, Ne.symm h]
      simpa [eraseKa] using ih
    · by_cases hp' : p.1 = fp' <;>
        simp [lookupKa, eraseKa, hp, hp', h, List.filter_cons] <;> simpa [eraseKa] using ih

theorem lookupKa_insertKa_self (idx : List (Nat × KnownAddress)) (fp : Nat) (ka : KnownAddress) :
    lookupKa (insertKa idx fp ka) fp = some ka := by
  unfold insertKa
  by_cases h : (lookupKa idx fp).isSome
  · rw [if_pos h, lookupKa_setKa_self]
    cases hl : lookupKa idx fp with
    | none => rw [hl] at h; simp at h
    | some ka' => simp
  · rw [if_neg h, lookupKa_append]
    cases hl : lookupKa idx fp with
    | none => simp [lookupKa]
    | some ka' => rw [hl] at h; simp at h

theorem lookupKa_insertKa_ne (idx : List (Nat × KnownAddress)) (fp fp' : Nat) (ka : KnownAddress)
    (h : fp' ≠ fp) :
    lookupKa (insertKa idx fp ka) fp' = lookupKa idx fp' := by
  unfold insertKa
  by_cases hs : (lookupKa idx fp).isSome
  · rw [if_pos hs, lookupKa_setKa_ne _ _ _ _ h]
  · rw [if_neg hs, lookupKa_append]
    cases hl : lookupKa idx fp' with
    | none => simp [lookupKa, Ne.symm h]
    | some ka' => simp

@[simp] theorem setBucket_self (f : Nat → List Nat) (i : Nat) (l : List Nat) :
    setBucket f i l i = l := by
  simp [setBucket]

theorem setBucket_ne (f : Nat → List Nat) (i j : Nat) (l : List Nat) (h : j ≠ i) :
    setBucket f i l j = f j := by
  simp [setBucket, h]

/-! ### Lemmas about decRefDrop -/

theorem decRefDrop_addrNew_self (a : AddrManager) (bucket fp : Nat) :
    (decRefDrop a bucket fp).addrNew bucket = (a.addrNew bucket).filter (fun k => k != fp) := by
  unfold decRefDrop
  split
  · simp
  · split <;> simp

theorem decRefDrop_addrNew_ne (a : AddrManager) (bucket fp j : Nat) (h : j ≠ bucket) :
    (decRefDrop a bucket fp).addrNew j = a.addrNew j := by
  unfold decRefDrop
  split
  · simp [setBucket, h]
  · split <;> simp [setBucket, h]

theorem decRefDrop_lookup_ne (a : AddrManager) (bucket fp fp' : Nat) (h : fp' ≠ fp) :
    lookupKa (decRefDrop a bucket fp).addrIndex fp' = lookupKa a.addrIndex fp' := by
  unfold decRefDrop
  split
  · rfl
  · split
    · simpa using lookupKa_eraseKa_ne a.addrIndex fp fp' h
    · simpa using lookupKa_setKa_ne a.addrIndex fp fp' _ h

theorem decRefDrop_lookup_self (a : AddrManager) (bucket fp : Nat) :
    lookupKa (decRefDrop a bucket fp).addrIndex fp =
      match lookupKa a.addrIndex fp with
      | none => none
      | some ka => if ka.refs = 1 then none else some { ka with refs := ka.refs - 1 } := by
  unfold decRefDrop
  cases hl : lookupKa a.addrIndex fp with
  | none => simpa [hl] using hl
  | some ka =>
    simp only [hl]
    by_cases hr : ka.refs - 1 = 0
    · rw [if_pos hr, if_pos (by omega)]
      simpa using lookupKa_eraseKa_self a.addrIndex fp
    · rw [if_neg hr, if_neg (by omega)]
      have := lookupKa_setKa_self a.addrIndex fp { ka with refs := ka.refs - 1 }
      simp only at this
      rw [this, hl]
      rfl

theorem decRefDrop_nNew (a : AddrManager) (bucket fp : Nat) :
    (decRefDrop a bucket fp).nNew = if refsOf a fp = 1 then a.nNew - 1 else a.nNew := by
  unfold decRefDrop refsOf
  cases hl : lookupKa a.addrIndex fp with
  | none => simp [hl]
  | some ka =>
    simp only [hl]
    by_cases hr : ka.refs - 1 = 0
    · rw [if_pos hr, if_pos (by omega)]
    · rw [if_neg hr, if_neg (by omega)]

theorem decRefDrop_frame (a : AddrManager) (bucket fp : Nat) :
    (decRefDrop a bucket fp).addrTried = a.addrTried ∧
    (decRefDrop a bucket fp).nTried = a.nTried ∧
    (decRefDrop a bucket fp).key = a.key ∧
    (decRefDrop a bucket fp).version = a.version := by
  unfold decRefDrop
  split
  · exact ⟨rfl, rfl, rfl, rfl⟩
  · split <;> exact ⟨rfl, rfl, rfl, rfl⟩

theorem badS_decRefDrop_ne (env : Env) (a : AddrManager) (bucket fp fp' : Nat) (h : fp' ≠ fp) :
    badS env (decRefDrop a bucket fp) fp' = badS env a fp' := by
  unfold badS
  rw [decRefDrop_lookup_ne a bucket fp fp' h]

theorem refsOf_decRefDrop_ne (a : AddrManager) (bucket fp fp' : Nat) (h : fp' ≠ fp) :
    refsOf (decRefDrop a bucket fp) fp' = refsOf a fp' := by
  unfold refsOf
  rw [decRefDrop_lookup_ne a bucket fp fp' h]

theorem tsOf_decRefDrop_ne (a : AddrManager) (bucket fp fp' : Nat) (h : fp' ≠ fp) :
    tsOf (decRefDrop a bucket fp) fp' = tsOf a fp' := by
  unfold tsOf
  rw [decRefDrop_lookup_ne a bucket fp fp' h]

/-- Reformulation of one `expireNew` loop iteration through `oldUpd`. -/
theorem expireStep_eq (env : Env) (bucket : Nat) (s : AddrManager)
    (acc : Option (Nat × Int)) (fp : Nat) :
    expireStep env bucket (s, acc) fp =
      match lookupKa s.addrIndex fp with
      | none => (s, acc)
      | some ka =>
        if env.isBad ka then (decRefDrop s bucket fp, acc)
        else (s, oldUpd acc (fp, ka.na.timestamp)) := by
  unfold expireStep oldUpd
  cases hl : lookupKa s.addrIndex fp with
  | none => rfl
  | some ka =>
    by_cases hb : env.isBad ka
    · simp [hb]
    · cases acc with
      | none => simp [hb]
      | some q =>
        by_cases hle : ka.na.timestamp ≤ q.2 <;> simp [hb, hle]

/-! ### Characterization of the expireNew scan -/

theorem expireFold_addrNew_ne (env : Env) (bucket : Nat) :
    ∀ (l : List Nat) (s : AddrManager) (acc : Option (Nat × Int)) (j : Nat), j ≠ bucket →
      (l.foldl (expireStep env bucket) (s, acc)).1.addrNew j = s.addrNew j := by
  intro l
  induction l with
  | nil => intro s acc j _; rfl
  | cons fp0 rest ih =>
    intro s acc j h
    rw [List.foldl_cons, expireStep_eq]
    cases hl : lookupKa s.addrIndex fp0 with
    | none => exact ih s acc j h
    | some ka =>
      dsimp only
      by_cases hb : env.isBad ka
      · rw [if_pos hb, ih _ _ j h, decRefDrop_addrNew_ne _ _ _ _ h]
      · rw [if_neg hb]
        exact ih _ _ j h

theorem expireFold_frame (env : Env) (bucket : Nat) :
    ∀ (l : List Nat) (s : AddrManager) (acc : Option (Nat × Int)),
      (l.foldl (expireStep env bucket) (s, acc)).1.addrTried = s.addrTried ∧
      (l.foldl (expireStep env bucket) (s, acc)).1.nTried = s.nTried ∧
      (l.foldl (expireStep env bucket) (s, acc)).1.key = s.key ∧
      (l.foldl (expireStep env bucket) (s, acc)).1.version = s.version := by
  intro l
  induction l with
  | nil => intro s acc; exact ⟨rfl, rfl, rfl, rfl⟩
  | cons fp0 rest ih =>
    intro s acc
    rw [List.foldl_cons, expireStep_eq]
    cases hl : lookupKa s.addrIndex fp0 with
    | none => exact ih s acc
    | some ka =>
      dsimp only
      by_cases hb : env.isBad ka
      · rw [if_pos hb]
        obtain ⟨h1, h2, h3, h4⟩ := ih (decRefDrop s bucket fp0) acc
        obtain ⟨g1, g2, g3, g4⟩ := decRefDrop_frame s bucket fp0
        exact ⟨h1.trans g1, h2.trans g2, h3.trans g3, h4.trans g4⟩
      · rw [if_neg hb]
        exact ih _ _

theorem expireFold_lookup_notmem (env : Env) (bucket : Nat) :
    ∀ (l : List Nat) (s : AddrManager) (acc : Option (Nat × Int)) (fp : Nat), fp ∉ l →
      lookupKa (l.foldl (expireStep env bucket) (s, acc)).1.addrIndex fp =
        lookupKa s.addrIndex fp := by
  intro l
  induction l with
  | nil => intro s acc fp _; rfl
  | cons fp0 rest ih =>
    intro s acc fp h
    have hne : fp ≠ fp0 := fun he => h (he ▸ List.mem_cons_self fp0 rest)
    have hnr : fp ∉ rest := fun hm => h (List.mem_cons_of_mem fp0 hm)
    rw [List.foldl_cons, expireStep_eq]
    cases hl : lookupKa s.addrIndex fp0 with
    | none => exact ih s acc fp hnr
    | some ka =>
      dsimp only
      by_cases hb : env.isBad ka
      · rw [if_pos hb, ih _ _ fp hnr, decRefDrop_lookup_ne _ _ _ _ hne]
      · rw [if_neg hb]
        exact ih _ _ fp hnr

theorem expireFold_bucket (env : Env) (bucket : Nat) :
    ∀ (l : List Nat) (s : AddrManager) (acc : Option (Nat × Int)),
      l.Nodup → (∀ fp ∈ l, (lookupKa s.addrIndex fp).isSome) →
      (l.foldl (expireStep env bucket) (s, acc)).1.addrNew bucket
        = (s.addrNew bucket).filter (fun k => !(decide (k ∈ l) && badS env s k)) := by
  intro l
  induction l with
  | nil =>
    intro s acc _ _
    simp
  | cons fp0 rest ih =>
    intro s acc hnd hres
    obtain ⟨hn0, hndr⟩ := List.nodup_cons.mp hnd
    obtain ⟨ka, hka⟩ := Option.isSome_iff_exists.mp (hres fp0 (List.mem_cons_self fp0 rest))
    have hbad0 : badS env s fp0 = env.isBad ka := by unfold badS; rw [hka]
    rw [List.foldl_cons, expireStep_eq, hka]
    dsimp only
    by_cases hb : env.isBad ka
    · rw [if_pos hb]
      have hres' : ∀ fp ∈ rest, (lookupKa (decRefDrop s bucket fp0).addrIndex fp).isSome := by
        intro fp hfp
        have hne : fp ≠ fp0 := fun he => hn0 (he ▸ hfp)
        rw [decRefDrop_lookup_ne _ _ _ _ hne]
        exact hres fp (List.mem_cons_of_mem fp0 hfp)
      rw [ih (decRefDrop s bucket fp0) acc hndr hres', decRefDrop_addrNew_self,
        List.filter_filter]
      refine List.filter_congr ?_
      intro k _
      by_cases hk : k = fp0
      · subst hk
        simp [hbad0, hb]
      · simp [List.mem_cons, hk, badS_decRefDrop_ne env s bucket fp0 k hk]
    · rw [if_neg hb]
      have hres' : ∀ fp ∈ rest, (lookupKa s.addrIndex fp).isSome :=
        fun fp hfp => hres fp (List.mem_cons_of_mem fp0 hfp)
      rw [ih s _ hndr hres']
      refine List.filter_congr ?_
      intro k _
      by_cases hk : k = fp0
      · subst hk
        simp [hbad0, hb]
      · simp [List.mem_cons, hk]

theorem expireFold_lookup_mem (env : Env) (bucket : Nat) :
    ∀ (l : List Nat) (s : AddrManager) (acc : Option (Nat × Int)),
      l.Nodup → (∀ fp ∈ l, (lookupKa s.addrIndex fp).isSome) →
      ∀ fp ∈ l,
        lookupKa (l.foldl (expireStep env bucket) (s, acc)).1.addrIndex fp =
          if badS env s fp then
            (if refsOf s fp = 1 then none
             else (lookupKa s.addrIndex fp).map (fun ka => { ka with refs := ka.refs - 1 }))
          else lookupKa s.addrIndex fp := by
  intro l
  induction l with
  | nil => intro s acc _ _ fp hfp; cases hfp
  | cons fp0 rest ih =>
    intro s acc hnd hres fp hfp
    obtain ⟨hn0, hndr⟩ := List.nodup_cons.mp hnd
    obtain ⟨ka, hka⟩ := Option.isSome_iff_exists.mp (hres fp0 (List.mem_cons_self fp0 rest))
    rw [List.foldl_cons, expireStep_eq, hka]
    dsimp only
    by_cases hb : env.isBad ka
    · rw [if_pos hb]
      have hres' : ∀ q ∈ rest, (lookupKa (decRefDrop s bucket fp0).addrIndex q).isSome := by
        intro q hq
        have hne : q ≠ fp0 := fun he => hn0 (he ▸ hq)
        rw [decRefDrop_lookup_ne _ _ _ _ hne]
        exact hres q (List.mem_cons_of_mem fp0 hq)
      rcases List.mem_cons.mp hfp with hfp0 | hfpr
      · subst hfp0
        rw [expireFold_lookup_notmem env bucket rest _ acc fp hn0,
          decRefDrop_lookup_self]
        have hbad : badS env s fp = true := by unfold badS; rw [hka]; exact hb
        rw [if_pos hbad, hka]
        dsimp only
        have hrefs : refsOf s fp = ka.refs := by unfold refsOf; rw [hka]
        by_cases h1 : ka.refs = 1
        · rw [if_pos h1, if_pos (by rw [hrefs]; exact h1)]
        · rw [if_neg h1, if_neg (by rw [hrefs]; exact h1)]
          rfl
      · have hne : fp ≠ fp0 := fun he => hn0 (he ▸ hfpr)
        rw [ih (decRefDrop s bucket fp0) acc hndr hres' fp hfpr,
          badS_decRefDrop_ne env s bucket fp0 fp hne,
          refsOf_decRefDrop_ne s bucket fp0 fp hne,
          decRefDrop_lookup_ne s bucket fp0 fp hne]
    · rw [if_neg hb]
      have hres' : ∀ q ∈ rest, (lookupKa s.addrIndex q).isSome :=
        fun q hq => hres q (List.mem_cons_of_mem fp0 hq)
      rcases List.mem_cons.mp hfp with hfp0 | hfpr
      · subst hfp0
        rw [expireFold_lookup_notmem env bucket rest _ _ fp hn0]
        have hbad : badS env s fp = false := by unfold badS; rw [hka]; simpa using hb
        rw [if_neg (by rw [hbad]; simp)]
      · exact ih s _ hndr hres' fp hfpr

theorem expireFold_nNew (env : Env) (bucket : Nat) :
    ∀ (l : List Nat) (s : AddrManager) (acc : Option (Nat × Int)),
      l.Nodup → (∀ fp ∈ l, (lookupKa s.addrIndex fp).isSome) →
      (l.foldl (expireStep env bucket) (s, acc)).1.nNew
        = s.nNew - ((l.filter (fun fp => badS env s fp)).countP
            (fun fp => decide (refsOf s fp = 1)) : Int) := by
  intro l
  induction l with
  | nil => intro s acc _ _; simp
  | cons fp0 rest ih =>
    intro s acc hnd hres
    obtain ⟨hn0, hndr⟩ := List.nodup_cons.mp hnd
    obtain ⟨ka, hka⟩ := Option.isSome_iff_exists.mp (hres fp0 (List.mem_cons_self fp0 rest))
    have hbad0 : badS env s fp0 = env.isBad ka := by unfold badS; rw [hka]
    rw [List.foldl_cons, expireStep_eq, hka]
    dsimp only
    by_cases hb : env.isBad ka
    · rw [if_pos hb]
      have hres' : ∀ q ∈ rest, (lookupKa (decRefDrop s bucket fp0).addrIndex q).isSome := by
        intro q hq
        have hne : q ≠ fp0 := fun he => hn0 (he ▸ hq)
        rw [decRefDrop_lookup_ne _ _ _ _ hne]
        exact hres q (List.mem_cons_of_mem fp0 hq)
      rw [ih (decRefDrop s bucket fp0) acc hndr hres', decRefDrop_nNew]
      have hcnt : (rest.filter (fun fp => badS env (decRefDrop s bucket fp0) fp)).countP
            (fun fp => decide (refsOf (decRefDrop s bucket fp0) fp = 1))
          = (rest.filter (fun fp => badS env s fp)).countP
            (fun fp => decide (refsOf s fp = 1)) := by
        have hfe : rest.filter (fun fp => badS env (decRefDrop s bucket fp0) fp)
            = rest.filter (fun fp => badS env s fp) := by
          refine List.filter_congr ?_
          intro q hq
          exact badS_decRefDrop_ne env s bucket fp0 q (fun he => hn0 (he ▸ hq))
        rw [hfe]
        refine List.countP_congr ?_
        intro q hq
        have hqr : q ∈ rest := (List.mem_filter.mp hq).1
        simp [refsOf_decRefDrop_ne s bucket fp0 q (fun he => hn0 (he ▸ hqr))]
      rw [hcnt]
      have hfc : (fp0 :: rest).filter (fun fp => badS env s fp)
          = fp0 :: rest.filter (fun fp => badS env s fp) := by
        rw [List.filter_cons, if_pos (by rw [hbad0]; exact hb)]
      rw [hfc, List.countP_cons]
      by_cases h1 : refsOf s fp0 = 1
      · rw [if_pos h1]
        simp [h1]
        ring
      · rw [if_neg h1]
        simp [h1]
    · rw [if_neg hb]
      have hres' : ∀ q ∈ rest, (lookupKa s.addrIndex q).isSome :=
        fun q hq => hres q (List.mem_cons_of_mem fp0 hq)
      rw [ih s _ hndr hres', List.filter_cons, if_neg (by rw [hbad0]; simpa using hb)]

theorem expireFold_acc (env : Env) (bucket : Nat) :
    ∀ (l : List Nat) (s : AddrManager) (acc : Option (Nat × Int)),
      l.Nodup → (∀ fp ∈ l, (lookupKa s.addrIndex fp).isSome) →
      (l.foldl (expireStep env bucket) (s, acc)).2
        = (l.filter (fun fp => !badS env s fp)).foldl
            (fun acc2 fp => oldUpd acc2 (fp, tsOf s fp)) acc := by
  intro l
  induction l with
  | nil => intro s acc _ _; simp
  | cons fp0 rest ih =>
    intro s acc hnd hres
    obtain ⟨hn0, hndr⟩ := List.nodup_cons.mp hnd
    obtain ⟨ka, hka⟩ := Option.isSome_iff_exists.mp (hres fp0 (List.mem_cons_self fp0 rest))
    have hbad0 : badS env s fp0 = env.isBad ka := by unfold badS; rw [hka]
    rw [List.foldl_cons, expireStep_eq, hka]
    dsimp only
    by_cases hb : env.isBad ka
    · rw [if_pos hb]
      have hres' : ∀ q ∈ rest, (lookupKa (decRefDrop s bucket fp0).addrIndex q).isSome := by
        intro q hq
        have hne : q ≠ fp0 := fun he => hn0 (he ▸ hq)
        rw [decRefDrop_lookup_ne _ _ _ _ hne]
        exact hres q (List.mem_cons_of_mem fp0 hq)
      rw [ih (decRefDrop s bucket fp0) acc hndr hres']
      have hfe : rest.filter (fun fp => !badS env (decRefDrop s bucket fp0) fp)
          = rest.filter (fun fp => !badS env s fp) := by
        refine List.filter_congr ?_
        intro q hq
        rw [badS_decRefDrop_ne env s bucket fp0 q (fun he => hn0 (he ▸ hq))]
      rw [hfe, List.filter_cons, if_neg (by rw [hbad0]; simpa using hb)]
      refine List.foldl_ext _ _ acc ?_
      intro acc2 q hq
      have hqr : q ∈ rest := (List.mem_filter.mp hq).1
      rw [tsOf_decRefDrop_ne s bucket fp0 q (fun he => hn0 (he ▸ hqr))]
    · rw [if_neg hb]
      have hres' : ∀ q ∈ rest, (lookupKa s.addrIndex q).isSome :=
        fun q hq => hres q (List.mem_cons_of_mem fp0 hq)
      rw [ih s _ hndr hres', List.filter_cons, if_pos (by rw [hbad0]; simpa using hb),
        List.foldl_cons]
      have hts : tsOf s fp0 = ka.na.timestamp := by unfold tsOf; rw [hka]
      rw [hts]

theorem oldFold_spec (T : Nat → Int) :
    ∀ (L : List Nat) (acc : Option (Nat × Int)),
      ((L.foldl (fun a2 fp => oldUpd a2 (fp, T fp)) acc) = none ↔ (L = [] ∧ acc = none)) ∧
      (∀ q, L.foldl (fun a2 fp => oldUpd a2 (fp, T fp)) acc = some q →
        ((q.1 ∈ L ∧ q.2 = T q.1) ∨ acc = some q) ∧
        (∀ fp ∈ L, q.2 ≤ T fp) ∧
        (∀ q0, acc = some q0 → q.2 ≤ q0.2)) := by
  intro L
  induction L with
  | nil =>
    intro acc
    constructor
    · simp
    · intro q hq
      simp only [List.foldl_nil] at hq
      refine ⟨Or.inr hq, by simp, fun q0 h0 => ?_⟩
      rw [hq] at h0
      cases h0
      exact le_refl _
  | cons fp0 rest ih =>
    intro acc
    rw [List.foldl_cons]
    constructor
    · rw [(ih (oldUpd acc (fp0, T fp0))).1]
      constructor
      · rintro ⟨_, hacc⟩
        exfalso
        cases acc with
        | none => simp [oldUpd] at hacc
        | some q0 =>
          by_cases hle : T fp0 ≤ q0.2 <;> simp [oldUpd, hle] at hacc
      · rintro ⟨h, _⟩
        cases h
    · intro q hq
      obtain ⟨h1, h2, h3⟩ := (ih (oldUpd acc (fp0, T fp0))).2 q hq
      cases acc with
      | none =>
        have hacc : oldUpd (none : Option (Nat × Int)) (fp0, T fp0) = some (fp0, T fp0) := rfl
        rw [hacc] at h1 h3
        refine ⟨?_, ?_, by rintro q0 ⟨⟩⟩
        · rcases h1 with ⟨hm, he⟩ | he
          · exact Or.inl ⟨List.mem_cons_of_mem fp0 hm, he⟩
          · cases he
            exact Or.inl ⟨List.mem_cons_self fp0 rest, rfl⟩
        · intro fp hfp
          rcases List.mem_cons.mp hfp with hfp0 | hfpr
          · subst hfp0
            exact h3 (fp, T fp) rfl
          · exact h2 fp hfpr
      | some q0 =>
        by_cases hle : T fp0 ≤ q0.2
        · have hacc : oldUpd (some q0) (fp0, T fp0) = some (fp0, T fp0) := by
            simp [oldUpd, hle]
          rw [hacc] at h1 h3
          refine ⟨?_, ?_, ?_⟩
          · rcases h1 with ⟨hm, he⟩ | he
            · exact Or.inl ⟨List.mem_cons_of_mem fp0 hm, he⟩
            · cases he
              exact Or.inl ⟨List.mem_cons_self fp0 rest, rfl⟩
          · intro fp hfp
            rcases List.mem_cons.mp hfp with hfp0 | hfpr
            · subst hfp0
              exact h3 (fp, T fp) rfl
            · exact h2 fp hfpr
          · intro q1 hq1
            cases hq1
            exact le_trans (h3 (fp0, T fp0) rfl) hle
        · have hacc : oldUpd (some q0) (fp0, T fp0) = some q0 := by
            simp [oldUpd, hle]
          rw [hacc] at h1 h3
          refine ⟨?_, ?_, ?_⟩
          · rcases h1 with ⟨hm, he⟩ | he
            · exact Or.inl ⟨List.mem_cons_of_mem fp0 hm, he⟩
            · exact Or.inr he
          · intro fp hfp
            rcases List.mem_cons.mp hfp with hfp0 | hfpr
            · subst hfp0
              exact le_of_lt (lt_of_le_of_lt (h3 q0 rfl) (lt_of_not_le hle))
            · exact h2 fp hfpr
          · intro q1 hq1
            cases hq1
            exact h3 _ rfl

/-- The bucket list after the `expireNew` scan is exactly the non-bad
entries. -/
theorem expireFold_bucket_survivors (env : Env) (a : AddrManager) (bucket : Nat)
    (hnd : (a.addrNew bucket).Nodup)
    (hres : ∀ fp ∈ a.addrNew bucket, (lookupKa a.addrIndex fp).isSome) :
    ((a.addrNew bucket).foldl (expireStep env bucket) (a, none)).1.addrNew bucket
      = (a.addrNew bucket).filter (fun fp => !badS env a fp) := by
  rw [expireFold_bucket env bucket (a.addrNew bucket) a none hnd hres]
  refine List.filter_congr ?_
  intro k hk
  simp [hk]

theorem expireNew_addrNew_ne (env : Env) (a : AddrManager) (bucket j : Nat) (h : j ≠ bucket) :
    (expireNew env a bucket).addrNew j = a.addrNew j := by
  unfold expireNew expireFinish
  cases hacc : ((a.addrNew bucket).foldl (expireStep env bucket) (a, none)).2 with
  | none =>
    exact expireFold_addrNew_ne env bucket (a.addrNew bucket) a none j h
  | some q =>
    obtain ⟨ofp, ots⟩ := q
    rw [decRefDrop_addrNew_ne _ _ _ _ h]
    exact expireFold_addrNew_ne env bucket (a.addrNew bucket) a none j h

theorem expireNew_frame (env : Env) (a : AddrManager) (bucket : Nat) :
    (expireNew env a bucket).addrTried = a.addrTried ∧
    (expireNew env a bucket).nTried = a.nTried ∧
    (expireNew env a bucket).key = a.key ∧
    (expireNew env a bucket).version = a.version := by
  unfold expireNew expireFinish
  obtain ⟨f1, f2, f3, f4⟩ := expireFold_frame env bucket (a.addrNew bucket) a none
  cases hacc : ((a.addrNew bucket).foldl (expireStep env bucket) (a, none)).2 with
  | none => exact ⟨f1, f2, f3, f4⟩
  | some q =>
    obtain ⟨ofp, ots⟩ := q
    obtain ⟨g1, g2, g3, g4⟩ := decRefDrop_frame _ bucket ofp
    exact ⟨g1.trans f1, g2.trans f2, g3.trans f3, g4.trans f4⟩

/-- The fingerprint remembered by the scan accumulator always comes from the
scanned list. -/
theorem expireFold_acc_mem (env : Env) (bucket : Nat) :
    ∀ (l : List Nat) (s : AddrManager) (acc : Option (Nat × Int)) (q : Nat × Int),
      (l.foldl (expireStep env bucket) (s, acc)).2 = some q → q.1 ∈ l ∨ acc = some q := by
  intro l
  induction l with
  | nil => intro s acc q hq; exact Or.inr hq
  | cons fp0 rest ih =>
    intro s acc q hq
    rw [List.foldl_cons, expireStep_eq] at hq
    cases hl : lookupKa s.addrIndex fp0 with
    | none =>
      rw [hl] at hq
      rcases ih s acc q hq with hm | he
      · exact Or.inl (List.mem_cons_of_mem fp0 hm)
      · exact Or.inr he
    | some ka =>
      rw [hl] at hq
      dsimp only at hq
      by_cases hb : env.isBad ka
      · rw [if_pos hb] at hq
        rcases ih _ acc q hq with hm | he
        · exact Or.inl (List.mem_cons_of_mem fp0 hm)
        · exact Or.inr he
      · rw [if_neg hb] at hq
        rcases ih _ _ q hq with hm | he
        · exact Or.inl (List.mem_cons_of_mem fp0 hm)
        · cases acc with
          | none =>
            cases he
            exact Or.inl (List.mem_cons_self fp0 rest)
          | some q0 =>
            by_cases hle : ka.na.timestamp ≤ q0.2
            · rw [show oldUpd (some q0) (fp0, ka.na.timestamp) = some (fp0, ka.na.timestamp)
                  from by simp [oldUpd, hle]] at he
              cases he
              exact Or.inl (List.mem_cons_self fp0 rest)
            · rw [show oldUpd (some q0) (fp0, ka.na.timestamp) = some q0
                  from by simp [oldUpd, hle]] at he
              exact Or.inr (he ▸ rfl)

/-- `expireNew` leaves records that are not in the bucket untouched. -/
theorem expireNew_lookup_notmem (env : Env) (a : AddrManager) (bucket : Nat) (fp : Nat)
    (h : fp ∉ a.addrNew bucket) :
    lookupKa (expireNew env a bucket).addrIndex fp = lookupKa a.addrIndex fp := by
  unfold expireNew expireFinish
  cases hacc : ((a.addrNew bucket).foldl (expireStep env bucket) (a, none)).2 with
  | none => exact expireFold_lookup_notmem env bucket (a.addrNew bucket) a none fp h
  | some q =>
    obtain ⟨ofp, ots⟩ := q
    have hmem : ofp ∈ a.addrNew bucket := by
      rcases expireFold_acc_mem env bucket (a.addrNew bucket) a none (ofp, ots) hacc with hm | he
      · exact hm
      · cases he
    have hne : fp ≠ ofp := fun he => h (he ▸ hmem)
    rw [decRefDrop_lookup_ne _ _ _ _ hne]
    exact expireFold_lookup_notmem env bucket (a.addrNew bucket) a none fp h

/-- C2 (amended): `expireNew` removes exactly the entries classified bad
(decrementing `refs` and dropping the record from the table with `nNew--` when
the count reaches zero), and in addition it always evicts the non-bad entry
with the oldest `na.timestamp` whenever at least one non-bad entry exists —
even when bad entries were removed in the same pass (the eviction is not
conditional on no bad entry having been removed). -/
theorem c2_expireNew_amended (env : Env) (a : AddrManager) (bucket : Nat)
    (hnd : (a.addrNew bucket).Nodup)
    (hres : ∀ fp ∈ a.addrNew bucket, (lookupKa a.addrIndex fp).isSome) :
    (∀ fp ∈ a.addrNew bucket, badS env a fp = true →
       fp ∉ (expireNew env a bucket).addrNew bucket ∧
       lookupKa (expireNew env a bucket).addrIndex fp =
         (if refsOf a fp = 1 then none
          else (lookupKa a.addrIndex fp).map (fun ka => { ka with refs := ka.refs - 1 }))) ∧
    ((a.addrNew bucket).filter (fun fp => !badS env a fp) = [] →
       (expireNew env a bucket).addrNew bucket = [] ∧
       (expireNew env a bucket).nNew = a.nNew -
         (((a.addrNew bucket).filter (fun fp => badS env a fp)).countP
           (fun fp => decide (refsOf a fp = 1)) : Int)) ∧
    ((a.addrNew bucket).filter (fun fp => !badS env a fp) ≠ [] →
       ∃ ofp ∈ (a.addrNew bucket).filter (fun fp => !badS env a fp),
         (∀ fp ∈ (a.addrNew bucket).filter (fun fp => !badS env a fp),
            tsOf a ofp ≤ tsOf a fp) ∧
         (expireNew env a bucket).addrNew bucket
           = ((a.addrNew bucket).filter (fun fp => !badS env a fp)).filter
               (fun k => k != ofp) ∧
         lookupKa (expireNew env a bucket).addrIndex ofp =
           (if refsOf a ofp = 1 then none
            else (lookupKa a.addrIndex ofp).map (fun ka => { ka with refs := ka.refs - 1 })) ∧
         (expireNew env a bucket).nNew = a.nNew -
           (((a.addrNew bucket).filter (fun fp => badS env a fp)).countP
             (fun fp => decide (refsOf a fp = 1)) : Int) -
           (if refsOf a ofp = 1 then 1 else 0)) ∧
    (∀ fp, fp ∉ a.addrNew bucket →
       lookupKa (expireNew env a bucket).addrIndex fp = lookupKa a.addrIndex fp) ∧
    (∀ j, j ≠ bucket → (expireNew env a bucket).addrNew j = a.addrNew j) := by
  have hacc0 := expireFold_acc env bucket (a.addrNew bucket) a none hnd hres
  have hbuck0 := expireFold_bucket_survivors env a bucket hnd hres
  have hnNew0 := expireFold_nNew env bucket (a.addrNew bucket) a none hnd hres
  cases hacc : ((a.addrNew bucket).foldl (expireStep env bucket) (a, none)).2 with
  | none =>
    have hEN : expireNew env a bucket
        = ((a.addrNew bucket).foldl (expireStep env bucket) (a, none)).1 := by
      unfold expireNew expireFinish
      rw [hacc]
    rw [hacc] at hacc0
    have hsurv : (a.addrNew bucket).filter (fun fp => !badS env a fp) = [] := by
      have := (oldFold_spec (tsOf a)
        ((a.addrNew bucket).filter (fun fp => !badS env a fp)) none).1
      exact ((this.mp hacc0.symm)).1
    refine ⟨?_, ?_, ?_, ?_, ?_⟩
    · intro fp hfp hbad
      constructor
      · rw [hEN, hbuck0, hsurv]
        exact List.not_mem_nil fp
      · rw [hEN, expireFold_lookup_mem env bucket (a.addrNew bucket) a none hnd hres fp hfp,
          if_pos hbad]
    · intro _
      rw [hEN, hbuck0, hsurv]
      exact ⟨rfl, hnNew0⟩
    · intro hne
      exact absurd hsurv hne
    · intro fp hfp
      rw [hEN]
      exact expireFold_lookup_notmem env bucket (a.addrNew bucket) a none fp hfp
    · intro j hj
      rw [hEN]
      exact expireFold_addrNew_ne env bucket (a.addrNew bucket) a none j hj
  | some q =>
    obtain ⟨ofp, ots⟩ := q
    have hEN : expireNew env a bucket
        = decRefDrop ((a.addrNew bucket).foldl (expireStep env bucket) (a, none)).1
            bucket ofp := by
      unfold expireNew expireFinish
      rw [hacc]
    rw [hacc] at hacc0
    obtain ⟨hof1, hof2, _⟩ := (oldFold_spec (tsOf a)
      ((a.addrNew bucket).filter (fun fp => !badS env a fp)) none).2 (ofp, ots) hacc0.symm
    have hofmem : ofp ∈ (a.addrNew bucket).filter (fun fp => !badS env a fp) ∧
        ots = tsOf a ofp := by
      rcases hof1 with ⟨hm, he⟩ | he
      · exact ⟨hm, he⟩
      · cases he
    have hofbad : badS env a ofp = false := by
      have := (List.mem_filter.mp hofmem.1).2
      simpa using this
    have hofbucket : ofp ∈ a.addrNew bucket := (List.mem_filter.mp hofmem.1).1
    have hlookof : lookupKa ((a.addrNew bucket).foldl
        (expireStep env bucket) (a, none)).1.addrIndex ofp = lookupKa a.addrIndex ofp := by
      rw [expireFold_lookup_mem env bucket (a.addrNew bucket) a none hnd hres ofp hofbucket,
        if_neg (by rw [hofbad]; simp)]
    have hrefsof : refsOf ((a.addrNew bucket).foldl
        (expireStep env bucket) (a, none)).1 ofp = refsOf a ofp := by
      unfold refsOf
      rw [hlookof]
    refine ⟨?_, ?_, ?_, ?_, ?_⟩
    · intro fp hfp hbad
      have hne : fp ≠ ofp := by
        intro he
        rw [he, hofbad] at hbad
        cases hbad
      constructor
      · rw [hEN, decRefDrop_addrNew_self, hbuck0]
        intro hmem
        have h1 := (List.mem_filter.mp hmem).1
        have h2 := (List.mem_filter.mp h1).2
        rw [hbad] at h2
        cases h2
      · rw [hEN, decRefDrop_lookup_ne _ _ _ _ hne,
          expireFold_lookup_mem env bucket (a.addrNew bucket) a none hnd hres fp hfp,
          if_pos hbad]
    · intro hsurv
      rw [hsurv] at hofmem
      cases hofmem.1
    · intro _
      refine ⟨ofp, hofmem.1, ?_, ?_, ?_, ?_⟩
      · intro fp hfp
        rw [← hofmem.2]
        exact hof2 fp hfp
      · rw [hEN, decRefDrop_addrNew_self, hbuck0]
      · rw [hEN, decRefDrop_lookup_self, hlookof]
        cases hl : lookupKa a.addrIndex ofp with
        | none =>
          have := hres ofp hofbucket
          rw [hl] at this
          cases this
        | some ka =>
          dsimp only
          have hrefs : refsOf a ofp = ka.refs := by unfold refsOf; rw [hl]
          by_cases h1 : ka.refs = 1
          · rw [if_pos h1, if_pos (by rw [hrefs]; exact h1)]
          · rw [if_neg h1, if_neg (by rw [hrefs]; exact h1)]
            rfl
      · rw [hEN, decRefDrop_nNew, hrefsof, hnNew0]
        by_cases h1 : refsOf a ofp = 1
        · rw [if_pos h1, if_pos h1]
        · rw [if_neg h1, if_neg h1]
          ring
    · intro fp hfp
      have hne : fp ≠ ofp := fun he => hfp (he ▸ hofbucket)
      rw [hEN, decRefDrop_lookup_ne _ _ _ _ hne]
      exact expireFold_lookup_notmem env bucket (a.addrNew bucket) a none fp hfp
    · intro j hj
      rw [hEN, decRefDrop_addrNew_ne _ _ _ _ hj]
      exact expireFold_addrNew_ne env bucket (a.addrNew bucket) a none j hj

/-! ### C8: the bucketer is a pure function of key, groups and fingerprint -/

/-- C8: with the instance key fixed, `getNewBucket` and `getTriedBucket` are
deterministic: two inputs with the same destination group, source group and
fingerprint encoding receive the same bucket index, i.e. the result depends on
the addresses only through `GroupKey`/`NetAddressKey`. -/
theorem c8_bucketer_pure (env : Env) (key : List Nat)
    (na1 na2 sa1 sa2 : NetAddress)
    (hg : env.groupOf na1.fp = env.groupOf na2.fp)
    (hs : env.groupOf sa1.fp = env.groupOf sa2.fp)
    (hf : env.fpBytes na1.fp = env.fpBytes na2.fp) :
    getNewBucket env key na1 sa1 = getNewBucket env key na2 sa2 ∧
    getTriedBucket env key na1 = getTriedBucket env key na2 := by
  unfold getNewBucket getTriedBucket
  rw [hg, hs, hf]
  exact ⟨rfl, rfl⟩

/-- C8 witness: `c8_bucketer_pure` applied at a concrete environment, key and
two concrete pairs of addresses. -/
theorem c8_bucketer_pure_witness :
    getNewBucket envW [5] ⟨0, 0, 0⟩ ⟨2, 0, 0⟩ = getNewBucket envW [5] ⟨1, 5, 7⟩ ⟨3, 9, 9⟩ ∧
    getTriedBucket envW [5] ⟨0, 0, 0⟩ = getTriedBucket envW [5] ⟨1, 5, 7⟩ :=
  c8_bucketer_pure envW [5] ⟨0, 0, 0⟩ ⟨1, 5, 7⟩ ⟨2, 0, 0⟩ ⟨3, 9, 9⟩ rfl rfl rfl

/-! ### Bucket length bounds -/

theorem length_filter_ne_lt (l : List Nat) (x : Nat) (hx : x ∈ l) :
    (l.filter (fun k => k != x)).length < l.length := by
  induction l with
  | nil => cases hx
  | cons a t ih =>
    rw [List.filter_cons]
    by_cases ha : a = x
    · rw [if_neg (by simp [ha])]
      exact Nat.lt_succ_of_le (List.length_filter_le _ t)
    · rw [if_pos (by simp [ha])]
      have hxt : x ∈ t := by
        rcases List.mem_cons.mp hx with h | h
        · exact absurd h.symm ha
        · exact h
      simpa using Nat.succ_lt_succ (ih hxt)

/-- When the bucket is nonempty, `expireNew` strictly shrinks it: either all
entries are bad and are removed, or the remembered oldest non-bad entry is
evicted. -/
theorem expireNew_length_lt (env : Env) (a : AddrManager) (bucket : Nat)
    (hne : a.addrNew bucket ≠ [])
    (hnd : (a.addrNew bucket).Nodup)
    (hres : ∀ fp ∈ a.addrNew bucket, (lookupKa a.addrIndex fp).isSome) :
    ((expireNew env a bucket).addrNew bucket).length < (a.addrNew bucket).length := by
  have hacc0 := expireFold_acc env bucket (a.addrNew bucket) a none hnd hres
  have hbuck0 := expireFold_bucket_survivors env a bucket hnd hres
  cases hacc : ((a.addrNew bucket).foldl (expireStep env bucket) (a, none)).2 with
  | none =>
    have hEN : expireNew env a bucket
        = ((a.addrNew bucket).foldl (expireStep env bucket) (a, none)).1 := by
      unfold expireNew expireFinish
      rw [hacc]
    rw [hacc] at hacc0
    have hsurv : (a.addrNew bucket).filter (fun fp => !badS env a fp) = [] :=
      ((oldFold_spec (tsOf a)
        ((a.addrNew bucket).filter (fun fp => !badS env a fp)) none).1.mp hacc0.symm).1
    rw [hEN, hbuck0, hsurv]
    simpa using List.length_pos.mpr hne
  | some q =>
    obtain ⟨ofp, ots⟩ := q
    have hEN : expireNew env a bucket
        = decRefDrop ((a.addrNew bucket).foldl (expireStep env bucket) (a, none)).1
            bucket ofp := by
      unfold expireNew expireFinish
      rw [hacc]
    rw [hacc] at hacc0
    obtain ⟨hof1, _, _⟩ := (oldFold_spec (tsOf a)
      ((a.addrNew bucket).filter (fun fp => !badS env a fp)) none).2 (ofp, ots) hacc0.symm
    have hofmem : ofp ∈ (a.addrNew bucket).filter (fun fp => !badS env a fp) := by
      rcases hof1 with ⟨hm, _⟩ | he
      · exact hm
      · cases he
    rw [hEN, decRefDrop_addrNew_self, hbuck0]
    calc (((a.addrNew bucket).filter (fun fp => !badS env a fp)).filter
            (fun k => k != ofp)).length
        < ((a.addrNew bucket).filter (fun fp => !badS env a fp)).length :=
          length_filter_ne_lt _ ofp hofmem
      _ ≤ (a.addrNew bucket).length := List.length_filter_le _ _

theorem insertKey_length (l : List Nat) (v : Nat) :
    (insertKey l v).length ≤ l.length + 1 := by
  unfold insertKey
  by_cases h : v ∈ l
  · rw [if_pos h]
    omega
  · rw [if_neg h]
    simp

theorem isSome_lookupKa_setKa (idx : List (Nat × KnownAddress)) (fp0 fp : Nat)
    (ka : KnownAddress) :
    (lookupKa (setKa idx fp0 ka) fp).isSome = (lookupKa idx fp).isSome := by
  by_cases h : fp = fp0
  · subst h
    rw [lookupKa_setKa_self]
    cases lookupKa idx fp <;> rfl
  · rw [lookupKa_setKa_ne _ _ _ _ h]

theorem isSome_lookupKa_insertKa (idx : List (Nat × KnownAddress)) (fp0 fp : Nat)
    (ka : KnownAddress) (h : (lookupKa idx fp).isSome) :
    (lookupKa (insertKa idx fp0 ka) fp).isSome := by
  by_cases he : fp = fp0
  · subst he
    rw [lookupKa_insertKa_self]
    rfl
  · rw [lookupKa_insertKa_ne _ _ _ _ he]
    exact h

/-- The bucket-length bound for the shared insertion tail of
`updateAddress`. -/
theorem addToNewBucket_length (env : Env) (a : AddrManager) (addr : Nat)
    (netAddr srcAddr : NetAddress)
    (hle : ∀ i, (a.addrNew i).length ≤ newBucketSize + 1)
    (hnd : ∀ i, (a.addrNew i).Nodup)
    (hres : ∀ i, ∀ fp ∈ a.addrNew i, (lookupKa a.addrIndex fp).isSome) :
    ∀ i, ((addToNewBucket env a addr netAddr srcAddr).addrNew i).length
      ≤ newBucketSize + 1 := by
  intro i
  unfold addToNewBucket
  by_cases hmem : addr ∈ a.addrNew (getNewBucket env a.key netAddr srcAddr)
  · rw [if_pos hmem]
    exact hle i
  · rw [if_neg hmem]
    have ha1 : ∀ j, ((if (a.addrNew (getNewBucket env a.key netAddr srcAddr)).length
          > newBucketSize
        then expireNew env a (getNewBucket env a.key netAddr srcAddr) else a).addrNew j).length ≤
          (if j = getNewBucket env a.key netAddr srcAddr then newBucketSize
           else newBucketSize + 1) := by
      intro j
      by_cases hfull : (a.addrNew (getNewBucket env a.key netAddr srcAddr)).length
          > newBucketSize
      · rw [if_pos hfull]
        by_cases hj : j = getNewBucket env a.key netAddr srcAddr
        · rw [if_pos hj, hj]
          have hlt := expireNew_length_lt env a (getNewBucket env a.key netAddr srcAddr)
            (by
              intro hnil
              rw [hnil] at hfull
              simp [newBucketSize] at hfull)
            (hnd _) (hres _)
          have := hle (getNewBucket env a.key netAddr srcAddr)
          omega
        · rw [if_neg hj, expireNew_addrNew_ne env a _ j hj]
          exact hle j
      · rw [if_neg hfull]
        by_cases hj : j = getNewBucket env a.key netAddr srcAddr
        · rw [if_pos hj, hj]
          omega
        · rw [if_neg hj]
          exact hle j
    unfold insertNew
    by_cases hj : i = getNewBucket env a.key netAddr srcAddr
    · rw [hj]
      have h1 := ha1 (getNewBucket env a.key netAddr srcAddr)
      rw [if_pos rfl] at h1
      have h2 := insertKey_length ((if (a.addrNew (getNewBucket env a.key netAddr
        srcAddr)).length > newBucketSize
        then expireNew env a (getNewBucket env a.key netAddr srcAddr)
        else a).addrNew (getNewBucket env a.key netAddr srcAddr)) addr
      simp only [setBucket_self]
      omega
    · have h1 := ha1 i
      rw [if_neg hj] at h1
      simp only [setBucket_ne _ _ _ _ hj]
      exact h1

theorem Connected_addrNew (now : Int) (a : AddrManager) (addr : NetAddress) :
    (Connected now a addr).addrNew = a.addrNew := by
  unfold Connected
  split
  · rfl
  · split <;> rfl

theorem SetServices_addrNew (a : AddrManager) (addr : NetAddress) (services : Nat) :
    (SetServices a addr services).addrNew = a.addrNew := by
  unfold SetServices
  split
  · rfl
  · split <;> rfl

theorem GetAddress_addrNew (env : Env) (draw : Nat → Nat) (now : Int) (a : AddrManager)
    (isOk : KnownAddress → Bool) :
    (GetAddress env draw now a isOk).2.addrNew = a.addrNew := by
  unfold GetAddress
  split
  · rfl
  · split <;> rfl

theorem goodPromote_length (env : Env) (a1 : AddrManager) (addrKey : Nat)
    (ka2 : KnownAddress) (oldBucket : Nat)
    (hle1 : ∀ i, (a1.addrNew i).length ≤ newBucketSize + 1)
    (hold : (a1.addrNew oldBucket).length ≤ newBucketSize) :
    ∀ i, ((goodPromote env a1 addrKey ka2 oldBucket).addrNew i).length
      ≤ newBucketSize + 1 := by
  intro i
  unfold goodPromote
  dsimp only
  by_cases hroom : (a1.addrTried (getTriedBucket env a1.key ka2.na)).length < triedBucketSize
  · rw [if_pos hroom]
    exact hle1 i
  · rw [if_neg hroom]
    cases hpick : pickTried a1 (getTriedBucket env a1.key ka2.na) with
    | none => exact hle1 i
    | some pr =>
      obtain ⟨pos, rmfp⟩ := pr
      dsimp only
      cases hrm : lookupKa a1.addrIndex rmfp with
      | none => exact hle1 i
      | some rmka =>
        dsimp only
        by_cases hfull : (a1.addrNew (getNewBucket env a1.key rmka.na rmka.srcAddr)).length
            ≥ newBucketSize
        · rw [if_pos hfull]
          by_cases hi : i = oldBucket
          · rw [hi, setBucket_self]
            have := insertKey_length (a1.addrNew oldBucket) rmfp
            omega
          · rw [setBucket_ne _ _ _ _ hi]
            exact hle1 i
        · rw [if_neg hfull]
          by_cases hi : i = getNewBucket env a1.key rmka.na rmka.srcAddr
          · rw [hi, setBucket_self]
            have := insertKey_length
              (a1.addrNew (getNewBucket env a1.key rmka.na rmka.srcAddr)) rmfp
            omega
          · rw [setBucket_ne _ _ _ _ hi]
            exact hle1 i

theorem goodA0_addrNew (now : Int) (a : AddrManager) (addrKey : Nat) (ka0 : KnownAddress) :
    (goodA0 now a addrKey ka0).addrNew = a.addrNew := rfl

theorem goodRemoveNew_addrNew (now : Int) (a : AddrManager) (addrKey : Nat)
    (ka0 : KnownAddress) (j : Nat) :
    (goodRemoveNew now a addrKey ka0).addrNew j =
      if j < newBucketCount then (a.addrNew j).filter (fun k => k != addrKey)
      else a.addrNew j := rfl

theorem Good_length (env : Env) (now : Int) (a : AddrManager) (addr : NetAddress)
    (hle : ∀ i, (a.addrNew i).length ≤ newBucketSize + 1) :
    ∀ i, ((Good env now a addr).addrNew i).length ≤ newBucketSize + 1 := by
  intro i
  unfold Good
  cases hka : lookupKa a.addrIndex addr.fp with
  | none => exact hle i
  | some ka0 =>
    have hle1 : ∀ j, ((goodRemoveNew now a addr.fp ka0).addrNew j).length
        ≤ newBucketSize + 1 := by
      intro j
      rw [goodRemoveNew_addrNew]
      by_cases hj : j < newBucketCount
      · rw [if_pos hj]
        calc ((a.addrNew j).filter (fun k => k != addr.fp)).length
            ≤ (a.addrNew j).length := List.length_filter_le _ _
          _ ≤ newBucketSize + 1 := hle j
      · rw [if_neg hj]
        exact hle j
    dsimp only
    unfold goodKnown
    by_cases htried : (goodUpdateKa now ka0).tried
    · rw [if_pos htried]
      rw [goodA0_addrNew]
      exact hle i
    · rw [if_neg htried]
      cases hhead : (newBucketsContaining (goodA0 now a addr.fp ka0) addr.fp).head? with
      | none => exact hle1 i
      | some oldBucket =>
        dsimp only
        have hmem : oldBucket ∈ newBucketsContaining (goodA0 now a addr.fp ka0) addr.fp :=
          List.mem_of_mem_head? (by rw [hhead]; rfl)
        have hlt : oldBucket < newBucketCount :=
          List.mem_range.mp (List.mem_filter.mp hmem).1
        have hin : addr.fp ∈ a.addrNew oldBucket := by
          have h2 := (List.mem_filter.mp hmem).2
          rw [goodA0_addrNew] at h2
          simpa using h2
        refine goodPromote_length env _ addr.fp _ oldBucket hle1 ?_ i
        rw [goodRemoveNew_addrNew, if_pos hlt]
        have h1 := length_filter_ne_lt (a.addrNew oldBucket) addr.fp hin
        have h2 := hle oldBucket
        omega

theorem updateAddress_length (env : Env) (draw : Nat → Nat) (a : AddrManager)
    (netAddr srcAddr : NetAddress)
    (hle : ∀ i, (a.addrNew i).length ≤ newBucketSize + 1)
    (hnd : ∀ i, (a.addrNew i).Nodup)
    (hres : ∀ i, ∀ fp ∈ a.addrNew i, (lookupKa a.addrIndex fp).isSome) :
    ∀ i, ((updateAddress env draw a netAddr srcAddr).addrNew i).length
      ≤ newBucketSize + 1 := by
  intro i
  unfold updateAddress
  by_cases hroute : env.routable netAddr.fp
  · rw [if_neg (by simp [hroute])]
    cases hka : lookupKa a.addrIndex netAddr.fp with
    | some ka0 =>
      dsimp only
      have hresU : ∀ j, ∀ fp ∈ (updatedState a netAddr ka0).addrNew j,
          (lookupKa (updatedState a netAddr ka0).addrIndex fp).isSome := by
        intro j fp hfp
        show (lookupKa (setKa a.addrIndex netAddr.fp (updatedKa netAddr ka0)) fp).isSome = true
        rw [isSome_lookupKa_setKa]
        exact hres j fp hfp
      by_cases htried : (updatedKa netAddr ka0).tried
      · rw [if_pos htried]
        exact hle i
      · rw [if_neg htried]
        by_cases hrefs : (updatedKa netAddr ka0).refs = (newBucketsPerAddress : Int)
        · rw [if_pos hrefs]
          exact hle i
        · rw [if_neg hrefs]
          by_cases hdraw : draw (2 * (updatedKa netAddr ka0).refs).toNat ≠ 0
          · rw [if_pos hdraw]
            exact hle i
          · rw [if_neg hdraw]
            exact addToNewBucket_length env (updatedState a netAddr ka0) netAddr.fp
              netAddr srcAddr hle hnd hresU i
    | none =>
      dsimp only
      have hresN : ∀ j, ∀ fp ∈ a.addrNew j,
          (lookupKa (insertKa a.addrIndex netAddr.fp
            { na := netAddr, srcAddr := srcAddr, attempts := 0,
              lastattempt := 0, lastsuccess := 0, refs := 0, tried := false }) fp).isSome :=
        fun j fp hfp => isSome_lookupKa_insertKa _ _ _ _ (hres j fp hfp)
      exact addToNewBucket_length env
        { a with
          addrIndex := insertKa a.addrIndex netAddr.fp
            { na := netAddr, srcAddr := srcAddr, attempts := 0,
              lastattempt := 0, lastsuccess := 0, refs := 0, tried := false },
          nNew := a.nNew + 1 }
        netAddr.fp netAddr srcAddr hle hnd hresN i
  · rw [if_pos (by simp [hroute])]
    exact hle i

/-- C1 (counterexample): starting from the fresh manager, 65 `AddAddress`
calls for distinct routable addresses that hash to the same new bucket leave
that bucket with 65 entries — `updateAddress` only expires when the bucket
already holds strictly more than `newBucketSize = 64` entries, so the claimed
64-entry bound is exceeded. -/
theorem c1_counterexample :
    (stC1.addrNew 9).length = 65 ∧ ¬((stC1.addrNew 9).length ≤ newBucketSize) := by
  have h : (stC1.addrNew 9).length = 65 := by decide
  refine ⟨h, ?_⟩
  rw [h]
  decide

/-- C1 (amended): a new bucket can hold up to 65 = `newBucketSize + 1`
records, and 65 is preserved: from any state whose new buckets each hold at
most 65 pairwise-distinct entries backed by the index, every public operation
(`updateAddress` for `AddAddress`/`AddAddresses`, `Good`, `Connected`,
`SetServices`, `GetAddress`) leaves every new bucket with at most 65 entries
(the latter three do not modify the new buckets at all). -/
theorem c1_amended (env : Env) (draw : Nat → Nat) (now : Int) (a : AddrManager)
    (netAddr srcAddr addr : NetAddress) (services : Nat) (isOk : KnownAddress → Bool)
    (hle : ∀ i, (a.addrNew i).length ≤ newBucketSize + 1)
    (hnd : ∀ i, (a.addrNew i).Nodup)
    (hres : ∀ i, ∀ fp ∈ a.addrNew i, (lookupKa a.addrIndex fp).isSome) :
    (∀ i, ((updateAddress env draw a netAddr srcAddr).addrNew i).length
      ≤ newBucketSize + 1) ∧
    (∀ i, ((Good env now a addr).addrNew i).length ≤ newBucketSize + 1) ∧
    (Connected now a addr).addrNew = a.addrNew ∧
    (SetServices a addr services).addrNew = a.addrNew ∧
    (GetAddress env draw now a isOk).2.addrNew = a.addrNew :=
  ⟨updateAddress_length env draw a netAddr srcAddr hle hnd hres,
   Good_length env now a addr hle,
   Connected_addrNew now a addr,
   SetServices_addrNew a addr services,
   GetAddress_addrNew env draw now a isOk⟩

/-- C1 witness: the amended bound applied at the fresh manager and one
concrete `AddAddress` input. -/
theorem c1_amended_witness :
    ((updateAddress envW drawZero (newManager []) (mkNa 0) (mkNa 1000)).addrNew 9).length
      ≤ newBucketSize + 1 :=
  (c1_amended envW drawZero 0 (newManager []) (mkNa 0) (mkNa 1000) (mkNa 0) 0
    (fun _ => true)
    (fun _ => by simp [newManager])
    (fun _ => by simp [newManager])
    (fun _ fp hfp => by simp [newManager] at hfp)).1 9

/-- C2 (counterexample): new bucket 0 of `stC2` holds a bad entry (1) and a
non-bad entry (2).  `expireNew` removes the bad entry AND evicts the non-bad
entry 2 in the same pass, leaving the bucket empty and dropping both records —
under the claim, 2 would only be evicted if no bad entry had been removed, so
2 would remain in the bucket. -/
theorem c2_counterexample :
    badS envC2 stC2 1 = true ∧ badS envC2 stC2 2 = false ∧
    stC2.addrNew 0 = [1, 2] ∧
    (expireNew envC2 stC2 0).addrNew 0 = [] ∧
    lookupKa (expireNew envC2 stC2 0).addrIndex 2 = none := by
  decide

/-- C2 witness: the amended characterization applied at the concrete bucket
`stC2.addrNew 0 = [1, 2]`. -/
theorem c2_expireNew_amended_witness :
    1 ∉ (expireNew envC2 stC2 0).addrNew 0 ∧
    lookupKa (expireNew envC2 stC2 0).addrIndex 1 = none := by
  have h := (c2_expireNew_amended envC2 stC2 0 (by decide)
    (by intro fp hfp; fin_cases hfp <;> decide)).1 1 (by decide) (by decide)
  refine ⟨h.1, ?_⟩
  rw [h.2]
  decide

theorem updatedKa_na (netAddr : NetAddress) (ka : KnownAddress) :
    (updatedKa netAddr ka).na =
      if netAddr.timestamp > ka.na.timestamp ∨
          Nat.land ka.na.services netAddr.services ≠ netAddr.services
      then naReplaced netAddr ka else ka.na := by
  unfold updatedKa
  split <;> rfl

/-- `addToNewBucket` never changes the `na` of the record it is inserting
(only its reference count). -/
theorem addToNewBucket_lookup_na (env : Env) (a : AddrManager) (addr : Nat)
    (netAddr srcAddr : NetAddress) :
    (lookupKa (addToNewBucket env a addr netAddr srcAddr).addrIndex addr).map (fun k => k.na)
      = (lookupKa a.addrIndex addr).map (fun k => k.na) := by
  unfold addToNewBucket
  by_cases hmem : addr ∈ a.addrNew (getNewBucket env a.key netAddr srcAddr)
  · rw [if_pos hmem]
  · rw [if_neg hmem]
    unfold insertNew bumpRefs
    set a1 := if (a.addrNew (getNewBucket env a.key netAddr srcAddr)).length > newBucketSize
      then expireNew env a (getNewBucket env a.key netAddr srcAddr) else a with ha1
    have hpres : lookupKa a1.addrIndex addr = lookupKa a.addrIndex addr := by
      rw [ha1]
      by_cases hfull : (a.addrNew (getNewBucket env a.key netAddr srcAddr)).length
          > newBucketSize
      · rw [if_pos hfull]
        exact expireNew_lookup_notmem env a _ addr hmem
      · rw [if_neg hfull]
    cases hl : lookupKa a1.addrIndex addr with
    | none =>
      dsimp only
      rw [hl, ← hpres, hl]
    | some ka =>
      dsimp only
      rw [lookupKa_setKa_self, hl, ← hpres, hl]
      rfl

/-- C3 (amended): when a routable `netAddr` is resighted for a known record
`ka`, `updateAddress` replaces the record's `na` exactly when
`netAddr.timestamp > ka.na.timestamp` or `netAddr.services` has bits
`ka.na.services` lacks, and the replacement carries `netAddr`'s timestamp
verbatim (the incoming timestamp, even when it is OLDER than the stored one)
together with the union of the two service bitmaps; otherwise `na` is
unchanged. -/
theorem c3_amended (env : Env) (draw : Nat → Nat) (a : AddrManager)
    (netAddr srcAddr : NetAddress) (ka : KnownAddress)
    (hroute : env.routable netAddr.fp = true)
    (hka : lookupKa a.addrIndex netAddr.fp = some ka) :
    (lookupKa (updateAddress env draw a netAddr srcAddr).addrIndex netAddr.fp).map
        (fun k => k.na)
      = some (if netAddr.timestamp > ka.na.timestamp ∨
              Nat.land ka.na.services netAddr.services ≠ netAddr.services
          then naReplaced netAddr ka else ka.na) := by
  have hcore : (lookupKa (updatedState a netAddr ka).addrIndex netAddr.fp).map
      (fun k => k.na) = some (updatedKa netAddr ka).na := by
    show (lookupKa (setKa a.addrIndex netAddr.fp (updatedKa netAddr ka)) netAddr.fp).map
      (fun k => k.na) = _
    rw [lookupKa_setKa_self, hka]
    rfl
  unfold updateAddress
  rw [if_neg (by simp [hroute]), hka]
  dsimp only
  rw [← updatedKa_na]
  by_cases htried : (updatedKa netAddr ka).tried
  · rw [if_pos htried]
    exact hcore
  · rw [if_neg htried]
    by_cases hrefs : (updatedKa netAddr ka).refs = (newBucketsPerAddress : Int)
    · rw [if_pos hrefs]
      exact hcore
    · rw [if_neg hrefs]
      by_cases hdraw : draw (2 * (updatedKa netAddr ka).refs).toNat ≠ 0
      · rw [if_pos hdraw]
        exact hcore
      · rw [if_neg hdraw]
        rw [addToNewBucket_lookup_na]
        exact hcore

/-- C3 (counterexample): the record at fingerprint 7 has timestamp 100; the
resighted address has timestamp 50 and a service bit the record lacks.  The
code replaces `na` with timestamp 50 — not the later of the two timestamps
(100), as the claim states. -/
theorem c3_counterexample :
    kaC3.na.timestamp = 100 ∧
    (lookupKa (updateAddress envW drawZero stC3 ⟨7, 1, 50⟩ ⟨8, 0, 0⟩).addrIndex 7).map
      (fun k => k.na.timestamp) = some 50 ∧
    ¬((lookupKa (updateAddress envW drawZero stC3 ⟨7, 1, 50⟩ ⟨8, 0, 0⟩).addrIndex 7).map
      (fun k => k.na.timestamp) = some (max 100 50)) := by
  decide

/-- C3 witness: the amended statement applied at the concrete state `stC3`. -/
theorem c3_amended_witness :
    (lookupKa (updateAddress envW drawZero stC3 ⟨7, 1, 50⟩ ⟨8, 0, 0⟩).addrIndex 7).map
        (fun k => k.na)
      = some (naReplaced ⟨7, 1, 50⟩ kaC3) := by
  have h := c3_amended envW drawZero stC3 ⟨7, 1, 50⟩ ⟨8, 0, 0⟩ kaC3 rfl (by decide)
  rw [h]
  decide

/-! ### C4: AddressesToShare -/

theorem swapL_length (l : List NetAddress) (i j : Nat) :
    (swapL l i j).length = l.length := by
  unfold swapL
  cases hx : l.get? i with
  | none => rfl
  | some x =>
    cases hy : l.get? j with
    | none => rfl
    | some y => simp

theorem swapL_mem (l : List NetAddress) (i j : Nat) :
    ∀ x ∈ swapL l i j, x ∈ l := by
  intro z hz
  unfold swapL at hz
  cases hx : l.get? i with
  | none =>
    rw [hx] at hz
    exact hz
  | some x =>
    cases hy : l.get? j with
    | none =>
      rw [hx, hy] at hz
      exact hz
    | some y =>
      rw [hx, hy] at hz
      rcases List.mem_or_eq_of_mem_set hz with hz1 | hz1
      · rcases List.mem_or_eq_of_mem_set hz1 with hz2 | hz2
        · exact hz2
        · exact hz2 ▸ List.get?_mem hy
      · exact hz1 ▸ List.get?_mem hx

theorem foldl_swap_length (g : Nat → Nat) :
    ∀ (L : List Nat) (acc : List NetAddress),
      ((L.foldl (fun acc2 i => swapL acc2 i (g i)) acc)).length = acc.length := by
  intro L
  induction L with
  | nil => intro acc; rfl
  | cons i0 rest ih =>
    intro acc
    rw [List.foldl_cons, ih, swapL_length]

theorem foldl_swap_mem (g : Nat → Nat) :
    ∀ (L : List Nat) (acc : List NetAddress),
      ∀ x ∈ L.foldl (fun acc2 i => swapL acc2 i (g i)) acc, x ∈ acc := by
  intro L
  induction L with
  | nil => intro acc x hx; exact hx
  | cons i0 rest ih =>
    intro acc x hx
    rw [List.foldl_cons] at hx
    exact swapL_mem acc i0 (g i0) x (ih _ x hx)

theorem fisherYates_length (draw : Nat → Nat) (l : List NetAddress) (num : Nat) :
    (fisherYates draw l num).length = l.length := by
  unfold fisherYates
  exact foldl_swap_length (fun i => draw (l.length - i) % (l.length - i) + i)
    (List.range num) l

theorem fisherYates_mem (draw : Nat → Nat) (l : List NetAddress) (num : Nat) :
    ∀ x ∈ fisherYates draw l num, x ∈ l := by
  unfold fisherYates
  exact foldl_swap_mem (fun i => draw (l.length - i) % (l.length - i) + i)
    (List.range num) l

theorem percent_le_self (count : Nat) : count * getAddrPercent / 100 ≤ count := by
  have h1 : count * getAddrPercent ≤ count * 100 :=
    Nat.mul_le_mul_left count (by unfold getAddrPercent; omega)
  calc count * getAddrPercent / 100 ≤ count * 100 / 100 := Nat.div_le_div_right h1
    _ = count := Nat.mul_div_cancel count (by omega)

/-- C4 (amended): `AddressesToShare` returns a shuffled prefix of the
once-worked addresses whose size is the code's formula: `count·23/100`,
clamped above by 5000, and replaced by the FULL count whenever
`count·23/100 < 20`; in particular when fewer than 20 once-worked addresses
exist, all of them are returned.  (The claimed size
`min(5000, max(count·23/100, min(count, 20)))` is wrong for
`20 ≤ count ≤ 86`, where the code returns all `count` addresses.) -/
theorem c4_amended (draw : Nat → Nat) (a : AddrManager) :
    ((AddressesToShare draw a).length =
      (if (addressesThatOnceWorked a).length * getAddrPercent / 100 > getAddrMax
       then getAddrMax
       else if (addressesThatOnceWorked a).length * getAddrPercent / 100 < getAddrMin
       then (addressesThatOnceWorked a).length
       else (addressesThatOnceWorked a).length * getAddrPercent / 100)) ∧
    (∀ x ∈ AddressesToShare draw a, x ∈ addressesThatOnceWorked a) ∧
    ((addressesThatOnceWorked a).length < getAddrMin →
      (AddressesToShare draw a).length = (addressesThatOnceWorked a).length) := by
  have hper := percent_le_self (addressesThatOnceWorked a).length
  have hlen : (AddressesToShare draw a).length =
      (if (addressesThatOnceWorked a).length * getAddrPercent / 100 > getAddrMax
       then getAddrMax
       else if (addressesThatOnceWorked a).length * getAddrPercent / 100 < getAddrMin
       then (addressesThatOnceWorked a).length
       else (addressesThatOnceWorked a).length * getAddrPercent / 100) := by
    unfold AddressesToShare
    dsimp only
    rw [List.length_take, fisherYates_length]
    by_cases h1 : (addressesThatOnceWorked a).length * getAddrPercent / 100 > getAddrMax
    · rw [if_pos h1]
      exact Nat.min_eq_left (by omega)
    · rw [if_neg h1]
      by_cases h2 : (addressesThatOnceWorked a).length * getAddrPercent / 100 < getAddrMin
      · rw [if_pos h2]
        exact Nat.min_self _
      · rw [if_neg h2]
        exact Nat.min_eq_left hper
  refine ⟨hlen, ?_, ?_⟩
  · intro x hx
    unfold AddressesToShare at hx
    exact fisherYates_mem draw (addressesThatOnceWorked a) _ x (List.mem_of_mem_take hx)
  · intro hsmall
    rw [hlen]
    have hlt : (addressesThatOnceWorked a).length * getAddrPercent / 100 < getAddrMin := by
      omega
    rw [if_neg (by unfold getAddrMax getAddrMin at *; omega), if_pos hlt]

/-- C4 (counterexample): with 50 once-worked addresses the code returns all
50 of them, while the claimed size formula
`min(getAddrMax, max(50·23/100, min(50, getAddrMin)))` evaluates to 20. -/
theorem c4_counterexample :
    (addressesThatOnceWorked stC4).length = 50 ∧
    (AddressesToShare drawZero stC4).length = 50 ∧
    min getAddrMax (max (50 * getAddrPercent / 100) (min 50 getAddrMin)) = 20 ∧
    (50 : Nat) ≠ 20 := by
  decide

/-- C4 witness: the amended statement applied at a concrete manager with 3
once-worked addresses (fewer than `getAddrMin`), which are all returned. -/
theorem c4_amended_witness :
    (addressesThatOnceWorked stC4b).length < getAddrMin ∧
    (AddressesToShare drawZero stC4b).length = (addressesThatOnceWorked stC4b).length :=
  ⟨by decide, (c4_amended drawZero stC4b).2.2 (by decide)⟩

/-! ### C9: Connected is a frame-preserving timestamp refresh -/

/-- C9: `Connected` modifies at most the record's `na` pointer — replacing it
with a copy whose timestamp is `now`, and only when `now` is more than 20
minutes (1200 s) after the current `na.timestamp` — and leaves `attempts`,
`lastattempt`, `lastsuccess`, `refs`, `tried`, both bucket arrays, `nNew` and
`nTried` unchanged; for an address not in the table it changes nothing. -/
theorem c9_connected_frame (now : Int) (a : AddrManager) (addr : NetAddress) :
    (lookupKa a.addrIndex addr.fp = none → Connected now a addr = a) ∧
    (∀ ka, lookupKa a.addrIndex addr.fp = some ka →
      (¬(now > ka.na.timestamp + 20 * 60) → Connected now a addr = a) ∧
      (now > ka.na.timestamp + 20 * 60 →
        lookupKa (Connected now a addr).addrIndex addr.fp =
          some { ka with na := { ka.na with timestamp := now } } ∧
        (∀ fp, fp ≠ addr.fp →
          lookupKa (Connected now a addr).addrIndex fp = lookupKa a.addrIndex fp)) ∧
      (Connected now a addr).addrNew = a.addrNew ∧
      (Connected now a addr).addrTried = a.addrTried ∧
      (Connected now a addr).nNew = a.nNew ∧
      (Connected now a addr).nTried = a.nTried) := by
  constructor
  · intro hnone
    unfold Connected
    rw [hnone]
  · intro ka hka
    have hc : Connected now a addr =
        (if now > ka.na.timestamp + 20 * 60 then
          { a with addrIndex := setKa a.addrIndex addr.fp { ka with na := { ka.na with timestamp := now } } }
         else a) := by
      unfold Connected
      rw [hka]
    refine ⟨?_, ?_, ?_, ?_, ?_, ?_⟩
    · intro hlate
      rw [hc, if_neg hlate]
    · intro hlate
      rw [hc, if_pos hlate]
      constructor
      · show (lookupKa (setKa a.addrIndex addr.fp _) addr.fp) = _
        rw [lookupKa_setKa_self, hka]
        rfl
      · intro fp hfp
        show (lookupKa (setKa a.addrIndex addr.fp _) fp) = _
        rw [lookupKa_setKa_ne _ _ _ _ hfp]
    · rw [hc]
      split <;> rfl
    · rw [hc]
      split <;> rfl
    · rw [hc]
      split <;> rfl
    · rw [hc]
      split <;> rfl

/-- C9 witness: the frame theorem applied to the record at fingerprint 7 of
`stC3` (timestamp 100) with `now = 5000 > 100 + 1200`. -/
theorem c9_connected_frame_witness :
    lookupKa (Connected 5000 stC3 (mkNa 7)).addrIndex 7 =
      some { kaC3 with na := { kaC3.na with timestamp := 5000 } } :=
  (((c9_connected_frame 5000 stC3 (mkNa 7)).2 kaC3 (by decide)).2.1 (by decide)).1

/-! ### C10: a zero start bucket makes the tier sweep empty -/

/-- C10: when the randomly drawn starting bucket index is 0, the cyclic sweep
(`for bucketMod := startBucket; bucketMod < startBucket*2`) of
`getTriedAddress` and `getUntriedAddress` executes zero iterations and the
tier scan returns nothing regardless of the buckets' contents; consequently,
with a generator that draws 0, a `GetAddress` call returns nothing for EVERY
manager state — in particular for the concrete state `stC10`, which holds an
address that passes the quality filter (`isGoodAddress` accepts it). -/
theorem c10_zero_start_sweep (env : Env) (draw : Nat → Nat) (now : Int)
    (a : AddrManager) (relaxed : Bool) (isOk : KnownAddress → Bool) :
    (draw triedBucketCount % triedBucketCount = 0 →
      getTriedAddress env draw now a relaxed isOk = none) ∧
    (draw newBucketCount % newBucketCount = 0 →
      getUntriedAddress env draw now a relaxed isOk = none) ∧
    (GetAddress env drawZero now a isOk).1 = none ∧
    isGoodAddress envW 10000 false (fun _ => true) kaC10 = true ∧
    (GetAddress envW drawZero 10000 stC10 (fun _ => true)).1 = none := by
  have htried : ∀ (env2 : Env) (now2 : Int) (a2 : AddrManager) (r2 : Bool)
      (ok2 : KnownAddress → Bool),
      getTriedAddress env2 drawZero now2 a2 r2 ok2 = none := by
    intro env2 now2 a2 r2 ok2
    unfold getTriedAddress
    rfl
  have huntried : ∀ (env2 : Env) (now2 : Int) (a2 : AddrManager) (r2 : Bool)
      (ok2 : KnownAddress → Bool),
      getUntriedAddress env2 drawZero now2 a2 r2 ok2 = none := by
    intro env2 now2 a2 r2 ok2
    unfold getUntriedAddress
    rfl
  have hmode : ∀ (env2 : Env) (now2 : Int) (a2 : AddrManager) (r2 : Bool)
      (ok2 : KnownAddress → Bool),
      getAddressMode env2 drawZero now2 a2 r2 ok2 = none := by
    intro env2 now2 a2 r2 ok2
    unfold getAddressMode
    rw [htried, huntried]
    split <;> rfl
  have hget : ∀ (env2 : Env) (now2 : Int) (a2 : AddrManager)
      (ok2 : KnownAddress → Bool),
      (GetAddress env2 drawZero now2 a2 ok2).1 = none := by
    intro env2 now2 a2 ok2
    unfold GetAddress getAddress
    rw [hmode, hmode]
    split <;> rfl
  refine ⟨?_, ?_, hget env now a isOk, by decide, hget envW 10000 stC10 _⟩
  · intro h0
    unfold getTriedAddress
    rw [h0]
    rfl
  · intro h0
    unfold getUntriedAddress
    rw [h0]
    rfl

/-- C10 witness: the sweep theorem applied at the all-zero generator and the
concrete state `stC10`. -/
theorem c10_zero_start_sweep_witness :
    getTriedAddress envW drawZero 10000 stC10 false (fun _ => true) = none :=
  (c10_zero_start_sweep envW drawZero 10000 stC10 false (fun _ => true)).1 (by decide)

/-! ### C5: Good on a full tried bucket -/

theorem pickFold_spec (a : AddrManager) :
    ∀ (L : List (Nat × Nat)) (best : Option (Nat × Nat × Int)),
      ∀ q, (L.foldl (fun best p =>
          match lookupKa a.addrIndex p.2 with
          | none => best
          | some ka =>
            match best with
            | none => some (p.1, p.2, ka.na.timestamp)
            | some (bi, bfp, bts) =>
              if bts > ka.na.timestamp then some (p.1, p.2, ka.na.timestamp)
              else some (bi, bfp, bts)) best) = some q →
        (((q.1, q.2.1) ∈ L ∧
            (∃ ka, lookupKa a.addrIndex q.2.1 = some ka ∧ ka.na.timestamp = q.2.2)) ∨
          best = some q) ∧
        (∀ p ∈ L, ∀ ka, lookupKa a.addrIndex p.2 = some ka → q.2.2 ≤ ka.na.timestamp) ∧
        (∀ qb, best = some qb → q.2.2 ≤ qb.2.2) := by
  intro L
  induction L with
  | nil =>
    intro best q hq
    simp only [List.foldl_nil] at hq
    refine ⟨Or.inr hq, ?_, ?_⟩
    · intro p hp
      cases hp
    · intro qb hqb
      rw [hq] at hqb
      cases hqb
      exact le_refl _
  | cons p0 rest ih =>
    intro best q hq
    rw [List.foldl_cons] at hq
    cases hl : lookupKa a.addrIndex p0.2 with
    | none =>
      rw [hl] at hq
      obtain ⟨h1, h2, h3⟩ := ih best q hq
      refine ⟨?_, ?_, h3⟩
      · rcases h1 with ⟨hm, he⟩ | he
        · exact Or.inl ⟨List.mem_cons_of_mem p0 hm, he⟩
        · exact Or.inr he
      · intro p hp ka hka
        rcases List.mem_cons.mp hp with hp0 | hpr
        · rw [hp0, hl] at hka
          cases hka
        · exact h2 p hpr ka hka
    | some ka0 =>
      rw [hl] at hq
      cases best with
      | none =>
        simp only at hq
        obtain ⟨h1, h2, h3⟩ := ih (some (p0.1, p0.2, ka0.na.timestamp)) q hq
        refine ⟨?_, ?_, by rintro qb ⟨⟩⟩
        · rcases h1 with ⟨hm, he⟩ | he
          · exact Or.inl ⟨List.mem_cons_of_mem p0 hm, he⟩
          · cases he
            exact Or.inl ⟨List.mem_cons_self p0 rest, ⟨ka0, hl, rfl⟩⟩
        · intro p hp ka hka
          rcases List.mem_cons.mp hp with hp0 | hpr
          · have := h3 (p0.1, p0.2, ka0.na.timestamp) rfl
            rw [hp0, hl] at hka
            cases hka
            exact this
          · exact h2 p hpr ka hka
      | some b =>
        obtain ⟨bi, bfp, bts⟩ := b
        simp only at hq
        by_cases hgt : bts > ka0.na.timestamp
        · rw [if_pos hgt] at hq
          obtain ⟨h1, h2, h3⟩ := ih (some (p0.1, p0.2, ka0.na.timestamp)) q hq
          have hqts : q.2.2 ≤ ka0.na.timestamp := h3 (p0.1, p0.2, ka0.na.timestamp) rfl
          refine ⟨?_, ?_, ?_⟩
          · rcases h1 with ⟨hm, he⟩ | he
            · exact Or.inl ⟨List.mem_cons_of_mem p0 hm, he⟩
            · cases he
              exact Or.inl ⟨List.mem_cons_self p0 rest, ⟨ka0, hl, rfl⟩⟩
          · intro p hp ka hka
            rcases List.mem_cons.mp hp with hp0 | hpr
            · rw [hp0, hl] at hka
              cases hka
              exact hqts
            · exact h2 p hpr ka hka
          · intro qb hqb
            cases hqb
            exact le_trans hqts (le_of_lt hgt)
        · rw [if_neg hgt] at hq
          obtain ⟨h1, h2, h3⟩ := ih (some (bi, bfp, bts)) q hq
          have hqbts : q.2.2 ≤ bts := h3 (bi, bfp, bts) rfl
          refine ⟨?_, ?_, ?_⟩
          · rcases h1 with ⟨hm, he⟩ | he
            · exact Or.inl ⟨List.mem_cons_of_mem p0 hm, he⟩
            · exact Or.inr he
          · intro p hp ka hka
            rcases List.mem_cons.mp hp with hp0 | hpr
            · rw [hp0, hl] at hka
              cases hka
              exact le_trans hqbts (le_of_not_lt hgt)
            · exact h2 p hpr ka hka
          · intro qb hqb
            cases hqb
            exact hqbts

theorem pickFold_isSome (a : AddrManager) :
    ∀ (L : List (Nat × Nat)) (best : Option (Nat × Nat × Int)),
      (best.isSome ∨ ∃ p ∈ L, (lookupKa a.addrIndex p.2).isSome) →
      (L.foldl (fun best p =>
          match lookupKa a.addrIndex p.2 with
          | none => best
          | some ka =>
            match best with
            | none => some (p.1, p.2, ka.na.timestamp)
            | some (bi, bfp, bts) =>
              if bts > ka.na.timestamp then some (p.1, p.2, ka.na.timestamp)
              else some (bi, bfp, bts)) best).isSome := by
  intro L
  induction L with
  | nil =>
    intro best h
    rcases h with h | ⟨p, hp, _⟩
    · exact h
    · cases hp
  | cons p0 rest ih =>
    intro best h
    rw [List.foldl_cons]
    cases hl : lookupKa a.addrIndex p0.2 with
    | none =>
      refine ih best ?_
      rcases h with h | ⟨p, hp, hps⟩
      · exact Or.inl h
      · rcases List.mem_cons.mp hp with hp0 | hpr
        · rw [hp0, hl] at hps
          cases hps
        · exact Or.inr ⟨p, hpr, hps⟩
    | some ka0 =>
      cases best with
      | none => exact ih _ (Or.inl rfl)
      | some b =>
        obtain ⟨bi, bfp, bts⟩ := b
        simp only
        by_cases hgt : bts > ka0.na.timestamp
        · rw [if_pos hgt]
          exact ih _ (Or.inl rfl)
        · rw [if_neg hgt]
          exact ih _ (Or.inl rfl)

/-- `pickTried` on a nonempty bucket with index-backed entries returns the
position and fingerprint of an entry whose record has a minimal
`na.timestamp`. -/
theorem pickTried_spec (a : AddrManager) (bucket : Nat)
    (hne : a.addrTried bucket ≠ [])
    (hres : ∀ fp ∈ a.addrTried bucket, (lookupKa a.addrIndex fp).isSome) :
    ∃ pos rmfp rmka, pickTried a bucket = some (pos, rmfp) ∧
      (a.addrTried bucket)[pos]? = some rmfp ∧
      lookupKa a.addrIndex rmfp = some rmka ∧
      ∀ fp ∈ a.addrTried bucket, ∀ ka, lookupKa a.addrIndex fp = some ka →
        rmka.na.timestamp ≤ ka.na.timestamp := by
  have hhead : ∃ x, (a.addrTried bucket)[0]? = some x := by
    cases hl : a.addrTried bucket with
    | nil => exact absurd hl hne
    | cons x t => exact ⟨x, by simp⟩
  obtain ⟨x, hx⟩ := hhead
  have hx0 : x ∈ a.addrTried bucket := List.mem_iff_getElem?.mpr ⟨0, hx⟩
  have hsome : (pickTriedAux a bucket).isSome := by
    unfold pickTriedAux
    refine pickFold_isSome a ((a.addrTried bucket).enum) none (Or.inr ?_)
    exact ⟨(0, x), List.mem_enum_iff_getElem?.mpr hx, hres x hx0⟩
  obtain ⟨t, ht⟩ := Option.isSome_iff_exists.mp hsome
  have hfold := pickFold_spec a ((a.addrTried bucket).enum) none t
    (by unfold pickTriedAux at ht; exact ht)
  obtain ⟨h1, h2, _⟩ := hfold
  have hmem : (t.1, t.2.1) ∈ (a.addrTried bucket).enum ∧
      ∃ ka, lookupKa a.addrIndex t.2.1 = some ka ∧ ka.na.timestamp = t.2.2 := by
    rcases h1 with h | h
    · exact h
    · cases h
  obtain ⟨hka, hlka, hts⟩ := hmem.2
  refine ⟨t.1, t.2.1, hka, ?_, ?_, hlka, ?_⟩
  · unfold pickTried
    rw [ht]
    rfl
  · exact List.mem_enum_iff_getElem?.mp hmem.1
  · intro fp hfp ka hlk
    obtain ⟨n, hn⟩ := List.mem_iff_getElem?.mp hfp
    have := h2 (n, fp) (List.mem_enum_iff_getElem?.mpr hn) ka hlk
    rw [← hts] at this
    exact this

theorem goodRemoveNew_addrTried (now : Int) (a : AddrManager) (addrKey : Nat)
    (ka0 : KnownAddress) :
    (goodRemoveNew now a addrKey ka0).addrTried = a.addrTried := rfl

theorem goodRemoveNew_lookup_ne (now : Int) (a : AddrManager) (addrKey fp : Nat)
    (ka0 : KnownAddress) (h : fp ≠ addrKey) :
    lookupKa (goodRemoveNew now a addrKey ka0).addrIndex fp = lookupKa a.addrIndex fp := by
  show lookupKa (setKa (setKa a.addrIndex addrKey _) addrKey _) fp = _
  rw [lookupKa_setKa_ne _ _ _ _ h, lookupKa_setKa_ne _ _ _ _ h]

theorem goodRemoveNew_lookup_self (now : Int) (a : AddrManager) (addrKey : Nat)
    (ka0 : KnownAddress) :
    lookupKa (goodRemoveNew now a addrKey ka0).addrIndex addrKey
      = (lookupKa a.addrIndex addrKey).map (fun _ => goodKa2 now a addrKey ka0) := by
  show lookupKa (setKa (setKa a.addrIndex addrKey _) addrKey _) addrKey = _
  rw [lookupKa_setKa_self, lookupKa_setKa_self]
  cases lookupKa a.addrIndex addrKey <;> rfl

theorem mem_insertKey_self (l : List Nat) (v : Nat) : v ∈ insertKey l v := by
  unfold insertKey
  by_cases h : v ∈ l
  · rw [if_pos h]
    exact h
  · rw [if_neg h]
    simp

/-- C5: `Good` on a record that is new (untried, in at least one new bucket)
whose target tried bucket is full (256 entries, all backed by the index with
`refs = 0`): the entry with the smallest `na.timestamp` is picked as victim,
the promoted record takes its exact slot (the bucket keeps length 256), the
victim is demoted to the new tier with `tried = false` and `refs = 1`,
`nTried` is unchanged and `nNew` ends one higher than the value reached after
the record's removal from the new buckets (hence equal to its starting
value). -/
theorem c5_good_full_tried (env : Env) (now : Int) (a : AddrManager) (addr : NetAddress)
    (ka0 : KnownAddress)
    (hka : lookupKa a.addrIndex addr.fp = some ka0)
    (huntried : ka0.tried = false)
    (hcont : newBucketsContaining (goodA0 now a addr.fp ka0) addr.fp ≠ [])
    (hfull : (a.addrTried (getTriedBucket env a.key ka0.na)).length = triedBucketSize)
    (hresT : ∀ fp ∈ a.addrTried (getTriedBucket env a.key ka0.na),
      (lookupKa a.addrIndex fp).isSome)
    (hneT : addr.fp ∉ a.addrTried (getTriedBucket env a.key ka0.na))
    (hrefs0 : ∀ fp ∈ a.addrTried (getTriedBucket env a.key ka0.na), ∀ ka,
      lookupKa a.addrIndex fp = some ka → ka.refs = 0) :
    ((Good env now a addr).addrTried (getTriedBucket env a.key ka0.na)).length
        = triedBucketSize ∧
    (Good env now a addr).nTried = a.nTried ∧
    (Good env now a addr).nNew = (a.nNew - 1) + 1 ∧
    ∃ pos rmfp rmka,
      (a.addrTried (getTriedBucket env a.key ka0.na))[pos]? = some rmfp ∧
      lookupKa a.addrIndex rmfp = some rmka ∧
      (∀ fp ∈ a.addrTried (getTriedBucket env a.key ka0.na), ∀ ka,
        lookupKa a.addrIndex fp = some ka → rmka.na.timestamp ≤ ka.na.timestamp) ∧
      (Good env now a addr).addrTried (getTriedBucket env a.key ka0.na)
        = (a.addrTried (getTriedBucket env a.key ka0.na)).set pos addr.fp ∧
      lookupKa (Good env now a addr).addrIndex rmfp
        = some { rmka with tried := false, refs := 1 } ∧
      (∃ j, rmfp ∈ (Good env now a addr).addrNew j) ∧
      (lookupKa (Good env now a addr).addrIndex addr.fp).map (fun k => k.tried)
        = some true := by
  obtain ⟨oldB, holdB⟩ : ∃ oldB,
      (newBucketsContaining (goodA0 now a addr.fp ka0) addr.fp).head? = some oldB := by
    cases hl : newBucketsContaining (goodA0 now a addr.fp ka0) addr.fp with
    | nil => exact absurd hl hcont
    | cons x t => exact ⟨x, rfl⟩
  have hG : Good env now a addr =
      goodPromote env (goodRemoveNew now a addr.fp ka0) addr.fp
        (goodKa2 now a addr.fp ka0) oldB := by
    unfold Good
    rw [hka]
    dsimp only
    unfold goodKnown
    rw [if_neg (by show ¬(goodUpdateKa now ka0).tried = true; simp [goodUpdateKa, huntried]),
      holdB]
  -- the victim returned by pickTried on the post-removal state
  have hpickres : ∀ fp ∈ (goodRemoveNew now a addr.fp ka0).addrTried
      (getTriedBucket env a.key ka0.na),
      (lookupKa (goodRemoveNew now a addr.fp ka0).addrIndex fp).isSome := by
    intro fp hfp
    rw [goodRemoveNew_addrTried] at hfp
    have hne : fp ≠ addr.fp := fun he => hneT (he ▸ hfp)
    rw [goodRemoveNew_lookup_ne _ _ _ _ _ hne]
    exact hresT fp hfp
  have hpickne : (goodRemoveNew now a addr.fp ka0).addrTried
      (getTriedBucket env a.key ka0.na) ≠ [] := by
    rw [goodRemoveNew_addrTried]
    intro hnil
    rw [hnil] at hfull
    unfold triedBucketSize at hfull
    simp at hfull
  obtain ⟨pos, rmfp, rmka1, hpick, hslot, hlrm, hmin⟩ :=
    pickTried_spec (goodRemoveNew now a addr.fp ka0)
      (getTriedBucket env a.key ka0.na) hpickne hpickres
  rw [goodRemoveNew_addrTried] at hslot hmin
  have hrmmem : rmfp ∈ a.addrTried (getTriedBucket env a.key ka0.na) :=
    List.mem_iff_getElem?.mpr ⟨pos, hslot⟩
  have hrmne : rmfp ≠ addr.fp := fun he => hneT (he ▸ hrmmem)
  have hlrma : lookupKa a.addrIndex rmfp = some rmka1 := by
    rw [← goodRemoveNew_lookup_ne now a addr.fp rmfp ka0 hrmne]
    exact hlrm
  have hrm0 : rmka1.refs = 0 := hrefs0 rmfp hrmmem rmka1 hlrma
  have hmina : ∀ fp ∈ a.addrTried (getTriedBucket env a.key ka0.na), ∀ ka,
      lookupKa a.addrIndex fp = some ka → rmka1.na.timestamp ≤ ka.na.timestamp := by
    intro fp hfp ka hlk
    have hne : fp ≠ addr.fp := fun he => hneT (he ▸ hfp)
    refine hmin fp hfp ka ?_
    rw [goodRemoveNew_lookup_ne _ _ _ _ _ hne]
    exact hlk
  -- evaluate goodPromote in the full-bucket branch
  have hBeq : getTriedBucket env (goodRemoveNew now a addr.fp ka0).key
      (goodKa2 now a addr.fp ka0).na = getTriedBucket env a.key ka0.na := rfl
  have hfull1 : ¬((goodRemoveNew now a addr.fp ka0).addrTried
      (getTriedBucket env (goodRemoveNew now a addr.fp ka0).key
        (goodKa2 now a addr.fp ka0).na)).length < triedBucketSize := by
    rw [hBeq, goodRemoveNew_addrTried, hfull]
    omega
  have hGP : goodPromote env (goodRemoveNew now a addr.fp ka0) addr.fp
      (goodKa2 now a addr.fp ka0) oldB =
    { goodRemoveNew now a addr.fp ka0 with
      addrIndex := setKa (setKa (goodRemoveNew now a addr.fp ka0).addrIndex addr.fp
          { goodKa2 now a addr.fp ka0 with tried := true }) rmfp
        { rmka1 with tried := false, refs := rmka1.refs + 1 },
      addrTried := setBucket (goodRemoveNew now a addr.fp ka0).addrTried
        (getTriedBucket env a.key ka0.na)
        (((goodRemoveNew now a addr.fp ka0).addrTried
          (getTriedBucket env a.key ka0.na)).set pos addr.fp),
      addrNew := setBucket (goodRemoveNew now a addr.fp ka0).addrNew
        (if ((goodRemoveNew now a addr.fp ka0).addrNew
            (getNewBucket env (goodRemoveNew now a addr.fp ka0).key rmka1.na
              rmka1.srcAddr)).length ≥ newBucketSize
         then oldB
         else getNewBucket env (goodRemoveNew now a addr.fp ka0).key rmka1.na rmka1.srcAddr)
        (insertKey ((goodRemoveNew now a addr.fp ka0).addrNew
          (if ((goodRemoveNew now a addr.fp ka0).addrNew
              (getNewBucket env (goodRemoveNew now a addr.fp ka0).key rmka1.na
                rmka1.srcAddr)).length ≥ newBucketSize
           then oldB
           else getNewBucket env (goodRemoveNew now a addr.fp ka0).key rmka1.na
             rmka1.srcAddr)) rmfp),
      nNew := (goodRemoveNew now a addr.fp ka0).nNew + 1 } := by
    unfold goodPromote
    rw [if_neg hfull1, hBeq, hpick]
    dsimp only
    rw [hlrm]
  rw [hG, hGP]
  refine ⟨?_, rfl, rfl, pos, rmfp, rmka1, hslot, hlrma, hmina, ?_, ?_, ?_, ?_⟩
  · show (setBucket (goodRemoveNew now a addr.fp ka0).addrTried
      (getTriedBucket env a.key ka0.na)
      (((goodRemoveNew now a addr.fp ka0).addrTried
        (getTriedBucket env a.key ka0.na)).set pos addr.fp)
      (getTriedBucket env a.key ka0.na)).length = triedBucketSize
    rw [setBucket_self, List.length_set, goodRemoveNew_addrTried, hfull]
  · show setBucket (goodRemoveNew now a addr.fp ka0).addrTried
      (getTriedBucket env a.key ka0.na)
      (((goodRemoveNew now a addr.fp ka0).addrTried
        (getTriedBucket env a.key ka0.na)).set pos addr.fp)
      (getTriedBucket env a.key ka0.na) = _
    rw [setBucket_self, goodRemoveNew_addrTried]
  · show lookupKa (setKa (setKa (goodRemoveNew now a addr.fp ka0).addrIndex addr.fp _)
      rmfp _) rmfp = _
    rw [lookupKa_setKa_self, lookupKa_setKa_ne _ _ _ _ hrmne, hlrm]
    rw [hrm0]
    rfl
  · refine ⟨if ((goodRemoveNew now a addr.fp ka0).addrNew
        (getNewBucket env (goodRemoveNew now a addr.fp ka0).key rmka1.na
          rmka1.srcAddr)).length ≥ newBucketSize
      then oldB
      else getNewBucket env (goodRemoveNew now a addr.fp ka0).key rmka1.na rmka1.srcAddr,
      ?_⟩
    show rmfp ∈ setBucket _ _ _ _
    rw [setBucket_self]
    exact mem_insertKey_self _ rmfp
  · show (lookupKa (setKa (setKa (goodRemoveNew now a addr.fp ka0).addrIndex addr.fp _)
      rmfp _) addr.fp).map (fun k => k.tried) = _
    rw [lookupKa_setKa_ne _ _ _ _ (Ne.symm hrmne), lookupKa_setKa_self,
      goodRemoveNew_lookup_self, hka]
    rfl

/-- C5 witness: the promotion theorem applied at the concrete manager `stC5`
whose tried bucket 9 is full. -/
theorem c5_good_full_tried_witness :
    ((Good envW 5000 stC5 ⟨500, 0, 999⟩).addrTried
      (getTriedBucket envW stC5.key kaNew5.na)).length = triedBucketSize ∧
    (Good envW 5000 stC5 ⟨500, 0, 999⟩).nTried = stC5.nTried ∧
    (Good envW 5000 stC5 ⟨500, 0, 999⟩).nNew = (stC5.nNew - 1) + 1 := by
  have hrefs0 : ∀ fp ∈ stC5.addrTried (getTriedBucket envW stC5.key kaNew5.na), ∀ ka,
      lookupKa stC5.addrIndex fp = some ka → ka.refs = 0 := by
    have hsur : ∀ fp ∈ stC5.addrTried (getTriedBucket envW stC5.key kaNew5.na),
        ((lookupKa stC5.addrIndex fp).map (fun k => k.refs)).getD 1 = 0 := by decide
    intro fp hfp ka hka
    have := hsur fp hfp
    rw [hka] at this
    simpa using this
  have h := c5_good_full_tried envW 5000 stC5 ⟨500, 0, 999⟩ kaNew5
    (by decide) (by decide) (by decide) (by decide) (by decide) (by decide) hrefs0
  exact ⟨h.1, h.2.1, h.2.2.1⟩

/-! ### C7: failed loads -/

/-- C7 (amended): loading a snapshot whose declared version exceeds
`serialisationVersion` fails before any mutation; `loadPeers` removes the
file and resets, so a manager that started with zero counters is left
completely empty. -/
theorem c7_amended (loadTime : Int) (freshKey : List Nat) (a : AddrManager)
    (sam : SerializedAddrManager)
    (hver : sam.version > serialisationVersion)
    (hnn : a.nNew = 0) (hnt : a.nTried = 0) :
    (deserializePeers loadTime a sam).2.isSome = true ∧
    (loadPeers loadTime freshKey a (some sam)).2 = true ∧
    (loadPeers loadTime freshKey a (some sam)).1.addrIndex = [] ∧
    (∀ i, (loadPeers loadTime freshKey a (some sam)).1.addrNew i = []) ∧
    (∀ i, (loadPeers loadTime freshKey a (some sam)).1.addrTried i = []) ∧
    (loadPeers loadTime freshKey a (some sam)).1.nNew = 0 ∧
    (loadPeers loadTime freshKey a (some sam)).1.nTried = 0 := by
  have hdes : deserializePeers loadTime a sam
      = (a, some "unknown version in serialized addrmanager") := by
    unfold deserializePeers
    rw [if_pos hver]
  have hload : loadPeers loadTime freshKey a (some sam) = (reset freshKey a, true) := by
    unfold loadPeers
    dsimp only
    rw [hdes]
  rw [hdes, hload]
  exact ⟨rfl, rfl, rfl, fun i => rfl, fun i => rfl, hnn, hnt⟩

/-- C7 witness: the amended statement applied at the fresh manager and the
concrete version-3 snapshot `samC7v3`. -/
theorem c7_amended_witness :
    (loadPeers 0 [1] (newManager []) (some samC7v3)).2 = true ∧
    (loadPeers 0 [1] (newManager []) (some samC7v3)).1.addrIndex = [] ∧
    (loadPeers 0 [1] (newManager []) (some samC7v3)).1.nNew = 0 := by
  have h := c7_amended 0 [1] (newManager []) samC7v3 (by decide) rfl rfl
  exact ⟨h.2.1, h.2.2.1, h.2.2.2.2.2.1⟩

/-- C7 (counterexample): a snapshot that fails the post-load sanity check is
reported as an error and the file is removed, but the manager is NOT left in
a fresh reset state: `deserializePeers` already incremented `nNew` and
`nTried` before detecting the failure, and `reset` clears only the index,
key and buckets — the counters survive, so `numAddresses` is 2 on an empty
manager. -/
theorem c7_counterexample :
    (deserializePeers 0 (newManager []) samC7).2.isSome = true ∧
    (loadPeers 0 [9] (newManager []) (some samC7)).2 = true ∧
    (loadPeers 0 [9] (newManager []) (some samC7)).1.addrIndex = [] ∧
    (loadPeers 0 [9] (newManager []) (some samC7)).1.nNew = 1 ∧
    (loadPeers 0 [9] (newManager []) (some samC7)).1.nTried = 1 ∧
    ¬(numAddresses (loadPeers 0 [9] (newManager []) (some samC7)).1 = 0) := by
  decide

/-! ### C6: the snapshot round trip -/

theorem insertKa_none (idx : List (Nat × KnownAddress)) (fp : Nat) (ka : KnownAddress)
    (h : lookupKa idx fp = none) :
    insertKa idx fp ka = idx ++ [(fp, ka)] := by
  unfold insertKa
  rw [h]
  rfl

theorem keys_setKa (idx : List (Nat × KnownAddress)) (fp : Nat) (ka : KnownAddress) :
    (setKa idx fp ka).map (fun p => p.1) = idx.map (fun p => p.1) := by
  unfold setKa
  rw [List.map_map]
  refine List.map_congr_left ?_
  intro p _
  by_cases h : p.1 = fp <;> simp [h]

theorem keys_map_keyed (idx : List (Nat × KnownAddress))
    (g : Nat → KnownAddress → KnownAddress) :
    ((idx.map (fun p => (p.1, g p.1 p.2))).map (fun p => p.1)) = idx.map (fun p => p.1) := by
  rw [List.map_map]
  rfl

theorem lookupKa_cons (p : Nat × KnownAddress) (t : List (Nat × KnownAddress)) (fp : Nat) :
    lookupKa (p :: t) fp = if p.1 = fp then some p.2 else lookupKa t fp := rfl

theorem lookupKa_map_keyed (idx : List (Nat × KnownAddress))
    (g : Nat → KnownAddress → KnownAddress) (fp : Nat) :
    lookupKa (idx.map (fun p => (p.1, g p.1 p.2))) fp
      = (lookupKa idx fp).map (g fp) := by
  induction idx with
  | nil => rfl
  | cons p t ih =>
    rw [List.map_cons, lookupKa_cons, lookupKa_cons]
    by_cases h : p.1 = fp
    · rw [if_pos h, if_pos h, h]
      rfl
    · rw [if_neg h, if_neg h]
      exact ih

theorem keys_map_entry (idx : List (Nat × KnownAddress))
    (g : Nat × KnownAddress → KnownAddress) :
    ((idx.map (fun p => (p.1, g p))).map (fun p => p.1)) = idx.map (fun p => p.1) := by
  rw [List.map_map]
  rfl

theorem lookupKa_map_entry (idx : List (Nat × KnownAddress))
    (g : Nat × KnownAddress → KnownAddress) (fp : Nat) :
    lookupKa (idx.map (fun p => (p.1, g p))) fp
      = (lookupKa idx fp).map (fun ka => g (fp, ka)) := by
  induction idx with
  | nil => rfl
  | cons p t ih =>
    rw [List.map_cons, lookupKa_cons, lookupKa_cons]
    by_cases h : p.1 = fp
    · rw [if_pos h, if_pos h]
      show some (g p) = some (g (fp, p.2))
      rw [← h]
    · rw [if_neg h, if_neg h]
      exact ih

theorem lookup_mem_entry (idx : List (Nat × KnownAddress)) (v : Nat) (ka : KnownAddress)
    (h : lookupKa idx v = some ka) : ∃ p ∈ idx, p.1 = v ∧ p.2 = ka := by
  induction idx with
  | nil => cases h
  | cons q t ih =>
    rw [lookupKa_cons] at h
    by_cases hq : q.1 = v
    · rw [if_pos hq] at h
      exact ⟨q, List.mem_cons_self q t, hq, Option.some_injective _ h⟩
    · rw [if_neg hq] at h
      obtain ⟨p, hp, hp1, hp2⟩ := ih h
      exact ⟨p, List.mem_cons_of_mem q hp, hp1, hp2⟩

theorem lookup_of_mem_nodup (idx : List (Nat × KnownAddress))
    (hnd : (idx.map (fun p => p.1)).Nodup) (p : Nat × KnownAddress) (hp : p ∈ idx) :
    lookupKa idx p.1 = some p.2 := by
  induction idx with
  | nil => cases hp
  | cons q t ih =>
    rw [List.map_cons, List.nodup_cons] at hnd
    rcases List.mem_cons.mp hp with he | hm
    · rw [he]
      unfold lookupKa
      rw [if_pos rfl]
    · unfold lookupKa
      by_cases hq : q.1 = p.1
      · exfalso
        exact hnd.1 (hq ▸ (List.mem_map.mpr ⟨p, hm, rfl⟩))
      · rw [if_neg hq]
        exact ih hnd.2 hm

theorem countP_disjoint_or (l : List Nat) (p q : Nat → Bool)
    (hdis : ∀ x, ¬(p x = true ∧ q x = true)) :
    l.countP (fun x => p x || q x) = l.countP p + l.countP q := by
  induction l with
  | nil => rfl
  | cons x t ih =>
    rw [List.countP_cons, List.countP_cons, List.countP_cons, ih]
    by_cases hp : p x = true
    · have hq : ¬(q x = true) := fun hq => hdis x ⟨hp, hq⟩
      simp [hp, hq]
      omega
    · by_cases hq : q x = true <;> simp [hp, hq] <;> omega

theorem countP_key_single (keys : List Nat) (v : Nat) (pr : Nat → Bool)
    (hnd : keys.Nodup) (hv : v ∈ keys) :
    keys.countP (fun k => decide (k = v) && pr k) = if pr v then 1 else 0 := by
  induction keys with
  | nil => cases hv
  | cons k t ih =>
    rw [List.nodup_cons] at hnd
    rw [List.countP_cons]
    by_cases hk : k = v
    · subst hk
      have hnot : ∀ x ∈ t, ¬(decide (x = k) && pr x) = true := by
        intro x hx
        by_cases hxk : x = k
        · exact absurd (hxk ▸ hx) hnd.1
        · simp [hxk]
      rw [List.countP_eq_zero.mpr hnot]
      by_cases hpr : pr k = true <;> simp [hpr]
    · rcases List.mem_cons.mp hv with he | hm
      · exact absurd he.symm hk
      · rw [ih hnd.2 hm]
        simp [hk]

theorem countP_cross_keys (keys : List Nat) (vs : List Nat) (pr : Nat → Bool)
    (hndk : keys.Nodup) (hndv : vs.Nodup) (hsub : ∀ v ∈ vs, v ∈ keys) :
    keys.countP (fun k => decide (k ∈ vs) && pr k) = vs.countP pr := by
  induction vs with
  | nil => simp
  | cons v vs' ih =>
    rw [List.nodup_cons] at hndv
    have hsplit : keys.countP (fun k => decide (k ∈ v :: vs') && pr k)
        = keys.countP (fun k => decide (k = v) && pr k)
          + keys.countP (fun k => decide (k ∈ vs') && pr k) := by
      rw [← countP_disjoint_or keys _ _ ?_]
      · refine List.countP_congr ?_
        intro k _
        by_cases h1 : k = v <;> by_cases h2 : k ∈ vs' <;> simp [h1, h2]
      · intro x h
        obtain ⟨hx1, hx2⟩ := h
        simp only [Bool.and_eq_true, decide_eq_true_eq] at hx1 hx2
        exact hndv.1 (hx1.1 ▸ hx2.1)
    rw [hsplit, countP_key_single keys v pr hndk (hsub v (List.mem_cons_self v vs')),
      ih hndv.2 (fun w hw => hsub w (List.mem_cons_of_mem v hw)), List.countP_cons]
    by_cases hpr : pr v = true <;> simp [hpr] <;> omega

theorem cntB_succ (B : Nat → List Nat) (n : Nat) (fp : Nat) :
    cntB B (n + 1) fp = cntB B n fp + (if fp ∈ B n then 1 else 0) := by
  unfold cntB
  rw [List.range_succ, List.countP_append]
  congr 1
  by_cases h : fp ∈ B n <;> simp [h]

theorem occB_succ (B : Nat → List Nat) (n : Nat) (fp : Nat) :
    occB B (n + 1) fp = (occB B n fp || decide (fp ∈ B n)) := by
  unfold occB
  rw [List.range_succ, List.any_append]
  simp

/-- `loadAddress` for a version-2 snapshot inserts the rebuilt record. -/
theorem loadAddress_two (loadTime : Int) (a : AddrManager) (v : SerializedKnownAddress) :
    loadAddress 2 loadTime a v
      = { a with addrIndex := insertKa a.addrIndex v.addr (loadedKa loadTime v) } := by
  unfold loadAddress loadedKa
  norm_num

theorem loadAddresses_fold (loadTime : Int) :
    ∀ (l : List SerializedKnownAddress) (acc : AddrManager),
      (∀ v ∈ l, lookupKa acc.addrIndex v.addr = none) →
      (l.map (fun v => v.addr)).Nodup →
      (l.foldl (loadAddress 2 loadTime) acc).addrIndex
        = acc.addrIndex ++ l.map (fun v => (v.addr, loadedKa loadTime v)) ∧
      (l.foldl (loadAddress 2 loadTime) acc).addrNew = acc.addrNew ∧
      (l.foldl (loadAddress 2 loadTime) acc).addrTried = acc.addrTried ∧
      (l.foldl (loadAddress 2 loadTime) acc).nNew = acc.nNew ∧
      (l.foldl (loadAddress 2 loadTime) acc).nTried = acc.nTried ∧
      (l.foldl (loadAddress 2 loadTime) acc).key = acc.key ∧
      (l.foldl (loadAddress 2 loadTime) acc).version = acc.version := by
  intro l
  induction l with
  | nil =>
    intro acc _ _
    exact ⟨by simp, rfl, rfl, rfl, rfl, rfl, rfl⟩
  | cons v rest ih =>
    intro acc hnone hnd
    rw [List.map_cons, List.nodup_cons] at hnd
    rw [List.foldl_cons, loadAddress_two,
      insertKa_none _ _ _ (hnone v (List.mem_cons_self v rest))]
    have hnone' : ∀ w ∈ rest,
        lookupKa (acc.addrIndex ++ [(v.addr, loadedKa loadTime v)]) w.addr = none := by
      intro w hw
      rw [lookupKa_append, hnone w (List.mem_cons_of_mem v hw)]
      have hne : ¬ v.addr = w.addr := by
        intro he
        exact hnd.1 (he ▸ (List.mem_map.mpr ⟨w, hw, rfl⟩))
      show lookupKa [(v.addr, loadedKa loadTime v)] w.addr = none
      rw [lookupKa_cons, if_neg hne]
      rfl
    obtain ⟨h1, h2, h3, h4, h5, h6, h7⟩ := ih
      { acc with addrIndex := acc.addrIndex ++ [(v.addr, loadedKa loadTime v)] }
      hnone' hnd.2
    exact ⟨by rw [h1]; simp, h2, h3, h4, h5, h6, h7⟩

/-- One `loadNewEntry` step on an error-free state with a resolvable entry. -/
theorem loadNewEntry_step (i : Nat) (s : AddrManager) (v : Nat) (ka : KnownAddress)
    (hka : lookupKa s.addrIndex v = some ka) :
    loadNewEntry i (s, none) v = (loadNewState i s v ka, none) := by
  unfold loadNewEntry loadNewState bumpRefsKa
  dsimp only
  rw [hka]
  dsimp only
  by_cases hr : ka.refs = 0
  · rw [if_pos hr, if_pos hr]
  · rw [if_neg hr, if_neg hr]
    simp

theorem loadNew_inner (i : Nat) :
    ∀ (vs : List Nat) (s : AddrManager),
      (s.addrIndex.map (fun p => p.1)).Nodup →
      vs.Nodup →
      (∀ v ∈ vs, (lookupKa s.addrIndex v).isSome) →
      (∀ v ∈ vs, v ∉ s.addrNew i) →
      (vs.foldl (loadNewEntry i) (s, none)).2 = none ∧
      (vs.foldl (loadNewEntry i) (s, none)).1.addrIndex
        = s.addrIndex.map (fun p => (p.1, if p.1 ∈ vs then bumpRefsKa p.2 else p.2)) ∧
      (vs.foldl (loadNewEntry i) (s, none)).1.addrNew i = s.addrNew i ++ vs ∧
      (∀ j, j ≠ i → (vs.foldl (loadNewEntry i) (s, none)).1.addrNew j = s.addrNew j) ∧
      (vs.foldl (loadNewEntry i) (s, none)).1.nNew
        = s.nNew + (vs.countP (fun v => decide (refsOf s v = 0)) : Int) ∧
      (vs.foldl (loadNewEntry i) (s, none)).1.addrTried = s.addrTried ∧
      (vs.foldl (loadNewEntry i) (s, none)).1.nTried = s.nTried ∧
      (vs.foldl (loadNewEntry i) (s, none)).1.key = s.key ∧
      (vs.foldl (loadNewEntry i) (s, none)).1.version = s.version := by
  intro vs
  induction vs with
  | nil =>
    intro s _ _ _ _
    refine ⟨rfl, ?_, by simp, fun j _ => rfl, by simp, rfl, rfl, rfl, rfl⟩
    simp
  | cons v vs' ih =>
    intro s hndk hndv hres hnb
    rw [List.nodup_cons] at hndv
    obtain ⟨ka, hka⟩ := Option.isSome_iff_exists.mp (hres v (List.mem_cons_self v vs'))
    rw [List.foldl_cons, loadNewEntry_step i s v ka hka]
    have hvnb : v ∉ s.addrNew i := hnb v (List.mem_cons_self v vs')
    have hins : insertKey (s.addrNew i) v = s.addrNew i ++ [v] := by
      unfold insertKey
      rw [if_neg hvnb]
    obtain ⟨h1, h2, h3, h4, h5, h6, h7, h8, h9⟩ := ih (loadNewState i s v ka)
      (by
        show ((setKa s.addrIndex v (bumpRefsKa ka)).map (fun p => p.1)).Nodup
        rw [keys_setKa]
        exact hndk)
      hndv.2
      (by
        intro w hw
        show (lookupKa (setKa s.addrIndex v (bumpRefsKa ka)) w).isSome = true
        rw [isSome_lookupKa_setKa]
        exact hres w (List.mem_cons_of_mem v hw))
      (by
        intro w hw
        show w ∉ setBucket s.addrNew i (insertKey (s.addrNew i) v) i
        rw [setBucket_self, hins]
        intro hmem
        rcases List.mem_append.mp hmem with hl | hr
        · exact hnb w (List.mem_cons_of_mem v hw) hl
        · exact hndv.1 ((List.mem_singleton.mp hr) ▸ hw))
    refine ⟨h1, ?_, ?_, ?_, ?_, h6, h7, h8, h9⟩
    · rw [h2]
      show (setKa s.addrIndex v (bumpRefsKa ka)).map _ = _
      unfold setKa
      rw [List.map_map]
      refine List.map_congr_left ?_
      intro p hp
      show (fun q => ((q : Nat × KnownAddress).1,
          if q.1 ∈ vs' then bumpRefsKa q.2 else q.2))
          (if p.1 = v then (v, bumpRefsKa ka) else p) = _
      by_cases hpv : p.1 = v
      · rw [if_pos hpv]
        have hkap : p.2 = ka := by
          have := lookup_of_mem_nodup s.addrIndex hndk p hp
          rw [hpv, hka] at this
          exact Option.some_injective _ this.symm
        have hvin : p.1 ∈ v :: vs' := hpv ▸ List.mem_cons_self v vs'
        rw [if_pos hvin]
        dsimp only
        rw [if_neg hndv.1, hpv, hkap]
      · rw [if_neg hpv]
        dsimp only
        by_cases hm : p.1 ∈ vs'
        · rw [if_pos hm, if_pos (List.mem_cons_of_mem v hm)]
        · rw [if_neg hm, if_neg ?_]
          intro hc
          rcases List.mem_cons.mp hc with he | hm2
          · exact hpv he
          · exact hm hm2
    · rw [h3]
      show setBucket s.addrNew i (insertKey (s.addrNew i) v) i ++ vs' = _
      rw [setBucket_self, hins, List.append_assoc]
      rfl
    · intro j hj
      rw [h4 j hj]
      show setBucket s.addrNew i (insertKey (s.addrNew i) v) j = _
      rw [setBucket_ne _ _ _ _ hj]
    · rw [h5]
      have hcong : (vs'.countP fun w => decide (refsOf (loadNewState i s v ka) w = 0))
          = vs'.countP (fun w => decide (refsOf s w = 0)) := by
        refine List.countP_congr ?_
        intro w hw
        have hwv : w ≠ v := fun he => hndv.1 (he ▸ hw)
        unfold refsOf loadNewState
        dsimp only
        rw [lookupKa_setKa_ne s.addrIndex v w _ hwv]
      rw [hcong, List.countP_cons]
      show s.nNew + (if ka.refs = 0 then (1 : Int) else 0) + _ = _
      have hrv : decide (refsOf s v = 0) = (if ka.refs = 0 then true else false) := by
        unfold refsOf
        rw [hka]
        by_cases hr : ka.refs = 0 <;> simp [hr]
      rw [hrv]
      by_cases hr : ka.refs = 0
      · rw [if_pos hr, if_pos hr]
        simp <;> omega
      · rw [if_neg hr, if_neg hr]
        simp <;> omega

theorem bumpRefs_addRefs (c : Nat) (ka : KnownAddress) :
    bumpRefsKa (addRefsKa c ka) = addRefsKa (c + 1) ka := by
  cases ka
  simp only [bumpRefsKa, addRefsKa]
  push_cast
  ring_nf

theorem addRefsKa_zero (ka : KnownAddress) : addRefsKa 0 ka = ka := by
  cases ka
  simp [addRefsKa]

theorem mem_keys_of_lookup_isSome (idx : List (Nat × KnownAddress)) (v : Nat)
    (h : (lookupKa idx v).isSome) : v ∈ idx.map (fun p => p.1) := by
  induction idx with
  | nil => exact absurd h (by simp [lookupKa])
  | cons p t ih =>
    rw [lookupKa_cons] at h
    by_cases hp : p.1 = v
    · exact List.mem_map.mpr ⟨p, List.mem_cons_self p t, hp⟩
    · rw [if_neg hp] at h
      exact List.mem_cons_of_mem _ (ih h)

theorem loadNew_outer (B : Nat → List Nat) :
    ∀ (n : Nat) (acc : AddrManager),
      (acc.addrIndex.map (fun p => p.1)).Nodup →
      (∀ i, i < n → (B i).Nodup) →
      (∀ i, i < n → ∀ v ∈ B i, (lookupKa acc.addrIndex v).isSome) →
      (∀ j, acc.addrNew j = []) →
      (∀ p ∈ acc.addrIndex, p.2.refs = 0) →
      (loadNewFold B n (acc, none)).2 = none ∧
      (loadNewFold B n (acc, none)).1.addrIndex
        = acc.addrIndex.map (fun p => (p.1, addRefsKa (cntB B n p.1) p.2)) ∧
      (∀ i, i < n → (loadNewFold B n (acc, none)).1.addrNew i = B i) ∧
      (∀ j, n ≤ j → (loadNewFold B n (acc, none)).1.addrNew j = []) ∧
      (loadNewFold B n (acc, none)).1.nNew
        = acc.nNew + (((acc.addrIndex.map (fun p => p.1)).countP
            (fun k => decide (0 < cntB B n k))) : Int) ∧
      (loadNewFold B n (acc, none)).1.addrTried = acc.addrTried ∧
      (loadNewFold B n (acc, none)).1.nTried = acc.nTried ∧
      (loadNewFold B n (acc, none)).1.key = acc.key ∧
      (loadNewFold B n (acc, none)).1.version = acc.version := by
  intro n
  induction n with
  | zero =>
    intro acc hndk _ _ hfresh _
    refine ⟨rfl, ?_, fun i hi => absurd hi (Nat.not_lt_zero i), fun j _ => hfresh j, ?_,
      rfl, rfl, rfl, rfl⟩
    · show acc.addrIndex = _
      rw [show (fun p => ((p : Nat × KnownAddress).1, addRefsKa (cntB B 0 p.1) p.2))
          = (fun p => (p.1, p.2)) from ?_]
      · simp
      · funext p
        rw [show cntB B 0 p.1 = 0 from rfl, addRefsKa_zero]
    · show acc.nNew = _
      have hc : ((acc.addrIndex.map (fun p => p.1)).countP
          (fun k => decide (0 < cntB B 0 k))) = 0 := by
        refine List.countP_eq_zero.mpr ?_
        intro k _
        show ¬(decide (0 < cntB B 0 k) = true)
        rw [show cntB B 0 k = 0 from rfl]
        simp
      rw [hc]
      simp
  | succ n ihn =>
    intro acc hndk hbnd hbres hfresh hz
    obtain ⟨o1, o2, o3, o4, o5, o6, o7, o8, o9⟩ := ihn acc hndk
      (fun i hi => hbnd i (Nat.lt_succ_of_lt hi))
      (fun i hi => hbres i (Nat.lt_succ_of_lt hi)) hfresh hz
    have hsplit : loadNewFold B (n + 1) (acc, none)
        = (B n).foldl (loadNewEntry n) (loadNewFold B n (acc, none)) := by
      unfold loadNewFold
      rw [List.range_succ, List.foldl_append]
      rfl
    have hpair : loadNewFold B n (acc, none)
        = ((loadNewFold B n (acc, none)).1, none) :=
      Prod.ext_iff.mpr ⟨rfl, o1⟩
    have hlook : ∀ v, lookupKa (loadNewFold B n (acc, none)).1.addrIndex v
        = (lookupKa acc.addrIndex v).map (fun ka => addRefsKa (cntB B n v) ka) := by
      intro v
      rw [o2, lookupKa_map_entry]
    obtain ⟨i1, i2, i3, i4, i5, i6, i7, i8, i9⟩ :=
      loadNew_inner n (B n) (loadNewFold B n (acc, none)).1
      (by rw [o2, keys_map_entry]; exact hndk)
      (hbnd n (Nat.lt_succ_self n))
      (by
        intro v hv
        rw [hlook v]
        obtain ⟨ka, hka⟩ := Option.isSome_iff_exists.mp
          (hbres n (Nat.lt_succ_self n) v hv)
        rw [hka]
        rfl)
      (by
        intro v _
        rw [o4 n (Nat.le_refl n)]
        exact List.not_mem_nil v)
    rw [hsplit, hpair]
    refine ⟨i1, ?_, ?_, ?_, ?_, by rw [i6, o6], by rw [i7, o7], by rw [i8, o8],
      by rw [i9, o9]⟩
    · rw [i2, o2, List.map_map]
      refine List.map_congr_left ?_
      intro p _
      show ((p.1 : Nat), if p.1 ∈ B n then bumpRefsKa (addRefsKa (cntB B n p.1) p.2)
          else addRefsKa (cntB B n p.1) p.2) = (p.1, addRefsKa (cntB B (n + 1) p.1) p.2)
      rw [cntB_succ]
      by_cases hm : p.1 ∈ B n
      · rw [if_pos hm, if_pos hm, bumpRefs_addRefs]
      · rw [if_neg hm, if_neg hm]
        rfl
    · intro i hi
      rcases Nat.lt_succ_iff_lt_or_eq.mp hi with hlt | heq
      · rw [i4 i (Nat.ne_of_lt hlt), o3 i hlt]
      · subst heq
        rw [i3, o4 i (Nat.le_refl i), List.nil_append]
    · intro j hj
      rw [i4 j (by omega), o4 j (by omega)]
    · rw [i5, o5]
      have hmemkeys : ∀ v ∈ B n, v ∈ acc.addrIndex.map (fun p => p.1) := by
        intro v hv
        exact mem_keys_of_lookup_isSome _ v (hbres n (Nat.lt_succ_self n) v hv)
      have hrefsOf : ∀ v ∈ B n,
          decide (refsOf (loadNewFold B n (acc, none)).1 v = 0)
            = decide (cntB B n v = 0) := by
        intro v hv
        obtain ⟨ka, hka⟩ := Option.isSome_iff_exists.mp
          (hbres n (Nat.lt_succ_self n) v hv)
        have hzka : ka.refs = 0 := by
          obtain ⟨p, hp, hp1, hp2⟩ := lookup_mem_entry acc.addrIndex v ka hka
          rw [← hp2]
          exact hz p hp
        unfold refsOf
        rw [hlook v, hka]
        show decide ((addRefsKa (cntB B n v) ka).refs = 0) = _
        unfold addRefsKa
        dsimp only
        rw [hzka]
        simp
      have hcnt1 : (B n).countP
          (fun v => decide (refsOf (loadNewFold B n (acc, none)).1 v = 0))
          = (B n).countP (fun v => decide (cntB B n v = 0)) :=
        List.countP_congr (fun v hv => by rw [hrefsOf v hv])
      have hstep : (acc.addrIndex.map (fun p => p.1)).countP
            (fun k => decide (0 < cntB B (n + 1) k))
          = (acc.addrIndex.map (fun p => p.1)).countP
              (fun k => decide (0 < cntB B n k))
            + (B n).countP (fun v => decide (cntB B n v = 0)) := by
        have hpt : ∀ k, decide (0 < cntB B (n + 1) k)
            = (decide (0 < cntB B n k)
              || (decide (k ∈ B n) && decide (cntB B n k = 0))) := by
          intro k
          rw [cntB_succ]
          by_cases h1 : 0 < cntB B n k
          · simp [h1]
          · have h0 : cntB B n k = 0 := by omega
            by_cases h2 : k ∈ B n <;> simp [h0, h1, h2]
        rw [List.countP_congr (fun k _ => by rw [hpt k]),
          countP_disjoint_or _ _ _ ?_,
          countP_cross_keys _ _ _ hndk (hbnd n (Nat.lt_succ_self n)) hmemkeys]
        intro x hx
        obtain ⟨hx1, hx2⟩ := hx
        simp only [decide_eq_true_eq, Bool.and_eq_true] at hx1 hx2
        omega
      rw [hcnt1, hstep]
      push_cast
      ring

theorem setTriedKa_idem (ka : KnownAddress) :
    setTriedKa (setTriedKa ka) = setTriedKa ka := rfl

theorem loadTriedEntry_step (i : Nat) (s : AddrManager) (v : Nat) (ka : KnownAddress)
    (hka : lookupKa s.addrIndex v = some ka) :
    loadTriedEntry i (s, none) v = (loadTriedState i s v ka, none) := by
  unfold loadTriedEntry loadTriedState setTriedKa
  dsimp only
  rw [hka]

theorem loadTried_inner (i : Nat) :
    ∀ (vs : List Nat) (s : AddrManager),
      (s.addrIndex.map (fun p => p.1)).Nodup →
      (∀ v ∈ vs, (lookupKa s.addrIndex v).isSome) →
      (vs.foldl (loadTriedEntry i) (s, none)).2 = none ∧
      (vs.foldl (loadTriedEntry i) (s, none)).1.addrIndex
        = s.addrIndex.map (fun p => (p.1, if p.1 ∈ vs then setTriedKa p.2 else p.2)) ∧
      (vs.foldl (loadTriedEntry i) (s, none)).1.addrTried i = s.addrTried i ++ vs ∧
      (∀ j, j ≠ i → (vs.foldl (loadTriedEntry i) (s, none)).1.addrTried j = s.addrTried j) ∧
      (vs.foldl (loadTriedEntry i) (s, none)).1.nTried = s.nTried + (vs.length : Int) ∧
      (vs.foldl (loadTriedEntry i) (s, none)).1.addrNew = s.addrNew ∧
      (vs.foldl (loadTriedEntry i) (s, none)).1.nNew = s.nNew ∧
      (vs.foldl (loadTriedEntry i) (s, none)).1.key = s.key ∧
      (vs.foldl (loadTriedEntry i) (s, none)).1.version = s.version := by
  intro vs
  induction vs with
  | nil =>
    intro s _ _
    refine ⟨rfl, ?_, by simp, fun j _ => rfl, by simp, rfl, rfl, rfl, rfl⟩
    simp
  | cons v vs' ih =>
    intro s hndk hres
    obtain ⟨ka, hka⟩ := Option.isSome_iff_exists.mp (hres v (List.mem_cons_self v vs'))
    rw [List.foldl_cons, loadTriedEntry_step i s v ka hka]
    obtain ⟨h1, h2, h3, h4, h5, h6, h7, h8, h9⟩ := ih (loadTriedState i s v ka)
      (by
        show ((setKa s.addrIndex v (setTriedKa ka)).map (fun p => p.1)).Nodup
        rw [keys_setKa]
        exact hndk)
      (by
        intro w hw
        show (lookupKa (setKa s.addrIndex v (setTriedKa ka)) w).isSome = true
        rw [isSome_lookupKa_setKa]
        exact hres w (List.mem_cons_of_mem v hw))
    refine ⟨h1, ?_, ?_, ?_, ?_, h6, h7, h8, h9⟩
    · rw [h2]
      show (setKa s.addrIndex v (setTriedKa ka)).map _ = _
      unfold setKa
      rw [List.map_map]
      refine List.map_congr_left ?_
      intro p hp
      show (fun q => ((q : Nat × KnownAddress).1,
          if q.1 ∈ vs' then setTriedKa q.2 else q.2))
          (if p.1 = v then (v, setTriedKa ka) else p) = _
      by_cases hpv : p.1 = v
      · rw [if_pos hpv]
        have hkap : p.2 = ka := by
          have := lookup_of_mem_nodup s.addrIndex hndk p hp
          rw [hpv, hka] at this
          exact Option.some_injective _ this.symm
        have hvin : p.1 ∈ v :: vs' := hpv ▸ List.mem_cons_self v vs'
        rw [if_pos hvin]
        dsimp only
        by_cases hm : v ∈ vs'
        · rw [if_pos hm, setTriedKa_idem, hpv, hkap]
        · rw [if_neg hm, hpv, hkap]
      · rw [if_neg hpv]
        dsimp only
        by_cases hm : p.1 ∈ vs'
        · rw [if_pos hm, if_pos (List.mem_cons_of_mem v hm)]
        · rw [if_neg hm, if_neg ?_]
          intro hc
          rcases List.mem_cons.mp hc with he | hm2
          · exact hpv he
          · exact hm hm2
    · rw [h3]
      show setBucket s.addrTried i (s.addrTried i ++ [v]) i ++ vs' = _
      rw [setBucket_self, List.append_assoc]
      rfl
    · intro j hj
      rw [h4 j hj]
      show setBucket s.addrTried i (s.addrTried i ++ [v]) j = _
      rw [setBucket_ne _ _ _ _ hj]
    · rw [h5]
      show s.nTried + 1 + _ = _
      rw [List.length_cons]
      push_cast
      ring

theorem loadTried_outer (B : Nat → List Nat) :
    ∀ (n : Nat) (acc : AddrManager),
      (acc.addrIndex.map (fun p => p.1)).Nodup →
      (∀ i, i < n → ∀ v ∈ B i, (lookupKa acc.addrIndex v).isSome) →
      (∀ j, acc.addrTried j = []) →
      (loadTriedFold B n (acc, none)).2 = none ∧
      (loadTriedFold B n (acc, none)).1.addrIndex
        = acc.addrIndex.map (fun p => (p.1, if occB B n p.1 then setTriedKa p.2 else p.2)) ∧
      (∀ i, i < n → (loadTriedFold B n (acc, none)).1.addrTried i = B i) ∧
      (∀ j, n ≤ j → (loadTriedFold B n (acc, none)).1.addrTried j = []) ∧
      (loadTriedFold B n (acc, none)).1.nTried
        = acc.nTried + (((List.range n).map (fun i => (B i).length)).sum : Int) ∧
      (loadTriedFold B n (acc, none)).1.addrNew = acc.addrNew ∧
      (loadTriedFold B n (acc, none)).1.nNew = acc.nNew ∧
      (loadTriedFold B n (acc, none)).1.key = acc.key ∧
      (loadTriedFold B n (acc, none)).1.version = acc.version := by
  intro n
  induction n with
  | zero =>
    intro acc _ _ hfresh
    refine ⟨rfl, ?_, fun i hi => absurd hi (Nat.not_lt_zero i), fun j _ => hfresh j,
      by simp [loadTriedFold], rfl, rfl, rfl, rfl⟩
    show acc.addrIndex = _
    rw [show (fun p => ((p : Nat × KnownAddress).1,
        if occB B 0 p.1 then setTriedKa p.2 else p.2)) = (fun p => (p.1, p.2)) from ?_]
    · simp
    · funext p
      rw [show occB B 0 p.1 = false from rfl]
      simp
  | succ n ihn =>
    intro acc hndk hbres hfresh
    obtain ⟨o1, o2, o3, o4, o5, o6, o7, o8, o9⟩ := ihn acc hndk
      (fun i hi => hbres i (Nat.lt_succ_of_lt hi)) hfresh
    have hsplit : loadTriedFold B (n + 1) (acc, none)
        = (B n).foldl (loadTriedEntry n) (loadTriedFold B n (acc, none)) := by
      unfold loadTriedFold
      rw [List.range_succ, List.foldl_append]
      rfl
    have hpair : loadTriedFold B n (acc, none)
        = ((loadTriedFold B n (acc, none)).1, none) :=
      Prod.ext_iff.mpr ⟨rfl, o1⟩
    obtain ⟨i1, i2, i3, i4, i5, i6, i7, i8, i9⟩ :=
      loadTried_inner n (B n) (loadTriedFold B n (acc, none)).1
      (by rw [o2, keys_map_entry]; exact hndk)
      (by
        intro v hv
        rw [o2, lookupKa_map_entry]
        obtain ⟨ka, hka⟩ := Option.isSome_iff_exists.mp
          (hbres n (Nat.lt_succ_self n) v hv)
        rw [hka]
        rfl)
    rw [hsplit, hpair]
    refine ⟨i1, ?_, ?_, ?_, ?_, by rw [i6, o6], by rw [i7, o7], by rw [i8, o8],
      by rw [i9, o9]⟩
    · rw [i2, o2, List.map_map]
      refine List.map_congr_left ?_
      intro p _
      show ((p.1 : Nat), if p.1 ∈ B n
          then setTriedKa (if occB B n p.1 then setTriedKa p.2 else p.2)
          else (if occB B n p.1 then setTriedKa p.2 else p.2))
          = (p.1, if occB B (n + 1) p.1 then setTriedKa p.2 else p.2)
      rw [occB_succ]
      by_cases hm : p.1 ∈ B n
      · rw [if_pos hm]
        by_cases ho : occB B n p.1 = true
        · rw [if_pos ho, setTriedKa_idem, if_pos (by simp [ho])]
        · rw [if_neg ho, if_pos (by simp [hm])]
      · rw [if_neg hm]
        by_cases ho : occB B n p.1 = true
        · rw [if_pos ho, if_pos (by simp [ho])]
        · rw [if_neg ho, if_neg (by simp [ho, hm])]
    · intro i hi
      rcases Nat.lt_succ_iff_lt_or_eq.mp hi with hlt | heq
      · rw [i4 i (Nat.ne_of_lt hlt), o3 i hlt]
      · subst heq
        rw [i3, o4 i (Nat.le_refl i), List.nil_append]
    · intro j hj
      rw [i4 j (by omega), o4 j (by omega)]
    · rw [i5, o5, List.range_succ, List.map_append, List.sum_append]
      push_cast
      simp
      ring

theorem nat_sum_pos_iff (l : List Nat) : 0 < l.sum ↔ ∃ x ∈ l, 0 < x := by
  induction l with
  | nil => simp
  | cons a t ih =>
    rw [List.sum_cons]
    constructor
    · intro h
      by_cases ha : 0 < a
      · exact ⟨a, List.mem_cons_self a t, ha⟩
      · have : 0 < t.sum := by omega
        obtain ⟨x, hx, hxp⟩ := ih.mp this
        exact ⟨x, List.mem_cons_of_mem a hx, hxp⟩
    · rintro ⟨x, hx, hxp⟩
      rcases List.mem_cons.mp hx with he | hm
      · omega
      · have := ih.mpr ⟨x, hm, hxp⟩
        omega

/-- `deserializePeers` on a saved snapshot decomposes into the three loading
stages followed by the sanity check. -/
theorem deserializePeers_eq_stages (loadTime : Int) (a0 a : AddrManager)
    (hv : ¬((savePeers a).version > serialisationVersion)) :
    deserializePeers loadTime a0 (savePeers a)
      = match rtStage3 loadTime a0 a with
        | (a5, some e) => (a5, some e)
        | (a5, none) =>
          if sanityFails a5
            then (a5, some "address after serialisation with bad references")
            else (a5, none) := by
  unfold deserializePeers rtStage3 rtStage2 rtStage1 loadNewFold loadTriedFold
  rw [if_neg hv]

/-- C6 (amended): a snapshot of a well-formed version-2 manager, reloaded into
a fresh manager, reproduces the index up to resetting the two `NetAddress`
timestamps of each record to the load-time clock, reproduces both bucket
tiers pointwise, the counters `nNew` and `nTried`, and the key; the load
reports no error. -/
theorem c6_amended (loadTime : Int) (a0 a : AddrManager)
    (h0idx : a0.addrIndex = [])
    (h0new : ∀ j, a0.addrNew j = [])
    (h0tried : ∀ j, a0.addrTried j = [])
    (h0nNew : a0.nNew = 0)
    (h0nTried : a0.nTried = 0)
    (hver : a.version = serialisationVersion)
    (W1 : (a.addrIndex.map (fun p => p.1)).Nodup)
    (W2 : ∀ p ∈ a.addrIndex, p.2.na.fp = p.1)
    (W3 : ∀ i, i < newBucketCount → (a.addrNew i).Nodup)
    (W3b : ∀ i, i < newBucketCount → ∀ v ∈ a.addrNew i, (lookupKa a.addrIndex v).isSome)
    (W4 : ∀ i, i < triedBucketCount → ∀ v ∈ a.addrTried i, (lookupKa a.addrIndex v).isSome)
    (W5 : ∀ p ∈ a.addrIndex, p.2.refs = (newRefCount a p.1 : Int))
    (W5b : ∀ p ∈ a.addrIndex, p.2.tried = decide (0 < triedOccCount a p.1))
    (W6 : ∀ p ∈ a.addrIndex, (0 < newRefCount a p.1 ∧ triedOccCount a p.1 = 0)
        ∨ (newRefCount a p.1 = 0 ∧ 0 < triedOccCount a p.1))
    (W7 : a.nNew = ((a.addrIndex.countP (fun p => decide (0 < newRefCount a p.1))) : Int))
    (W8 : a.nTried = (((List.range triedBucketCount).map
        (fun i => (a.addrTried i).length)).sum : Int)) :
    (deserializePeers loadTime a0 (savePeers a)).2 = none ∧
    (deserializePeers loadTime a0 (savePeers a)).1.addrIndex
      = a.addrIndex.map (fun p => (p.1, reloadKa loadTime p.2)) ∧
    (∀ i, i < newBucketCount →
      (deserializePeers loadTime a0 (savePeers a)).1.addrNew i = a.addrNew i) ∧
    (∀ i, i < triedBucketCount →
      (deserializePeers loadTime a0 (savePeers a)).1.addrTried i = a.addrTried i) ∧
    (deserializePeers loadTime a0 (savePeers a)).1.nNew = a.nNew ∧
    (deserializePeers loadTime a0 (savePeers a)).1.nTried = a.nTried ∧
    (deserializePeers loadTime a0 (savePeers a)).1.key = a.key := by
  have hver2 : (savePeers a).version = (2 : Int) := hver
  have hguard : ¬((savePeers a).version > serialisationVersion) := by
    rw [hver2]
    decide
  have hg1 : a.version > (1 : Int) := by
    rw [hver]
    decide
  have haddr : (savePeers a).addresses = a.addrIndex.map serEntry := by
    show a.addrIndex.map _ = a.addrIndex.map serEntry
    refine List.map_congr_left ?_
    intro p _
    unfold serEntry
    rw [if_pos hg1, if_pos hg1]
  have hkeysaddr : (savePeers a).addresses.map (fun v => v.addr)
      = a.addrIndex.map (fun p => p.1) := by
    rw [haddr, List.map_map]
    rfl
  have hstage1eq : rtStage1 loadTime a0 a
      = ((savePeers a).addresses).foldl (loadAddress 2 loadTime)
          { a0 with key := (savePeers a).key } := by
    unfold rtStage1
    rw [hver2]
  obtain ⟨s1idx, s1new, s1tried, s1nNew, s1nTried, s1key, s1ver⟩ :=
    loadAddresses_fold loadTime ((savePeers a).addresses)
      { a0 with key := (savePeers a).key }
      (fun v _ => by
        show lookupKa a0.addrIndex v.addr = none
        rw [h0idx]
        rfl)
      (by rw [hkeysaddr]; exact W1)
  have hS1idx : (rtStage1 loadTime a0 a).addrIndex
      = a.addrIndex.map (fun p => (p.1, loadedKa loadTime (serEntry p))) := by
    rw [hstage1eq, s1idx]
    show a0.addrIndex ++ _ = _
    rw [h0idx, List.nil_append, haddr, List.map_map]
    rfl
  have hS1new : ∀ j, (rtStage1 loadTime a0 a).addrNew j = [] := by
    intro j
    rw [hstage1eq, s1new]
    exact h0new j
  have hS1tried : ∀ j, (rtStage1 loadTime a0 a).addrTried j = [] := by
    intro j
    rw [hstage1eq, s1tried]
    exact h0tried j
  have hS1nNew : (rtStage1 loadTime a0 a).nNew = 0 := by
    rw [hstage1eq, s1nNew]
    exact h0nNew
  have hS1nTried : (rtStage1 loadTime a0 a).nTried = 0 := by
    rw [hstage1eq, s1nTried]
    exact h0nTried
  have hS1key : (rtStage1 loadTime a0 a).key = a.key := by
    rw [hstage1eq, s1key]
    rfl
  have hS1z : ∀ p ∈ (rtStage1 loadTime a0 a).addrIndex, p.2.refs = 0 := by
    intro p hp
    rw [hS1idx] at hp
    obtain ⟨q, _, hq⟩ := List.mem_map.mp hp
    rw [← hq]
    rfl
  have hS1keys : (rtStage1 loadTime a0 a).addrIndex.map (fun p => p.1)
      = a.addrIndex.map (fun p => p.1) := by
    rw [hS1idx, keys_map_entry]
  have hnewB : ∀ i, i < newBucketCount → (savePeers a).newBuckets i = a.addrNew i :=
    fun i hi => if_pos hi
  have htriedB : ∀ i, i < triedBucketCount → (savePeers a).triedBuckets i = a.addrTried i :=
    fun i hi => if_pos hi
  obtain ⟨n1, n2, n3, n4, n5, n6, n7, n8, n9⟩ :=
    loadNew_outer (savePeers a).newBuckets newBucketCount (rtStage1 loadTime a0 a)
      (by rw [hS1keys]; exact W1)
      (fun i hi => by rw [hnewB i hi]; exact W3 i hi)
      (fun i hi v hv => by
        rw [hnewB i hi] at hv
        rw [hS1idx, lookupKa_map_entry]
        obtain ⟨ka, hka⟩ := Option.isSome_iff_exists.mp (W3b i hi v hv)
        rw [hka]
        rfl)
      hS1new
      hS1z
  have hstage2eq : rtStage2 loadTime a0 a
      = loadNewFold (savePeers a).newBuckets newBucketCount
          (rtStage1 loadTime a0 a, none) := rfl
  have hcnt : ∀ k, cntB (savePeers a).newBuckets newBucketCount k = newRefCount a k := by
    intro k
    unfold cntB newRefCount
    refine List.countP_congr ?_
    intro i hi
    rw [List.mem_range] at hi
    rw [hnewB i hi]
  have hidx2 : (rtStage2 loadTime a0 a).1.addrIndex
      = a.addrIndex.map (fun p =>
          (p.1, addRefsKa (newRefCount a p.1) (loadedKa loadTime (serEntry p)))) := by
    rw [hstage2eq, n2, hS1idx, List.map_map]
    refine List.map_congr_left ?_
    intro p _
    show ((p.1 : Nat), addRefsKa (cntB (savePeers a).newBuckets newBucketCount p.1)
        (loadedKa loadTime (serEntry p))) = _
    rw [hcnt p.1]
  have hkeys2 : (rtStage2 loadTime a0 a).1.addrIndex.map (fun p => p.1)
      = a.addrIndex.map (fun p => p.1) := by
    rw [hidx2, keys_map_entry]
  have hnew2 : ∀ i, i < newBucketCount →
      (rtStage2 loadTime a0 a).1.addrNew i = a.addrNew i := by
    intro i hi
    rw [hstage2eq, n3 i hi, hnewB i hi]
  have htried2 : ∀ j, (rtStage2 loadTime a0 a).1.addrTried j = [] := by
    intro j
    rw [hstage2eq, n6]
    exact hS1tried j
  have hnNew2 : (rtStage2 loadTime a0 a).1.nNew = a.nNew := by
    rw [hstage2eq, n5, hS1nNew, hS1keys, List.countP_map, W7]
    have hc : a.addrIndex.countP
          ((fun k => decide (0 < cntB (savePeers a).newBuckets newBucketCount k))
            ∘ (fun p => p.1))
        = a.addrIndex.countP (fun p => decide (0 < newRefCount a p.1)) :=
      List.countP_congr (fun p _ => by
        show (decide (0 < cntB (savePeers a).newBuckets newBucketCount p.1) = true) ↔ _
        rw [hcnt p.1])
    rw [hc]
    omega
  have h2none : (rtStage2 loadTime a0 a).2 = none := by
    rw [hstage2eq]
    exact n1
  have hpair2 : rtStage2 loadTime a0 a = ((rtStage2 loadTime a0 a).1, none) :=
    Prod.ext_iff.mpr ⟨rfl, h2none⟩
  have hstage3eq : rtStage3 loadTime a0 a
      = loadTriedFold (savePeers a).triedBuckets triedBucketCount
          ((rtStage2 loadTime a0 a).1, none) := by
    unfold rtStage3
    conv_lhs => rw [hpair2]
  obtain ⟨t1, t2, t3, t4, t5, t6, t7, t8, t9⟩ :=
    loadTried_outer (savePeers a).triedBuckets triedBucketCount
      (rtStage2 loadTime a0 a).1
      (by rw [hkeys2]; exact W1)
      (fun i hi v hv => by
        rw [htriedB i hi] at hv
        rw [hidx2, lookupKa_map_entry]
        obtain ⟨ka, hka⟩ := Option.isSome_iff_exists.mp (W4 i hi v hv)
        rw [hka]
        rfl)
      htried2
  have hocc : ∀ k, occB (savePeers a).triedBuckets triedBucketCount k
      = decide (0 < triedOccCount a k) := by
    intro k
    have hiff : (occB (savePeers a).triedBuckets triedBucketCount k = true)
        ↔ (0 < triedOccCount a k) := by
      unfold occB triedOccCount
      rw [List.any_eq_true]
      constructor
      · rintro ⟨i, hi, hdec⟩
        rw [List.mem_range] at hi
        rw [htriedB i hi] at hdec
        rw [decide_eq_true_eq] at hdec
        refine (nat_sum_pos_iff _).mpr ?_
        exact ⟨(a.addrTried i).count k,
          List.mem_map.mpr ⟨i, List.mem_range.mpr hi, rfl⟩,
          List.count_pos_iff.mpr hdec⟩
      · intro hpos
        obtain ⟨x, hx, hxp⟩ := (nat_sum_pos_iff _).mp hpos
        obtain ⟨i, hir, hxe⟩ := List.mem_map.mp hx
        refine ⟨i, hir, ?_⟩
        rw [List.mem_range] at hir
        rw [htriedB i hir]
        exact decide_eq_true (List.count_pos_iff.mp (hxe ▸ hxp))
    by_cases hpos : 0 < triedOccCount a k
    · rw [hiff.mpr hpos, decide_eq_true hpos]
    · have h1 : occB (savePeers a).triedBuckets triedBucketCount k = false := by
        cases hb : occB (savePeers a).triedBuckets triedBucketCount k
        · rfl
        · exact absurd (hiff.mp hb) hpos
      rw [h1, decide_eq_false hpos]
  have hidx3 : (rtStage3 loadTime a0 a).1.addrIndex
      = a.addrIndex.map (fun p => (p.1, reloadKa loadTime p.2)) := by
    rw [hstage3eq, t2, hidx2, List.map_map]
    refine List.map_congr_left ?_
    intro p hp
    show ((p.1 : Nat), if occB (savePeers a).triedBuckets triedBucketCount p.1
        then setTriedKa (addRefsKa (newRefCount a p.1) (loadedKa loadTime (serEntry p)))
        else addRefsKa (newRefCount a p.1) (loadedKa loadTime (serEntry p)))
      = (p.1, reloadKa loadTime p.2)
    rw [hocc p.1]
    have hW2 := W2 p hp
    have hW5 := W5 p hp
    have hW5b := W5b p hp
    by_cases ho : 0 < triedOccCount a p.1
    · rw [if_pos (decide_eq_true ho)]
      refine congrArg (fun x => ((p.1 : Nat), x)) ?_
      rw [decide_eq_true ho] at hW5b
      unfold setTriedKa addRefsKa loadedKa serEntry reloadKa
      dsimp only
      rw [hW2, ← hW5, hW5b]
      norm_num
    · rw [if_neg (by rw [decide_eq_false ho]; exact Bool.false_ne_true)]
      refine congrArg (fun x => ((p.1 : Nat), x)) ?_
      rw [decide_eq_false ho] at hW5b
      unfold addRefsKa loadedKa serEntry reloadKa
      dsimp only
      rw [hW2, ← hW5, hW5b]
      norm_num
  have hsan : sanityFails (rtStage3 loadTime a0 a).1 = false := by
    unfold sanityFails
    rw [hidx3]
    rw [List.any_eq_false]
    intro q hq
    obtain ⟨p, hp, hpe⟩ := List.mem_map.mp hq
    rw [← hpe]
    have hW5 := W5 p hp
    have hW5b := W5b p hp
    have hW6 := W6 p hp
    show ¬(((decide ((reloadKa loadTime p.2).refs = 0) && !(reloadKa loadTime p.2).tried)
        || (decide ((reloadKa loadTime p.2).refs > 0) && (reloadKa loadTime p.2).tried))
        = true)
    have hrefs : (reloadKa loadTime p.2).refs = p.2.refs := rfl
    have htried : (reloadKa loadTime p.2).tried = p.2.tried := rfl
    rw [hrefs, htried, hW5, hW5b]
    rcases hW6 with ⟨hc, hoc⟩ | ⟨hc, hoc⟩
    · rw [decide_eq_false (show ¬((newRefCount a p.1 : Int) = 0) by omega),
        decide_eq_false (show ¬(0 < triedOccCount a p.1) by omega)]
      simp
    · rw [decide_eq_true (show ((newRefCount a p.1 : Int) = 0) by omega),
        decide_eq_true (show (0 < triedOccCount a p.1) by omega),
        decide_eq_false (show ¬((newRefCount a p.1 : Int) > 0) by omega)]
      simp
  have h3none : (rtStage3 loadTime a0 a).2 = none := by
    rw [hstage3eq]
    exact t1
  have hmatch : deserializePeers loadTime a0 (savePeers a)
      = ((rtStage3 loadTime a0 a).1, none) := by
    rw [deserializePeers_eq_stages loadTime a0 a hguard]
    have hpair3 : rtStage3 loadTime a0 a = ((rtStage3 loadTime a0 a).1, none) :=
      Prod.ext_iff.mpr ⟨rfl, h3none⟩
    conv_lhs => rw [hpair3]
    dsimp only
    rw [hsan, if_neg Bool.false_ne_true]
  refine ⟨?_, ?_, ?_, ?_, ?_, ?_, ?_⟩
  · rw [hmatch]
  · rw [hmatch]
    exact hidx3
  · intro i hi
    rw [hmatch]
    show (rtStage3 loadTime a0 a).1.addrNew i = _
    rw [hstage3eq, t6]
    exact hnew2 i hi
  · intro i hi
    rw [hmatch]
    show (rtStage3 loadTime a0 a).1.addrTried i = _
    rw [hstage3eq, t3 i hi, htriedB i hi]
  · rw [hmatch]
    show (rtStage3 loadTime a0 a).1.nNew = a.nNew
    rw [hstage3eq, t7]
    exact hnNew2
  · rw [hmatch]
    show (rtStage3 loadTime a0 a).1.nTried = a.nTried
    rw [hstage3eq, t5]
    have h20 : (rtStage2 loadTime a0 a).1.nTried = 0 := by
      rw [hstage2eq, n7]
      exact hS1nTried
    have hs : ((List.range triedBucketCount).map
          (fun i => ((savePeers a).triedBuckets i).length))
        = ((List.range triedBucketCount).map (fun i => (a.addrTried i).length)) := by
      refine List.map_congr_left ?_
      intro i hir
      rw [List.mem_range] at hir
      rw [htriedB i hir]
    rw [h20, hs, W8]
    omega
  · rw [hmatch]
    show (rtStage3 loadTime a0 a).1.key = a.key
    rw [hstage3eq, t8, hstage2eq, n8]
    exact hS1key

theorem c6_amended_witness :
    (deserializePeers 777 (newManager []) (savePeers stRT)).2 = none ∧
    (deserializePeers 777 (newManager []) (savePeers stRT)).1.addrIndex
      = stRT.addrIndex.map (fun p => (p.1, reloadKa 777 p.2)) ∧
    (∀ i, i < newBucketCount →
      (deserializePeers 777 (newManager []) (savePeers stRT)).1.addrNew i
        = stRT.addrNew i) ∧
    (∀ i, i < triedBucketCount →
      (deserializePeers 777 (newManager []) (savePeers stRT)).1.addrTried i
        = stRT.addrTried i) ∧
    (deserializePeers 777 (newManager []) (savePeers stRT)).1.nNew = stRT.nNew ∧
    (deserializePeers 777 (newManager []) (savePeers stRT)).1.nTried = stRT.nTried ∧
    (deserializePeers 777 (newManager []) (savePeers stRT)).1.key = stRT.key :=
  c6_amended 777 (newManager []) stRT rfl (fun _ => rfl) (fun _ => rfl) rfl rfl rfl
    (by decide) (by decide) (by decide) (by decide) (by decide) (by decide) (by decide)
    (by decide) (by decide) (by decide)

/-- C6 counterexample: the stored record of `stRT` has `na.timestamp = 100`,
the load succeeds with no error, yet the reloaded record carries the load-time
clock value 777 instead — the serialized `TimeStamp` field is never read back,
so the table is not reproduced exactly. -/
theorem c6_counterexample :
    kaRT.na.timestamp = 100 ∧
    (deserializePeers 777 (newManager []) (savePeers stRT)).2 = none ∧
    (lookupKa (deserializePeers 777 (newManager []) (savePeers stRT)).1.addrIndex 7).map
        (fun ka => ka.na.timestamp) = some 777 ∧
    (deserializePeers 777 (newManager []) (savePeers stRT)).1.addrIndex
      ≠ stRT.addrIndex := by
  refine ⟨rfl, ?_, ?_, ?_⟩ <;> decide

end Addrmgr
